import Mathlib

/-!
# G+Smo assembly pipeline: element scatter and box topology

A shallow embedding of

* `gsVisitorPoisson::evaluate`, `assemble` and `localToGlobal` (the
  `gsDofMapper` overload), `src/src/gsAssembler/gsVisitorPoisson.h`;
* `gsBoxTopology`, `src/src/gsCore/gsBoxTopology.cpp`;
* `gsNorm::apply`, `src/src/gsAssembler/gsNorm.h`;
* the constructors of `gsIterativeSolver`, `src/src/gsSolver/gsIterativeSolver.h`,
  and `gsBlockOp`, `src/src/gsSolver/gsBlockPreconditioner.h`;
* `math::ipow` and `math::round`, `src/src/gsCore/gsMath.h`.

The coefficient type `T` of the C++ templates is an arbitrary commutative ring
`R`, that is, the statements are about exact arithmetic.  Dense matrices are
total functions of a row and a column index; the index-range preconditions of
the Eigen containers are not part of the model.  Where the code sets and reads
the dimensions of its matrices (`evaluate`, lines 101-102), the matrices carry
their numbers of rows and columns (`gsSizedMatrix`).  The `int` arithmetic of
`checkConsistency` and `math::ipow` is wrap-around arithmetic modulo `2^32`
(`wrapInt`).
-/

namespace gismo

/-! ## Matrices -/

/-- A dense `gsMatrix<T>`: entry at (row, column). -/
abbrev gsMatrix (R : Type) := Nat → Nat → R

/-- A `gsSparseMatrix<T>`: `none` is a position that holds no stored entry,
`some v` a stored entry of value `v`. -/
abbrev gsSparseMatrix (R : Type) := Nat → Nat → Option R

namespace gsSparseMatrix

/-- The matrix without any stored entry (the zero matrix). -/
def zero (R : Type) : gsSparseMatrix R := fun _ _ => none

/-- Reading `coeff(i,j)`: the stored value, zero where nothing is stored. -/
def coeff {R : Type} [Zero R] (m : gsSparseMatrix R) (i j : Nat) : R :=
  (m i j).getD 0

/-- The statement `m.coeffRef(i,j) += v`: `coeffRef` creates the entry when it
is absent, then `v` is added to it. -/
def coeffRefAdd {R : Type} [Zero R] [Add R] (m : gsSparseMatrix R) (i j : Nat) (v : R) :
    gsSparseMatrix R :=
  fun r c => if r = i ∧ c = j then some (coeff m i j + v) else m r c

end gsSparseMatrix

namespace gsMatrix

/-- The statement `m.row(i) += v` for a row vector `v`. -/
def rowAdd {R : Type} [Add R] (m : gsMatrix R) (i : Nat) (v : Nat → R) : gsMatrix R :=
  fun r k => if r = i then m r k + v k else m r k

/-- The statement `m.row(i).noalias() -= a * v` for a scalar `a` and a row vector `v`. -/
def rowSubScaled {R : Type} [Sub R] [Mul R] (m : gsMatrix R) (i : Nat) (a : R) (v : Nat → R) :
    gsMatrix R :=
  fun r k => if r = i then m r k - a * v k else m r k

end gsMatrix

/-! ## Degree-of-freedom mapper -/

/-- The part of `gsDofMapper` that `gsVisitorPoisson::localToGlobal` calls.  The
class itself is an external collaborator; its three methods are parameters of
the development and nothing is assumed about them.
`localToGlobal locals patchIndex` is the vector of global indices written by
`mapper.localToGlobal(locals, patchIndex, globals)`. -/
structure gsDofMapper where
  localToGlobal : (Nat → Nat) → Int → Nat → Nat
  is_free_index : Nat → Bool
  global_to_bindex : Nat → Nat

/-! ## Poisson visitor -/

/-- The members of `gsVisitorPoisson` that `localToGlobal` reads and writes. -/
structure gsVisitorPoisson (R : Type) where
  actives : Nat → Nat
  numActive : Nat
  localMat : gsMatrix R
  localRhs : gsMatrix R

namespace gsVisitorPoisson

variable {R : Type} [CommRing R]

/-- Body of the inner loop `for j` (lines 155-170) for the row `i`, `ii = actives(i)`. -/
def colStep (mapper : gsDofMapper) (eliminatedDofs : gsMatrix R) (act : Nat → Nat)
    (localMat : gsMatrix R) (i ii : Nat) (acc : gsSparseMatrix R × gsMatrix R) (j : Nat) :
    gsSparseMatrix R × gsMatrix R :=
  let jj := act j
  if mapper.is_free_index jj then
    (acc.1.coeffRefAdd ii jj (localMat i j), acc.2)
  else
    (acc.1, acc.2.rowSubScaled ii (localMat i j) (eliminatedDofs (mapper.global_to_bindex jj)))

/-- Body of the outer loop `for i` (lines 148-172). -/
def rowStep (mapper : gsDofMapper) (eliminatedDofs : gsMatrix R) (act : Nat → Nat)
    (numActive : Nat) (localMat localRhs : gsMatrix R)
    (acc : gsSparseMatrix R × gsMatrix R) (i : Nat) : gsSparseMatrix R × gsMatrix R :=
  let ii := act i
  if mapper.is_free_index ii then
    (List.range numActive).foldl (colStep mapper eliminatedDofs act localMat i ii)
      (acc.1, acc.2.rowAdd ii (localRhs i))
  else acc

/-- The global indices of the active functions after line 145,
`mapper.localToGlobal(actives, patchIndex, actives)`. -/
def globalActives (v : gsVisitorPoisson R) (mapper : gsDofMapper) (patchIndex : Int) :
    Nat → Nat :=
  mapper.localToGlobal v.actives patchIndex

/-- The method `localToGlobal(mapper, eliminatedDofs, patchIndex, sysMatrix, rhsMatrix)`:
the visitor (whose `actives` now hold global indices), the system matrix and
the right-hand side after the call. -/
def localToGlobal (v : gsVisitorPoisson R) (mapper : gsDofMapper) (eliminatedDofs : gsMatrix R)
    (patchIndex : Int) (sysMatrix : gsSparseMatrix R) (rhsMatrix : gsMatrix R) :
    gsVisitorPoisson R × gsSparseMatrix R × gsMatrix R :=
  let act := mapper.localToGlobal v.actives patchIndex
  let out := (List.range v.numActive).foldl
    (rowStep mapper eliminatedDofs act v.numActive v.localMat v.localRhs) (sysMatrix, rhsMatrix)
  ({ v with actives := act }, out.1, out.2)

/-- One element contribution handed to `localToGlobal`: the visitor state after
`evaluate`/`assemble` and the patch index. -/
structure Call (R : Type) where
  visitor : gsVisitorPoisson R
  patchIndex : Int

/-- A sequence of `localToGlobal` calls on the same system, in order, with one
mapper and one table of eliminated values. -/
def scatterAll (mapper : gsDofMapper) (eliminatedDofs : gsMatrix R) (calls : List (Call R))
    (sysMatrix : gsSparseMatrix R) (rhsMatrix : gsMatrix R) : gsSparseMatrix R × gsMatrix R :=
  calls.foldl
    (fun acc c => (localToGlobal c.visitor mapper eliminatedDofs c.patchIndex acc.1 acc.2).2)
    (sysMatrix, rhsMatrix)

end gsVisitorPoisson

/-! ## A two-function element

One element with two active functions: global index `0` is free, global index
`1` is eliminated and is slot `0` of the table of eliminated values. -/

namespace TwoDofElement

/-- Mapper with the identity numbering; only the global index `0` is free. -/
def mapper : gsDofMapper where
  localToGlobal := fun locals _ i => locals i
  is_free_index := fun g => decide (g = 0)
  global_to_bindex := fun g => g - 1

/-- Visitor state with `localMat = [[1,2],[3,4]]` and `localRhs = [[10],[20]]`. -/
def visitor : gsVisitorPoisson Int where
  actives := fun i => i
  numActive := 2
  localMat := fun i j => 2 * (i : Int) + (j : Int) + 1
  localRhs := fun i _ => 10 * ((i : Int) + 1)

/-- Table of eliminated values holding `5` everywhere. -/
def elimFive : gsMatrix Int := fun _ _ => 5

/-- Table of eliminated values holding `0` everywhere. -/
def elimZero : gsMatrix Int := fun _ _ => 0

/-- The zero right-hand side. -/
def rhsZero : gsMatrix Int := fun _ _ => 0

end TwoDofElement

/-! ## Box topology: sides, corners, interfaces

`gsBoxTopology.cpp` is embedded function by function.  Its header and
`gsBoundary.h` (the types `patch_side`, `patch_corner`, `boundaryInterface`
and the helpers on sides and corners of the parameter cube) are not part of the
sources at hand; they are modelled below, each such definition saying so. -/

/-- Ways in which a member function leaves without a result.  `outOfFuel` is
not an exception of the program: it marks a loop of the model that was still
running when its step budget ended. -/
inductive Failure where
  | cannotIterate   -- throw std::runtime_error("cannot iterate, no patches")
  | assertFailed    -- GISMO_ASSERT with a false condition
  | gismoError      -- GISMO_ERROR
  | duplicateSide   -- DuplicateSideError
  | outOfFuel
  | blockSizeMismatch   -- BlockSizeMismatchError
  deriving DecidableEq, Repr

deriving instance DecidableEq for Except

/-- Modelled from the spec: `patch_side`, the pair (patch index, side identifier);
the side identifiers of a `dim`-dimensional cube are `1 .. 2*dim`
(west, east, south, north, front, back) and `0` is no side. -/
structure patch_side where
  patch : Int
  side : Nat
  deriving DecidableEq, Repr

/-- Modelled from the spec: `patch_corner`, the pair (patch index, corner
identifier); the corner identifiers of a `dim`-dimensional cube are `1 .. 2^dim`
(for `dim = 2`: southwest, southeast, northwest, northeast). -/
structure patch_corner where
  patch : Int
  corner : Nat
  deriving DecidableEq, Repr

/-- Modelled from the spec: `boundaryInterface`, two patch sides and the
orientation record of the shared side (one flag per direction inside the side:
`true` when the two parametrizations run the same way). -/
structure boundaryInterface where
  ps1 : patch_side
  ps2 : patch_side
  orient : List Bool
  deriving DecidableEq, Repr

/-- Modelled from the spec: `firstSide`, the first side identifier of the enumeration. -/
def firstSide : Nat := 1

/-- Modelled from the spec: `nextSide(dim, side)`, which advances `side` to the
next of the `2*dim` side identifiers and returns `true`, or returns `false` and
leaves `side` alone when it is the last one. -/
def nextSide (dim : Nat) (side : Nat) : Bool × Nat :=
  if side < 2 * dim then (true, side + 1) else (false, side)

/-- Modelled from the spec: `direction(s)`, the parameter direction that is
constant on side `s`. -/
def direction (s : Nat) : Nat := (s - 1) / 2

/-- Modelled from the spec: `parameter(s)`, `false` when side `s` is the start
and `true` when it is the end of its direction. -/
def parameter (s : Nat) : Bool := s % 2 == 0

/-- Modelled from the spec: `getParameters(corner, dim)`, the position of a
corner as one flag per direction (`false` start, `true` end). -/
def getParameters (c : Nat) (dim : Nat) : List Bool :=
  (List.range dim).map (fun i => ((c - 1) / 2 ^ i) % 2 == 1)

/-- Modelled from the spec: `getPatchSides(corner, dim, sides)`, the `dim` sides
of the patch that contain the corner, by direction. -/
def getPatchSides (c : patch_corner) (dim : Nat) : List patch_side :=
  (List.range dim).map
    (fun i => ⟨c.patch, 2 * i + (if ((c.corner - 1) / 2 ^ i) % 2 == 1 then 2 else 1)⟩)

/-- Modelled from the spec: `getParsOnSide(corner, side, dim, pars)`, the
position of the corner inside the side: its flags without the one of the
direction of the side. -/
def getParsOnSide (c : patch_corner) (ps : patch_side) (dim : Nat) : List Bool :=
  (getParameters c.corner dim).eraseIdx (direction ps.side)

/-- The corner identifier of a list of position flags. -/
def cornerOfParameters : List Bool → Nat
  | [] => 1
  | b :: bs => (if b then 1 else 0) + 2 * (cornerOfParameters bs - 1) + 1

/-- Modelled from the spec: `getPatchCorner(side, pars)`, the corner of the
patch that lies on the side at the position `pars` inside the side. -/
def getPatchCorner (ps : patch_side) (locPars : List Bool) : patch_corner :=
  ⟨ps.patch,
    cornerOfParameters
      (locPars.take (direction ps.side) ++ parameter ps.side :: locPars.drop (direction ps.side))⟩

/-- Modelled from the spec: the data members of `gsBoxTopology`: the dimension
of the boxes, their number, the boundary sides and the interfaces. -/
structure gsBoxTopology where
  m_dim : Nat
  nboxes : Nat
  m_boundary : List patch_side
  m_interfaces : List boundaryInterface
  deriving DecidableEq, Repr

/-- The value that an `int` holds after an operation whose exact result is `z`,
in wrap-around arithmetic: the number congruent to `z` modulo `2^32` in the
range `-2^31 .. 2^31 - 1`. -/
def wrapInt (z : Int) : Int := (z + 2147483648) % 4294967296 - 2147483648

/-- Warnings that `checkConsistency` writes to the error stream. -/
inductive Warning where
  | inconsistent (patches numSides interfaces boundaries unaccounted : Int)
  | boundaryOutOfRange (patch : Int)
  | interfaceOutOfRange (patch1 patch2 : Int)
  deriving DecidableEq, Repr

namespace gsBoxTopology

/-- Modelled from the spec: `nInterfaces()`, the number of interfaces. -/
def nInterfaces (t : gsBoxTopology) : Nat := t.m_interfaces.length

/-- Modelled from the spec: `nBoundary()`, the number of boundary sides. -/
def nBoundary (t : gsBoxTopology) : Nat := t.m_boundary.length

/-- Modelled from the spec: `size()`, the number of boxes. -/
def size (t : gsBoxTopology) : Nat := t.nboxes

/-- Modelled from the spec: `isBoundary(ps)`, membership of `ps` in the list of
boundary sides. -/
def isBoundary (t : gsBoxTopology) (ps : patch_side) : Bool :=
  t.m_boundary.any (fun b => b == ps)

/-- The method `isInterface` (lines 22-29). -/
def isInterface (t : gsBoxTopology) (ps : patch_side) : Bool :=
  t.m_interfaces.any (fun i => i.ps1 == ps || i.ps2 == ps)

/-- Modelled from the spec: `addBoundary(ps)`, which fails with
`DuplicateSideError` if `ps` is already classified and otherwise appends `ps`
to the boundary sides. -/
def addBoundary (t : gsBoxTopology) (ps : patch_side) : Except Failure gsBoxTopology :=
  if t.isBoundary ps || t.isInterface ps then .error .duplicateSide
  else .ok { t with m_boundary := t.m_boundary ++ [ps] }

/-- The comparison `i->patch >= nboxes` of lines 43 and 48.  The patch index is
an `int`; `nboxes` is declared in the absent header, and `unsignedBoxes` says
whether its type is unsigned: C++ then converts the patch index to the unsigned
type before it compares, which gives its value modulo `2^32` (for a 64-bit
unsigned type modulo `2^64`, and the same outcome of the comparison as long as
`nboxes` is below `2^31`). -/
def patchAtLeast (unsignedBoxes : Bool) (patch : Int) (nboxes : Nat) : Bool :=
  if unsignedBoxes then decide (patch % 4294967296 ≥ (nboxes : Int))
  else decide (patch ≥ (nboxes : Int))

/-- The method `checkConsistency` (lines 31-53): the warnings it prints, in
order.  `numSides` is an `int` (line 33), and so are the sum and the difference
of lines 34 and 40: `int` arithmetic is modelled as wrap-around arithmetic.
`unsignedBoxes` is the signedness of `nboxes`, see `patchAtLeast`. -/
def checkConsistency (t : gsBoxTopology) (unsignedBoxes : Bool) : List Warning :=
  let numSides : Int := wrapInt ((t.nboxes : Int) * 2 * (t.m_dim : Int))
  (if numSides ≠ wrapInt (2 * (t.nInterfaces : Int) + (t.nBoundary : Int)) then
    [Warning.inconsistent t.size numSides t.nInterfaces t.nBoundary
      (wrapInt (numSides - 2 * (t.nInterfaces : Int) - (t.nBoundary : Int)))]
   else [])
  ++ t.m_boundary.filterMap
      (fun b => if patchAtLeast unsignedBoxes b.patch t.nboxes then
          some (Warning.boundaryOutOfRange b.patch)
        else none)
  ++ t.m_interfaces.filterMap
      (fun i => if patchAtLeast unsignedBoxes i.ps1.patch t.nboxes
            || patchAtLeast unsignedBoxes i.ps2.patch t.nboxes then
          some (Warning.interfaceOutOfRange i.ps1.patch i.ps2.patch)
        else none)

/-- The method `firstPatchSide` (lines 56-64). -/
def firstPatchSide (t : gsBoxTopology) : Except Failure patch_side :=
  if t.nboxes = 0 then .error .cannotIterate
  else .ok ⟨0, firstSide⟩

/-- The method `nextPatchSide` (lines 66-75): the return value and the new
value of `result`. -/
def nextPatchSide (t : gsBoxTopology) (result : patch_side) : Bool × patch_side :=
  let n := nextSide t.m_dim result.side
  if n.1 then (true, { result with side := n.2 })
  else
    let patch := result.patch + 1
    (decide (patch < (t.nboxes : Int)), ⟨patch, firstSide⟩)

/-- Body of the `do` loop of `addAutoBoundaries` (lines 16-18). -/
def autoBoundaryBody (t : gsBoxTopology) (ps : patch_side) : Except Failure gsBoxTopology :=
  if !t.isBoundary ps && !t.isInterface ps then t.addBoundary ps else .ok t

/-- The `do ... while ( nextPatchSide( ps ) )` loop of `addAutoBoundaries`
(lines 15-19), run for at most `fuel` passes. -/
def addAutoBoundariesLoop : Nat → gsBoxTopology → patch_side → Except Failure gsBoxTopology
  | 0, _, _ => .error .outOfFuel
  | fuel + 1, t, ps =>
    match t.autoBoundaryBody ps with
    | .error e => .error e
    | .ok t1 =>
      let n := t1.nextPatchSide ps
      if n.1 then addAutoBoundariesLoop fuel t1 n.2 else .ok t1

/-- The method `addAutoBoundaries` (lines 8-20).  The loop visits at most
`max 1 (2*m_dim)` sides of each of the `nboxes` patches, which the step budget
covers. -/
def addAutoBoundaries (t : gsBoxTopology) : Except Failure gsBoxTopology :=
  if t.nboxes = 0 then .ok t
  else
    match t.firstPatchSide with
    | .error e => .error e
    | .ok ps => addAutoBoundariesLoop (t.nboxes * (2 * t.m_dim + 1)) t ps

/-- The loop of `getNeighbour` (lines 79-88) over the interfaces still to visit. -/
def getNeighbourLoop : List boundaryInterface → patch_side → patch_side → Bool × patch_side
  | [], _, result => (false, result)
  | i :: rest, ps, result =>
    if i.ps1 = ps then (true, i.ps2)
    else if i.ps2 = ps then (true, i.ps1)
    else getNeighbourLoop rest ps result

/-- The method `getNeighbour(ps, result)` (lines 77-90): the return value and
the value of `result` after the call. -/
def getNeighbour (t : gsBoxTopology) (ps : patch_side) (result : patch_side) :
    Bool × patch_side :=
  getNeighbourLoop t.m_interfaces ps result

/-- Modelled from the spec: `getOrientationOfInterface(ps, orient)`, which
stores in `orient` the orientation record of the interface that contains `ps`
(the first one in the list, as `getNeighbour` does) and leaves `orient` alone
when there is none. -/
def getOrientationOfInterface (t : gsBoxTopology) (ps : patch_side) (orient : List Bool) :
    List Bool :=
  match t.m_interfaces.find? (fun i => i.ps1 == ps || i.ps2 == ps) with
  | some i => i.orient
  | none => orient

end gsBoxTopology

/-! ## Corner cycles -/

/-- The local variables of `getCornerList` that live across passes of its loop. -/
structure CornerWalk where
  cornerList : List patch_corner
  curSide : patch_side
  endSide : patch_side
  neighbour : patch_side
  curCorner : patch_corner
  orient : List Bool
  firstTurn : Bool
  deriving DecidableEq, Repr

namespace gsBoxTopology

/-- Lines 124-136 of `getCornerList`: crossing the interface at `curSide` to
`neighbour` and turning to the other side at the corner reached. -/
def crossInterface (t : gsBoxTopology) (w : CornerWalk) : Except Failure CornerWalk :=
  let parsOnSide := getParsOnSide w.curCorner w.curSide t.m_dim
  if parsOnSide.length ≠ 1 then .error .assertFailed
  else
    let orient := t.getOrientationOfInterface w.curSide w.orient
    match orient.head?, parsOnSide.head? with
    | some o, some q =>
      let pars : List Bool := [if o then q else !q]
      let curCorner := getPatchCorner w.neighbour pars
      let psides := getPatchSides curCorner t.m_dim
      match psides with
      | p0 :: p1 :: _ =>
        if w.neighbour = p0 then
          .ok { w with orient := orient, curCorner := curCorner, curSide := p1 }
        else if w.neighbour = p1 then
          .ok { w with orient := orient, curCorner := curCorner, curSide := p0 }
        else .error .gismoError
      | _ => .error .assertFailed
    | _, _ => .error .assertFailed

/-- One pass through the body of the `do` loop of `getCornerList` (lines
108-136).  The flag is `true` when the pass left the loop through `break`. -/
def cornerListBody (t : gsBoxTopology) (start : patch_corner) (w : CornerWalk) :
    Except Failure (Bool × CornerWalk) :=
  let w1 := { w with cornerList := w.cornerList ++ [w.curCorner] }
  let n := t.getNeighbour w1.curSide w1.neighbour
  if !n.1 then
    if w1.firstTurn then
      let w2 := { w1 with neighbour := n.2, curSide := w1.endSide, endSide := w1.curSide,
                          curCorner := start, firstTurn := false }
      let n2 := t.getNeighbour w2.curSide w2.neighbour
      if !n2.1 then .ok (true, { w2 with neighbour := n2.2 })
      else
        match t.crossInterface { w2 with neighbour := n2.2 } with
        | .error e => .error e
        | .ok w3 => .ok (false, w3)
    else .ok (true, { w1 with neighbour := n.2 })
  else
    match t.crossInterface { w1 with neighbour := n.2 } with
    | .error e => .error e
    | .ok w3 => .ok (false, w3)

/-- The `do ... while(!(curCorner==start))` loop of `getCornerList` (lines
106-138), run for at most `fuel` passes: the return value `firstTurn` and the
corner list. -/
def getCornerListLoop (t : gsBoxTopology) (start : patch_corner) :
    Nat → CornerWalk → Except Failure (Bool × List patch_corner)
  | 0, _ => .error .outOfFuel
  | fuel + 1, w =>
    match t.cornerListBody start w with
    | .error e => .error e
    | .ok (true, w1) => .ok (w1.firstTurn, w1.cornerList)
    | .ok (false, w1) =>
      if w1.curCorner = start then .ok (w1.firstTurn, w1.cornerList)
      else getCornerListLoop t start fuel w1

/-- The method `getCornerList(start, cornerList)` (lines 92-139), its loop run
for at most `fuel` passes: the return value and the corner list.  A failed
`GISMO_ASSERT` is a failure, as the spec has it. -/
def getCornerList (t : gsBoxTopology) (fuel : Nat) (start : patch_corner) :
    Except Failure (Bool × List patch_corner) :=
  if t.m_dim ≠ 2 then .error .assertFailed
  else
    match getPatchSides start t.m_dim with
    | [p0, p1] =>
      t.getCornerListLoop start fuel
        { cornerList := [], curSide := p0, endSide := p1, neighbour := ⟨0, 0⟩,
          curCorner := start, orient := [], firstTurn := true }
    | _ => .error .assertFailed

/-- Lines 151-158 of `getEVs` and lines 173-180 of `getOVs`: the pass of the
inner loop for the corner `j` of patch `i`; `keep` is the test on the size of
the corner list (`!= 4` in `getEVs`, `== 4` in `getOVs`). -/
def vertexStep (t : gsBoxTopology) (fuel : Nat) (keep : Nat → Bool) (i : Int)
    (cornerLists : List (List patch_corner)) (j : Nat) :
    Except Failure (List (List patch_corner)) :=
  match t.getCornerList fuel ⟨i, j⟩ with
  | .error e => .error e
  | .ok (isCycle, cornerList) =>
    let alreadyReached := cornerList.any (fun c => decide (c.patch < i))
    if isCycle && keep cornerList.length && !alreadyReached then
      .ok (cornerLists ++ [cornerList])
    else .ok cornerLists

/-- The two nested loops of `getEVs` and `getOVs`: patches `0 .. nboxes-1`,
corners `1 .. 4`. -/
def vertexScan (t : gsBoxTopology) (fuel : Nat) (keep : Nat → Bool) :
    Except Failure (List (List patch_corner)) :=
  (List.range t.nboxes).foldlM
    (fun acc i => [1, 2, 3, 4].foldlM (t.vertexStep fuel keep (i : Int)) acc) []

/-- The method `getEVs` (lines 141-161). -/
def getEVs (t : gsBoxTopology) (fuel : Nat) : Except Failure (List (List patch_corner)) :=
  if t.m_dim ≠ 2 then .error .assertFailed
  else t.vertexScan fuel (fun n => n != 4)

/-- The method `getOVs` (lines 163-183). -/
def getOVs (t : gsBoxTopology) (fuel : Nat) : Except Failure (List (List patch_corner)) :=
  if t.m_dim ≠ 2 then .error .assertFailed
  else t.vertexScan fuel (fun n => n == 4)

end gsBoxTopology

/-! ## The sides that `addAutoBoundaries` visits -/

/-- What lines 16-18 of `addAutoBoundaries` do to the topology for one side:
an unclassified side is appended to the boundary sides. -/
def gsBoxTopology.markSide (t : gsBoxTopology) (ps : patch_side) : gsBoxTopology :=
  if t.isBoundary ps || t.isInterface ps then t
  else { t with m_boundary := t.m_boundary ++ [ps] }

/-- The side identifiers that `nextSide` runs through from `s` on: `s, s+1, ..., 2*dim`,
and `s` alone when `s` is not below `2*dim`. -/
def sidesFrom (dim s : Nat) : List Nat := List.range' s (2 * dim - s + 1)

/-- The sides of patch `p` from side `s` on. -/
def sidesOfPatch (dim p s : Nat) : List patch_side :=
  (sidesFrom dim s).map (fun x => ⟨(p : Int), x⟩)

/-- The patch sides that `nextPatchSide` runs through from side `s` of patch `p` on,
in a topology of `n` boxes. -/
def visitedFrom (dim n p s : Nat) : List patch_side :=
  sidesOfPatch dim p s
    ++ (List.range' (p + 1) (n - (p + 1))).flatMap (fun q => sidesOfPatch dim q firstSide)

/-- The patch sides between `firstPatchSide` and the last `nextPatchSide`. -/
def gsBoxTopology.visitedSides (t : gsBoxTopology) : List patch_side :=
  visitedFrom t.m_dim t.nboxes 0 firstSide

/-- A topology is valid when every patch index that a boundary side or an
interface names is one of `0 .. nboxes-1`. -/
def gsBoxTopology.patchesInRange (t : gsBoxTopology) : Prop :=
  (∀ b ∈ t.m_boundary, 0 ≤ b.patch ∧ b.patch < (t.nboxes : Int))
  ∧ (∀ i ∈ t.m_interfaces, (0 ≤ i.ps1.patch ∧ i.ps1.patch < (t.nboxes : Int))
      ∧ (0 ≤ i.ps2.patch ∧ i.ps2.patch < (t.nboxes : Int)))

/-- The classification of sides is exclusive when no boundary side is a member
of an interface. -/
def gsBoxTopology.boundaryNotInterface (t : gsBoxTopology) : Prop :=
  ∀ q, t.isBoundary q = true → t.isInterface q = false

/-- The patch side belongs to the interface. -/
def boundaryInterface.contains (i : boundaryInterface) (ps : patch_side) : Prop :=
  i.ps1 = ps ∨ i.ps2 = ps

/-! ## Three test topologies -/

/-- One two-dimensional patch without interface and with the boundary sides `b`. -/
def onePatch (b : List patch_side) : gsBoxTopology where
  m_dim := 2
  nboxes := 1
  m_boundary := b
  m_interfaces := []

/-- One square patch, its four sides boundary, no interface. -/
def singlePatch : gsBoxTopology := onePatch [⟨0, 1⟩, ⟨0, 2⟩, ⟨0, 3⟩, ⟨0, 4⟩]

/-- Two unit squares side by side: the east side of patch 0 is the west side of
patch 1, both running south to north; the other six sides are boundary. -/
def twoSquares : gsBoxTopology where
  m_dim := 2
  nboxes := 2
  m_boundary := [⟨0, 1⟩, ⟨0, 3⟩, ⟨0, 4⟩, ⟨1, 2⟩, ⟨1, 3⟩, ⟨1, 4⟩]
  m_interfaces := [⟨⟨0, 2⟩, ⟨1, 1⟩, [true]⟩]

/-- The two squares of `twoSquares` with the shared side listed twice: the east
side of patch 0 is a side of the interface and is a boundary side as well. -/
def doubleListed : gsBoxTopology where
  m_dim := 2
  nboxes := 2
  m_boundary := [⟨0, 1⟩, ⟨0, 2⟩, ⟨0, 3⟩, ⟨0, 4⟩, ⟨1, 2⟩, ⟨1, 3⟩, ⟨1, 4⟩]
  m_interfaces := [⟨⟨0, 2⟩, ⟨1, 1⟩, [true]⟩]

/-- Three patches around one interior vertex, which is the northeast corner of
patch 0, the northwest corner of patch 1 and the southwest corner of patch 2.
East of 0 meets west of 1, north of 1 meets south of 2 (both with matching
directions), west of 2 meets north of 0 (with reversed direction); the other
six sides are boundary. -/
def threePatches : gsBoxTopology where
  m_dim := 2
  nboxes := 3
  m_boundary := [⟨0, 1⟩, ⟨0, 3⟩, ⟨1, 2⟩, ⟨1, 3⟩, ⟨2, 2⟩, ⟨2, 4⟩]
  m_interfaces := [⟨⟨0, 2⟩, ⟨1, 1⟩, [true]⟩, ⟨⟨1, 4⟩, ⟨2, 3⟩, [true]⟩, ⟨⟨2, 1⟩, ⟨0, 4⟩, [false]⟩]

/-- The sides of `n` two-dimensional patches that are in none of the interfaces. -/
def sidesOffInterfaces (n : Nat) (ifaces : List boundaryInterface) : List patch_side :=
  (visitedFrom 2 n 0 firstSide).filter
    (fun ps => !(ifaces.any (fun i => i.ps1 == ps || i.ps2 == ps)))

/-- Two squares, side `s0` of patch 0 glued to side `s1` of patch 1 with the
orientation flag `o`; the other six sides are boundary. -/
def twoSquaresAt (s0 s1 : Nat) (o : Bool) : gsBoxTopology where
  m_dim := 2
  nboxes := 2
  m_boundary := sidesOffInterfaces 2 [⟨⟨0, s0⟩, ⟨1, s1⟩, [o]⟩]
  m_interfaces := [⟨⟨0, s0⟩, ⟨1, s1⟩, [o]⟩]

/-- The side number `k` (`0` or `1`) of the two sides of a patch at a corner. -/
def cornerSide (c : patch_corner) (k : Nat) : patch_side :=
  (getPatchSides c 2).getD k ⟨c.patch, 0⟩

/-- The interface that glues the first side at corner `a` to the second side at
corner `b` so that the two corners fall together: its flag says whether the
positions of the two corners inside their sides agree. -/
def joinCorners (a b : patch_corner) : boundaryInterface where
  ps1 := cornerSide a 0
  ps2 := cornerSide b 1
  orient := [getParsOnSide a (cornerSide a 0) 2 == getParsOnSide b (cornerSide b 1) 2]

/-- Three patches around one interior vertex which is corner `c0` of patch 0,
corner `c1` of patch 1 and corner `c2` of patch 2: three interfaces around the
vertex, the other six sides boundary. -/
def threePatchesAt (c0 c1 c2 : Nat) : gsBoxTopology where
  m_dim := 2
  nboxes := 3
  m_boundary := sidesOffInterfaces 3
    [joinCorners ⟨0, c0⟩ ⟨1, c1⟩, joinCorners ⟨1, c1⟩ ⟨2, c2⟩, joinCorners ⟨2, c2⟩ ⟨0, c0⟩]
  m_interfaces :=
    [joinCorners ⟨0, c0⟩ ⟨1, c1⟩, joinCorners ⟨1, c1⟩ ⟨2, c2⟩, joinCorners ⟨2, c2⟩ ⟨0, c0⟩]

/-- Modelled from the spec: the macro `GISMO_ASSERT(cond, message)` of the
missing `gsDebug.h`.  A false condition makes the function fail with an error
(the `UnsupportedDimensionError` and `DimensionMismatchError` of the spec), a
true one has no effect.  The guards on `m_dim` written out in `getCornerList`,
`getEVs` and `getOVs` are this macro. -/
def GISMO_ASSERT (cond : Bool) : Except Failure Unit :=
  if cond then .ok () else .error .assertFailed

/-- A topology of one three-dimensional box without boundary sides and interfaces. -/
def oneCube : gsBoxTopology where
  m_dim := 3
  nboxes := 1
  m_boundary := []
  m_interfaces := []

/-! ## Poisson visitor: evaluation and assembly on one element -/

/-- What `gsVisitorPoisson::evaluate` asks of the basis on one element:
`active_into(quNodes.col(0), actives)` gives the number of rows of `actives` and
its entries, `evalAllDers_into(quNodes, 1, basisData)` gives `basisData[0]`
(values, one column per node) and `basisData[1]` (gradients).  The basis is an
external collaborator; its answers are parameters. -/
structure gsBasis (R : Type) where
  active_into : gsMatrix R → Nat × (Nat → Nat)
  evalAllDers_into : gsMatrix R → gsMatrix R × gsMatrix R

/-- The geometry evaluator after `evaluateAt(quNodes)`: the image points
`values()`, the measure at node `k`, and `transformGradients(k, allGrads, physGrad)`,
which gives the physical gradients at node `k` as a matrix with `gradRows` rows
and one column per active function.  An external collaborator; its answers are
parameters. -/
structure gsGeometryEvaluator (R : Type) where
  values : gsMatrix R
  measure : Nat → R
  transformGradients : Nat → gsMatrix R → gsMatrix R
  gradRows : Nat

/-- All data members of `gsVisitorPoisson` but `rhs_ptr`: those of
`gsVisitorPoisson` above and `basisData[0]`, `basisData[1]`, `physGrad`, `rhsVals`. -/
structure gsVisitorPoissonData (R : Type) extends gsVisitorPoisson R where
  bVals : gsMatrix R
  bGrads : gsMatrix R
  physGrad : gsMatrix R
  rhsVals : gsMatrix R

namespace gsVisitorPoissonData

variable {R : Type} [CommRing R]

/-- The method `evaluate(basis, geoEval, quNodes)` (lines 80-103).  `rhs` is
`rhs_ptr->eval_into`, `evaluateAt` is what `geoEval.evaluateAt` makes of the
evaluator, `paramCoef` is the template parameter.  Returns the visitor and the
evaluator after the call. -/
def evaluate (d : gsVisitorPoissonData R) (paramCoef : Bool) (rhs : gsMatrix R → gsMatrix R)
    (basis : gsBasis R) (evaluateAt : gsMatrix R → gsGeometryEvaluator R) (quNodes : gsMatrix R) :
    gsVisitorPoissonData R × gsGeometryEvaluator R :=
  let act := basis.active_into (fun r _ => quNodes r 0)
  let basisData := basis.evalAllDers_into quNodes
  let geoEval := evaluateAt quNodes
  let rhsVals := rhs (if paramCoef then quNodes else geoEval.values)
  ({ d with actives := act.2, numActive := act.1, bVals := basisData.1, bGrads := basisData.2,
            rhsVals := rhsVals, localMat := fun _ _ => 0, localRhs := fun _ _ => 0 }, geoEval)

/-- Body of the loop over the quadrature nodes in `assemble` (lines 114-121). -/
def assembleStep (geoEval : gsGeometryEvaluator R) (quWeights : List R)
    (d : gsVisitorPoissonData R) (k : Nat) : gsVisitorPoissonData R :=
  let weight := quWeights.getD k 0 * geoEval.measure k
  let physGrad := geoEval.transformGradients k d.bGrads
  { d with
    physGrad := physGrad
    localRhs := fun i c => d.localRhs i c + weight * (d.bVals i k * d.rhsVals c k)
    localMat := fun i j => d.localMat i j
      + weight * ((List.range geoEval.gradRows).map (fun r => physGrad r i * physGrad r j)).sum }

/-- The method `assemble(element, geoEval, quWeights)` (lines 105-123); the
element iterator is not used by it. -/
def assemble (d : gsVisitorPoissonData R) (geoEval : gsGeometryEvaluator R) (quWeights : List R) :
    gsVisitorPoissonData R :=
  (List.range quWeights.length).foldl (assembleStep geoEval quWeights) d

end gsVisitorPoissonData

namespace TwoDofElement

/-- Mapper in which every global index is free and the local indices `0` and `1`
both map to the global index `0`, the local index `2` to `1`, and so on. -/
def mergeMapper : gsDofMapper where
  localToGlobal := fun locals _ i => locals i / 2
  is_free_index := fun _ => true
  global_to_bindex := fun g => g

/-- Visitor state with three active functions and the symmetric local matrix
`localMat(i,j) = i*j + i + j`. -/
def symVisitor : gsVisitorPoisson Int where
  actives := fun i => i
  numActive := 3
  localMat := fun i j => (i : Int) * (j : Int) + (i : Int) + (j : Int)
  localRhs := fun _ _ => 0

/-- Visitor state with two active functions and a zero local right-hand side. -/
def zeroRhsVisitor : gsVisitorPoisson Int where
  actives := fun i => i
  numActive := 2
  localMat := fun i j => 2 * (i : Int) + (j : Int) + 1
  localRhs := fun _ _ => 0

end TwoDofElement

/-! ## Linear operators and the iterative solver -/

/-- Modelled from the spec: `gsLinearOperator` (its header is not among the
sources), any component exposing `apply(input) -> output`, `rows()` and
`cols()`.  A vector is the list of its rows. -/
structure gsLinearOperator (R : Type) where
  rows : Nat
  cols : Nat
  apply : List R → List R

/-- The data members of `gsIterativeSolver` (lines 97-103).  `m_mat_ptr` is
`none` for the null pointer, `m_error` is `none` as long as nothing was stored
in it; `Real` stands for `real_t`. -/
structure gsIterativeSolver (R Real : Type) where
  m_mat_ptr : Option (gsLinearOperator R)
  m_mat : gsLinearOperator R
  m_maxIters : Int
  m_tol : Real
  m_numIter : Int
  m_error : Option Real

namespace gsIterativeSolver

variable {R Real : Type}

/-- The constructor for a general linear operator (lines 30-34). -/
def ofOperator (_mat : gsLinearOperator R) (_maxIt : Int) (_tol : Real) :
    Except Failure (gsIterativeSolver R Real) :=
  match GISMO_ASSERT (decide (_mat.rows = _mat.cols)) with
  | .error e => .error e
  | .ok _ => .ok { m_mat_ptr := none, m_mat := _mat, m_maxIters := _maxIt, m_tol := _tol,
                   m_numIter := 0, m_error := none }

/-- The constructor that takes ownership of the passed operator (lines 37-41). -/
def ofOperatorPtr (_mat_ptr : gsLinearOperator R) (_maxIt : Int) (_tol : Real) :
    Except Failure (gsIterativeSolver R Real) :=
  match GISMO_ASSERT (decide (_mat_ptr.rows = _mat_ptr.cols)) with
  | .error e => .error e
  | .ok _ => .ok { m_mat_ptr := some _mat_ptr, m_mat := _mat_ptr, m_maxIters := _maxIt,
                   m_tol := _tol, m_numIter := 0, m_error := none }

/-- The constructor for a sparse matrix (lines 44-50).  `makeMatrixOp`, of the
missing `gsMatrixOperator.h`, is a parameter. -/
def ofSparseMatrix {M : Type} (makeMatrixOp : M → gsLinearOperator R) (_mat : M) (_maxIt : Int)
    (_tol : Real) : Except Failure (gsIterativeSolver R Real) :=
  match GISMO_ASSERT (decide ((makeMatrixOp _mat).rows = (makeMatrixOp _mat).cols)) with
  | .error e => .error e
  | .ok _ => .ok { m_mat_ptr := some (makeMatrixOp _mat), m_mat := makeMatrixOp _mat,
                   m_maxIters := _maxIt, m_tol := _tol, m_numIter := 0, m_error := none }

/-- The constructor for a dense matrix (lines 53-59).  `makeMatrixOp`, of the
missing `gsMatrixOperator.h`, is a parameter. -/
def ofDenseMatrix {M : Type} (makeMatrixOp : M → gsLinearOperator R) (_mat : M) (_maxIt : Int)
    (_tol : Real) : Except Failure (gsIterativeSolver R Real) :=
  match GISMO_ASSERT (decide ((makeMatrixOp _mat).rows = (makeMatrixOp _mat).cols)) with
  | .error e => .error e
  | .ok _ => .ok { m_mat_ptr := some (makeMatrixOp _mat), m_mat := makeMatrixOp _mat,
                   m_maxIters := _maxIt, m_tol := _tol, m_numIter := 0, m_error := none }

/-- The method `size()` (line 78). -/
def size (s : gsIterativeSolver R Real) : Nat := s.m_mat.rows

/-- The method `iterations()` (line 87). -/
def iterations (s : gsIterativeSolver R Real) : Int := s.m_numIter

/-- The method `tolerance()` (line 93). -/
def tolerance (s : gsIterativeSolver R Real) : Real := s.m_tol

end gsIterativeSolver

/-- An operator with 2 rows and 3 columns that keeps the first two rows of its input. -/
def wideOperator : gsLinearOperator Int where
  rows := 2
  cols := 3
  apply := fun x => x.take 2

/-- Modelled from the spec: the identity operator on vectors of `n` rows. -/
def gsIdentityOp (R : Type) (n : Nat) : gsLinearOperator R where
  rows := n
  cols := n
  apply := fun x => x

/-! ## Block operator

`gsBlockPreconditioner.h` declares `gsBlockOp`; of its members only `rows()` and
`cols()` have their body there.  The constructor, `addOperator` and `apply` are
modelled from the spec. -/

/-- The data members of `gsBlockOp` (lines 78-83), with the numbers of block
rows and block columns of the grid `blockPrec`.  An empty slot is `none`. -/
structure gsBlockOp (R : Type) where
  nRows : Nat
  nCols : Nat
  blockPrec : Nat → Nat → Option (gsLinearOperator R)
  blockTargetPositions : List Nat
  blockInputPositions : List Nat

namespace gsBlockOp

variable {R : Type}

/-- Modelled from the spec: the constructor `gsBlockOp(nRows, nCols)`, a grid of
empty slots; a block row or column without operator has size zero. -/
def make (nRows nCols : Nat) : gsBlockOp R where
  nRows := nRows
  nCols := nCols
  blockPrec := fun _ _ => none
  blockTargetPositions := List.replicate nRows 0
  blockInputPositions := List.replicate nCols 0

/-- The method `rows()` (line 73). -/
def rows (B : gsBlockOp R) : Nat := B.blockTargetPositions.sum

/-- The method `cols()` (line 74). -/
def cols (B : gsBlockOp R) : Nat := B.blockInputPositions.sum

/-- The sizes of the operators registered in block row `row` all equal `n`. -/
def rowSizeFits (B : gsBlockOp R) (row n : Nat) : Bool :=
  (List.range B.nCols).all (fun j =>
    match B.blockPrec row j with
    | none => true
    | some op => op.rows == n)

/-- The sizes of the operators registered in block column `col` all equal `n`. -/
def colSizeFits (B : gsBlockOp R) (col n : Nat) : Bool :=
  (List.range B.nRows).all (fun i =>
    match B.blockPrec i col with
    | none => true
    | some op => op.cols == n)

/-- Modelled from the spec: `addOperator(row, col, prec)`, which registers
`prec` in the slot `(row, col)` and records its sizes as the sizes of the block
row and the block column.  The size of a block row and of a block column must
be the same for all operators registered in it; a registration that violates
this fails with `BlockSizeMismatchError`.  A slot outside the grid is refused. -/
def addOperator (B : gsBlockOp R) (row col : Nat) (prec : gsLinearOperator R) :
    Except Failure (gsBlockOp R) :=
  if row < B.nRows ∧ col < B.nCols then
    if B.rowSizeFits row prec.rows && B.colSizeFits col prec.cols then
      .ok { B with
        blockPrec := fun i j => if i = row ∧ j = col then some prec else B.blockPrec i j
        blockTargetPositions := B.blockTargetPositions.set row prec.rows
        blockInputPositions := B.blockInputPositions.set col prec.cols }
    else .error .blockSizeMismatch
  else .error .assertFailed

/-- The segment of the input that belongs to block column `j`: it starts after
the segments of the columns before `j` and has the size of column `j`. -/
def inputSegment (B : gsBlockOp R) (input : List R) (j : Nat) : List R :=
  (input.drop (B.blockInputPositions.take j).sum).take (B.blockInputPositions.getD j 0)

/-- The segment of an output vector that belongs to block row `i`. -/
def outputSegment (B : gsBlockOp R) (output : List R) (i : Nat) : List R :=
  (output.drop (B.blockTargetPositions.take i).sum).take (B.blockTargetPositions.getD i 0)

/-- Entry by entry sum of two vectors. -/
def addVec [Add R] (x y : List R) : List R := List.zipWith (fun a b => a + b) x y

/-- Modelled from the spec: the output segment of block row `i` in `apply`: it
starts as zero and every populated slot `(i, j)` adds `operator.apply` of the
input segment of column `j` to it. -/
def rowResult [Zero R] [Add R] (B : gsBlockOp R) (input : List R) (i : Nat) : List R :=
  (List.range B.nCols).foldl
    (fun acc j =>
      match B.blockPrec i j with
      | none => acc
      | some op => addVec acc (op.apply (B.inputSegment input j)))
    (List.replicate (B.blockTargetPositions.getD i 0) 0)

/-- Modelled from the spec: `apply(input, result)`, the output segments of the
block rows one after the other. -/
def apply [Zero R] [Add R] (B : gsBlockOp R) (input : List R) : List R :=
  (List.range B.nRows).flatMap (B.rowResult input)

/-- The sizes recorded in a block operator are the sizes of its operators, and
every operator maps a vector of `cols()` entries to a vector of `rows()` entries. -/
def wellFormed (B : gsBlockOp R) : Prop :=
  B.blockTargetPositions.length = B.nRows ∧ B.blockInputPositions.length = B.nCols
  ∧ ∀ i j op, B.blockPrec i j = some op →
      i < B.nRows ∧ j < B.nCols
      ∧ op.rows = B.blockTargetPositions.getD i 0 ∧ op.cols = B.blockInputPositions.getD j 0
      ∧ ∀ x : List R, x.length = op.cols → (op.apply x).length = op.rows

end gsBlockOp

/-! ## Norm computation -/

/-- What `gsNorm::apply` asks of the visitor and of the objects the visitor is
given, all external collaborators.  `S` is the state of the visitor and of the
evaluator it drives, `P` a patch, `E` an element, `Q` the quadrature rule and
the evaluation flags that the visitor sets
when it is initialised for a patch (`initialise`, line 63).  `evaluate` stands for lines 73-76
(mapping the rule to the element and evaluating), `compute` returns the value
for the element. -/
structure NormVisitor (S T P E Q : Type) where
  initialise : S → P → S × Q
  evaluate : S → P → Q → E → S
  compute : S → P → Q → E → T × S

/-- The data members `m_elWise` and `m_value` of `gsNorm` (lines 114-115). -/
structure gsNorm (T : Type) where
  m_elWise : List T
  m_value : T

namespace gsNorm

variable {S T P E Q : Type} [Zero T] [Add T]

/-- Body of the loop over the elements in `apply` (lines 72-86). -/
def elementStep (sqrt : T → T) (visitor : NormVisitor S T P E Q) (storeElWise : Bool) (p : P)
    (q : Q) (acc : gsNorm T × S) (e : E) : gsNorm T × S :=
  let s1 := visitor.evaluate acc.2 p q e
  let r := visitor.compute s1 p q e
  ({ m_value := acc.1.m_value + r.1
     m_elWise := if storeElWise then acc.1.m_elWise ++ [sqrt r.1] else acc.1.m_elWise }, r.2)

/-- Body of the loop over the patches in `apply` (lines 59-88); `elements p` is
the sequence of elements of the domain iterator of patch `p`. -/
def patchStep (sqrt : T → T) (visitor : NormVisitor S T P E Q) (elements : P → List E)
    (storeElWise : Bool) (acc : gsNorm T × S) (p : P) : gsNorm T × S :=
  let i := visitor.initialise acc.2 p
  (elements p).foldl (elementStep sqrt visitor storeElWise p i.2) (acc.1, i.1)

/-- The method `apply(visitor, storeElWise)` (lines 44-91); `sqrt` is
`math::sqrt`.  Returns the norm object and the visitor state after the call. -/
def apply (n : gsNorm T) (sqrt : T → T) (visitor : NormVisitor S T P E Q) (s : S)
    (patches : List P) (elements : P → List E) (storeElWise : Bool) : gsNorm T × S :=
  let n0 : gsNorm T := { m_elWise := if storeElWise then [] else n.m_elWise, m_value := 0 }
  let out := patches.foldl (patchStep sqrt visitor elements storeElWise) (n0, s)
  ({ out.1 with m_value := sqrt out.1.m_value }, out.2)

/-- The method `value()` (line 102). -/
def value (n : gsNorm T) : T := n.m_value

/-- The loop over the elements with a record of the values that
`visitor.compute` returns in place of the norm object. -/
def computedElement (visitor : NormVisitor S T P E Q) (p : P) (q : Q) (acc : List T × S) (e : E) :
    List T × S :=
  let r := visitor.compute (visitor.evaluate acc.2 p q e) p q e
  (acc.1 ++ [r.1], r.2)

/-- The loop over the patches with a record of the values that `visitor.compute`
returns in place of the norm object. -/
def computedPatch (visitor : NormVisitor S T P E Q) (elements : P → List E) (acc : List T × S)
    (p : P) : List T × S :=
  let i := visitor.initialise acc.2 p
  (elements p).foldl (computedElement visitor p i.2) (acc.1, i.1)

/-- The values that `visitor.compute` returns during one `apply`, in the order
of the calls: all elements of the first patch, then of the second, and so on. -/
def computed (visitor : NormVisitor S T P E Q) (s : S) (patches : List P)
    (elements : P → List E) : List T :=
  (patches.foldl (computedPatch visitor elements) ([], s)).1

end gsNorm

/-- A visitor without state whose `compute` returns the element itself. -/
def echoVisitor : NormVisitor Unit Int Nat Int Unit where
  initialise := fun s _ => (s, ())
  evaluate := fun s _ _ _ => s
  compute := fun s _ _ e => (e, s)

/-- The 2x2 block operator with the identity operators on `n1` and on `n2` rows
on the diagonal and empty slots off the diagonal, built with the constructor
and two calls of `addOperator`. -/
def identityBlocks (R : Type) (n1 n2 : Nat) : Except Failure (gsBlockOp R) :=
  match (gsBlockOp.make 2 2).addOperator 0 0 (gsIdentityOp R n1) with
  | .error e => .error e
  | .ok B => B.addOperator 1 1 (gsIdentityOp R n2)

/-! ## Reported vertex cycles -/

/-- Two corner lists contain the same set of patch corners. -/
def sameCorners (l1 l2 : List patch_corner) : Prop := l1 ⊆ l2 ∧ l2 ⊆ l1

/-- No two different corners of the list lie in the same patch. -/
def onePerPatch (l : List patch_corner) : Prop :=
  ∀ a ∈ l, ∀ b ∈ l, a.patch = b.patch → a = b

/-- The pairs (patch, corner) in the order in which `getEVs` and `getOVs` visit them. -/
def scanOrder (nboxes : Nat) : List (Nat × Nat) :=
  (List.range nboxes).flatMap (fun i => [1, 2, 3, 4].map (fun j => (i, j)))

/-- Each patch side belongs to at most one interface: in the list of the sides
of all interfaces, `ps1` and `ps2` of each, no side is written twice. -/
def gsBoxTopology.sidesInOneInterface (t : gsBoxTopology) : Prop :=
  (t.m_interfaces.flatMap (fun I => [I.ps1, I.ps2])).Nodup

/-- Two square patches closed to a torus: east of patch 0 is glued to west of
patch 1 and east of patch 1 to west of patch 0, north of patch 0 to south of
patch 1 and north of patch 1 to south of patch 0, all with matching directions. -/
def torus : gsBoxTopology where
  m_dim := 2
  nboxes := 2
  m_boundary := []
  m_interfaces := [⟨⟨0, 2⟩, ⟨1, 1⟩, [true]⟩, ⟨⟨1, 2⟩, ⟨0, 1⟩, [true]⟩,
    ⟨⟨0, 4⟩, ⟨1, 3⟩, [true]⟩, ⟨⟨1, 4⟩, ⟨0, 3⟩, [true]⟩]

/-- Ten patches: patches 0 to 3 form a grid of two by two squares around a
regular vertex, patches 4 to 6 and patches 7 to 9 each surround a vertex of
valence three as in `threePatches`.  No boundary side is declared. -/
def tenPatches : gsBoxTopology where
  m_dim := 2
  nboxes := 10
  m_boundary := []
  m_interfaces :=
    [⟨⟨0, 2⟩, ⟨1, 1⟩, [true]⟩, ⟨⟨2, 2⟩, ⟨3, 1⟩, [true]⟩, ⟨⟨0, 4⟩, ⟨2, 3⟩, [true]⟩,
     ⟨⟨1, 4⟩, ⟨3, 3⟩, [true]⟩,
     ⟨⟨4, 2⟩, ⟨5, 1⟩, [true]⟩, ⟨⟨5, 4⟩, ⟨6, 3⟩, [true]⟩, ⟨⟨6, 1⟩, ⟨4, 4⟩, [false]⟩,
     ⟨⟨7, 2⟩, ⟨8, 1⟩, [true]⟩, ⟨⟨8, 4⟩, ⟨9, 3⟩, [true]⟩, ⟨⟨9, 1⟩, ⟨7, 4⟩, [false]⟩]

/-- The regular vertex of `tenPatches`, as `getOVs` reports it. -/
def tenPatchesOVs : List (List patch_corner) := [[⟨0, 4⟩, ⟨1, 3⟩, ⟨3, 1⟩, ⟨2, 2⟩]]

/-- The two singular vertices of `tenPatches`, as `getEVs` reports them. -/
def tenPatchesEVs : List (List patch_corner) :=
  [[⟨4, 4⟩, ⟨5, 3⟩, ⟨6, 1⟩], [⟨7, 4⟩, ⟨8, 3⟩, ⟨9, 1⟩]]

/-- A reported list, with the pair (patch, corner) at which the scan of
`getEVs` or `getOVs` appended it: the walk from that corner is closed and
returns the list, the list passes the test on its size, and none of its corners
lies in a patch before the one under scan. -/
def Reported (t : gsBoxTopology) (fuel : Nat) (keep : Nat → Bool)
    (x : (Nat × Nat) × List patch_corner) : Prop :=
  t.getCornerList fuel ⟨Int.ofNat x.1.1, x.1.2⟩ = .ok (true, x.2)
    ∧ keep x.2.length = true ∧ ∀ c ∈ x.2, ¬ c.patch < Int.ofNat x.1.1

/-! ## The walk around a corner as a map of states -/

/-- A corner of a two-dimensional patch: its identifier is one of `1 .. 4`. -/
def validCorner (c : patch_corner) : Prop := 1 ≤ c.corner ∧ c.corner ≤ 4

/-- A side of a two-dimensional patch: its identifier is one of `1 .. 4`. -/
def validSide (s : patch_side) : Prop := 1 ≤ s.side ∧ s.side ≤ 4

/-- The interfaces are interfaces of two-dimensional patches: both sides are
sides of a square and the orientation record has its flag. -/
def gsBoxTopology.interfacesValid (t : gsBoxTopology) : Prop :=
  ∀ I ∈ t.m_interfaces, validSide I.ps1 ∧ validSide I.ps2 ∧ I.orient ≠ []

/-- The values of `curCorner` and `curSide` at the top of the loop of `getCornerList`. -/
abbrev WalkState := patch_corner × patch_side

/-- The other of the two sides of the patch at corner `c`, as lines 130-135 of
`getCornerList` choose it from `getPatchSides`. -/
def otherSideAt (c : patch_corner) (s : patch_side) : patch_side :=
  match getPatchSides c 2 with
  | p0 :: p1 :: _ => if s = p0 then p1 else p0
  | _ => s

/-- The same corner, looked at from the other of its two sides. -/
def flipState (x : WalkState) : WalkState := (x.1, otherSideAt x.1 x.2)

/-- A corner of a square together with one of the two sides at that corner. -/
def validState (x : WalkState) : Prop := validCorner x.1 ∧ x.2 ∈ getPatchSides x.1 2

/-- The state after crossing to the side `n` at the position `q` inside the
side: the corner on `n` at `q` and the other side at that corner (lines 128-135). -/
def arrive (n : patch_side) (q : Bool) : WalkState :=
  (getPatchCorner n [q], otherSideAt (getPatchCorner n [q]) n)

/-- The first interface of the list that contains the side `s`, which is the one
that `getNeighbour` and `getOrientationOfInterface` use. -/
def gsBoxTopology.interfaceOf (t : gsBoxTopology) (s : patch_side) : Option boundaryInterface :=
  t.m_interfaces.find? (fun i => i.ps1 == s || i.ps2 == s)

/-- The side that `getNeighbour` stores for the side `s` of the interface. -/
def boundaryInterface.otherSide (I : boundaryInterface) (s : patch_side) : patch_side :=
  if I.ps1 = s then I.ps2 else I.ps1

/-- One crossing of the walk (lines 124-135), on the pair (corner, side): no
value when the side has no neighbour. -/
def gsBoxTopology.crossState (t : gsBoxTopology) (x : WalkState) : Option WalkState :=
  match t.interfaceOf x.2 with
  | none => none
  | some I =>
    let q := (getParsOnSide x.1 x.2 2).headD false
    some (arrive (I.otherSide x.2) (if I.orient.headD true then q else !q))

/-- The state after `n` crossings from `x`, when all of them are possible. -/
def gsBoxTopology.iterState (t : gsBoxTopology) : Nat → WalkState → Option WalkState
  | 0, x => some x
  | n + 1, x =>
    match t.crossState x with
    | none => none
    | some y => iterState t n y

/-- The states in which a crossing can arrive: for each side of each interface
the two corners on it. -/
def gsBoxTopology.arrivals (t : gsBoxTopology) : List WalkState :=
  t.m_interfaces.flatMap
    (fun I => [arrive I.ps1 false, arrive I.ps1 true, arrive I.ps2 false, arrive I.ps2 true])

/-- The loop of `getCornerList` (lines 106-138), run for at most `fuel` passes:
whether it was left through `break`, and the local variables at that moment. -/
def gsBoxTopology.getCornerListRun (t : gsBoxTopology) (start : patch_corner) :
    Nat → CornerWalk → Except Failure (Bool × CornerWalk)
  | 0, _ => .error .outOfFuel
  | fuel + 1, w =>
    match t.cornerListBody start w with
    | .error e => .error e
    | .ok (true, w1) => .ok (true, w1)
    | .ok (false, w1) =>
      if w1.curCorner = start then .ok (false, w1)
      else getCornerListRun t start fuel w1

/-- The method `getCornerList` as in `gsBoxTopology.getCornerList`, with the
local variables at the end of the loop instead of the return value and the list. -/
def gsBoxTopology.getCornerListWalk (t : gsBoxTopology) (fuel : Nat) (start : patch_corner) :
    Except Failure (Bool × CornerWalk) :=
  if t.m_dim ≠ 2 then .error .assertFailed
  else
    match getPatchSides start t.m_dim with
    | [p0, p1] =>
      t.getCornerListRun start fuel
        { cornerList := [], curSide := p0, endSide := p1, neighbour := ⟨0, 0⟩,
          curCorner := start, orient := [], firstTurn := true }
    | _ => .error .assertFailed

/-! ## The writes of `localToGlobal`, one by one -/

/-- One write of `localToGlobal` to the global system: `rhsAdd` is line 153
(`rhsMatrix.row(ii) += row`), `sysAdd` is line 163
(`sysMatrix.coeffRef(ii, jj) += v`), `rhsSub` is lines 167-168
(`rhsMatrix.row(ii) -= a * row`). -/
inductive ScatterOp (R : Type) where
  | rhsAdd (ii : Nat) (row : Nat → R)
  | sysAdd (ii jj : Nat) (v : R)
  | rhsSub (ii : Nat) (a : R) (row : Nat → R)

namespace gsVisitorPoisson

variable {R : Type} [CommRing R]

/-- The effect of one write on the pair (system matrix, right-hand side). -/
def applyOp (acc : gsSparseMatrix R × gsMatrix R) :
    ScatterOp R → gsSparseMatrix R × gsMatrix R
  | .rhsAdd ii row => (acc.1, acc.2.rowAdd ii row)
  | .sysAdd ii jj v => (acc.1.coeffRefAdd ii jj v, acc.2)
  | .rhsSub ii a row => (acc.1, acc.2.rowSubScaled ii a row)

/-- The write of the pass `j` of the inner loop (lines 155-170). -/
def colOp (mapper : gsDofMapper) (eliminatedDofs : gsMatrix R) (act : Nat → Nat)
    (localMat : gsMatrix R) (i ii : Nat) (j : Nat) : ScatterOp R :=
  if mapper.is_free_index (act j) then .sysAdd ii (act j) (localMat i j)
  else .rhsSub ii (localMat i j) (eliminatedDofs (mapper.global_to_bindex (act j)))

/-- The writes of the pass `i` of the outer loop (lines 148-172), in order. -/
def rowOps (mapper : gsDofMapper) (eliminatedDofs : gsMatrix R) (act : Nat → Nat)
    (numActive : Nat) (localMat localRhs : gsMatrix R) (i : Nat) : List (ScatterOp R) :=
  if mapper.is_free_index (act i) then
    .rhsAdd (act i) (localRhs i)
      :: (List.range numActive).map (colOp mapper eliminatedDofs act localMat i (act i))
  else []

/-- The writes of one `localToGlobal` call, in order. -/
def callOps (mapper : gsDofMapper) (eliminatedDofs : gsMatrix R) (c : Call R) :
    List (ScatterOp R) :=
  (List.range c.visitor.numActive).flatMap
    (rowOps mapper eliminatedDofs (mapper.localToGlobal c.visitor.actives c.patchIndex)
      c.visitor.numActive c.visitor.localMat c.visitor.localRhs)

end gsVisitorPoisson

/-! ## Poisson visitor: the sizes of the local matrices -/

/-- A dense `gsMatrix<T>` together with its dimensions `rows()` and `cols()`. -/
structure gsSizedMatrix (R : Type) where
  rows : Nat
  cols : Nat
  coeff : gsMatrix R

namespace gsSizedMatrix

variable {R : Type} [CommRing R]

/-- The statement `m.setZero(r, c)`: the matrix is resized to `r` rows and `c`
columns and every entry is set to zero. -/
def setZero (_m : gsSizedMatrix R) (r c : Nat) : gsSizedMatrix R :=
  ⟨r, c, fun _ _ => 0⟩

/-- The statement `m.noalias() += x`: the entries of `x` are added in place; the
destination of `+=` is not resized. -/
def addAssign (m : gsSizedMatrix R) (x : gsMatrix R) : gsSizedMatrix R :=
  { m with coeff := fun i j => m.coeff i j + x i j }

end gsSizedMatrix

/-- All data members of `gsVisitorPoisson` but `rhs_ptr`, with the dimensions of
the matrices whose size `evaluate` reads or sets: `rhsVals`, `localMat` and
`localRhs`. -/
structure gsVisitorPoissonSized (R : Type) where
  actives : Nat → Nat
  numActive : Nat
  bVals : gsMatrix R
  bGrads : gsMatrix R
  physGrad : gsMatrix R
  rhsVals : gsSizedMatrix R
  localMat : gsSizedMatrix R
  localRhs : gsSizedMatrix R

namespace gsVisitorPoissonSized

variable {R : Type} [CommRing R]

/-- The entries of the visitor, without the dimensions. -/
def toData (d : gsVisitorPoissonSized R) : gsVisitorPoissonData R where
  actives := d.actives
  numActive := d.numActive
  localMat := d.localMat.coeff
  localRhs := d.localRhs.coeff
  bVals := d.bVals
  bGrads := d.bGrads
  physGrad := d.physGrad
  rhsVals := d.rhsVals.coeff

/-- The method `evaluate(basis, geoEval, quNodes)` (lines 80-103) with the
dimensions: `rhs` is `rhs_ptr->eval_into`, which resizes `rhsVals` to one row
per right-hand side and one column per node; `numActive` is `actives.rows()`;
lines 101-102 are the two calls of `setZero`. -/
def evaluate (d : gsVisitorPoissonSized R) (paramCoef : Bool)
    (rhs : gsMatrix R → gsSizedMatrix R) (basis : gsBasis R)
    (evaluateAt : gsMatrix R → gsGeometryEvaluator R) (quNodes : gsMatrix R) :
    gsVisitorPoissonSized R × gsGeometryEvaluator R :=
  let act := basis.active_into (fun r _ => quNodes r 0)
  let numActive := act.1
  let basisData := basis.evalAllDers_into quNodes
  let geoEval := evaluateAt quNodes
  let rhsVals := rhs (if paramCoef then quNodes else geoEval.values)
  ({ d with actives := act.2, numActive := numActive, bVals := basisData.1,
            bGrads := basisData.2, rhsVals := rhsVals,
            localMat := d.localMat.setZero numActive numActive,
            localRhs := d.localRhs.setZero numActive rhsVals.rows }, geoEval)

/-- Body of the loop over the quadrature nodes in `assemble` (lines 114-121) with
the dimensions. -/
def assembleStep (geoEval : gsGeometryEvaluator R) (quWeights : List R)
    (d : gsVisitorPoissonSized R) (k : Nat) : gsVisitorPoissonSized R :=
  let weight := quWeights.getD k 0 * geoEval.measure k
  let physGrad := geoEval.transformGradients k d.bGrads
  { d with
    physGrad := physGrad
    localRhs := d.localRhs.addAssign (fun i c => weight * (d.bVals i k * d.rhsVals.coeff c k))
    localMat := d.localMat.addAssign (fun i j =>
      weight * ((List.range geoEval.gradRows).map (fun r => physGrad r i * physGrad r j)).sum) }

/-- The method `assemble(element, geoEval, quWeights)` (lines 105-123) with the
dimensions. -/
def assemble (d : gsVisitorPoissonSized R) (geoEval : gsGeometryEvaluator R)
    (quWeights : List R) : gsVisitorPoissonSized R :=
  (List.range quWeights.length).foldl (assembleStep geoEval quWeights) d

end gsVisitorPoissonSized

namespace TwoDofElement

/-- A visitor that holds data of a previous element: three active functions,
local matrices of size 3 x 3 and 3 x 2 with non-zero entries. -/
def usedVisitor : gsVisitorPoissonSized Int where
  actives := fun i => i + 5
  numActive := 3
  bVals := fun _ _ => 1
  bGrads := fun _ _ => 1
  physGrad := fun _ _ => 1
  rhsVals := ⟨2, 4, fun _ _ => 3⟩
  localMat := ⟨3, 3, fun i j => (i : Int) + (j : Int) + 1⟩
  localRhs := ⟨3, 2, fun _ _ => 7⟩

/-- A basis with two active functions `0` and `1` on the element, values
`bVals(i,k) = i + 1` and gradients `bGrads(i,k) = i + k`. -/
def twoActive : gsBasis Int where
  active_into := fun _ => (2, fun i => i)
  evalAllDers_into := fun _ => (fun i _ => (i : Int) + 1, fun i k => (i : Int) + (k : Int))

/-- A geometry evaluator of measure 1 whose `transformGradients` returns the
column `k` of the gradients as one row. -/
def unitEvaluator : gsGeometryEvaluator Int where
  values := fun _ _ => 0
  measure := fun _ => 1
  transformGradients := fun k allGrads => fun _ i => allGrads i k
  gradRows := 1

end TwoDofElement

/-! ## Topologies for the boundary and consistency claims -/

/-- A topology of no patch that lists one boundary side and one interface. -/
def noPatches : gsBoxTopology where
  m_dim := 2
  nboxes := 0
  m_boundary := [⟨0, 1⟩]
  m_interfaces := [⟨⟨0, 2⟩, ⟨1, 1⟩, [true]⟩]

/-- One square patch whose lists name patches below zero: a boundary side of
patch `-1` and an interface with a side of patch `-2`; two sides of patch 0 are
listed, so that the count of sides is consistent. -/
def negativePatches : gsBoxTopology where
  m_dim := 2
  nboxes := 1
  m_boundary := [⟨-1, 1⟩, ⟨0, 2⟩]
  m_interfaces := [⟨⟨-2, 1⟩, ⟨0, 3⟩, [true]⟩]

/-- Two interfaces of the list that share a side are the same interface: a
patch side is a side of at most one interface of the list. -/
def gsBoxTopology.oneInterfacePerSide (t : gsBoxTopology) : Prop :=
  ∀ I ∈ t.m_interfaces, ∀ J ∈ t.m_interfaces,
    (I.ps1 = J.ps1 ∨ I.ps1 = J.ps2 ∨ I.ps2 = J.ps1 ∨ I.ps2 = J.ps2) → I = J

/-- The three patches with their interfaces declared and two of their six
outer sides listed as boundary sides. -/
def threePatchesPartial : gsBoxTopology where
  m_dim := 2
  nboxes := 3
  m_boundary := [⟨0, 1⟩, ⟨1, 2⟩]
  m_interfaces := [⟨⟨0, 2⟩, ⟨1, 1⟩, [true]⟩, ⟨⟨1, 4⟩, ⟨2, 3⟩, [true]⟩, ⟨⟨2, 1⟩, ⟨0, 4⟩, [false]⟩]

/-! ## Integer power and rounding of `gsMath.h` -/

namespace math

/-- The loop of `ipow` (lines 254-260), run for at most `fuel` tests of
`while (exp)`: `result`, `x` and `exp` are the variables of the source. -/
def ipowLoop : Nat → Int → Int → Nat → Except Failure Int
  | 0, _, _, _ => .error .outOfFuel
  | fuel + 1, result, x, exp =>
    if exp = 0 then .ok result
    else
      ipowLoop fuel (if exp % 2 = 1 then wrapInt (result * x) else result)
        (wrapInt (x * x)) (exp / 2)

/-- The function `math::ipow(x, exp)` (lines 251-262).  `exp` is `unsigned`, below
`2^32`, so `while (exp)` is tested at most 33 times. -/
def ipow (x : Int) (exp : Nat) : Except Failure Int := ipowLoop 33 1 x exp

/-- The function `math::round(a)` (line 126) on the rationals, an exact number
type: `math::floor` of `a - 0.5` when `a < 0.0` and of `a + 0.5` otherwise. -/
def round (a : ℚ) : ℚ := (Int.floor (if a < 0 then a - 1 / 2 else a + 1 / 2) : ℚ)

end math

/-- A topology of `2^30` patches of dimension 2 that lists no boundary side and
no interface. -/
def manyPatches : gsBoxTopology where
  m_dim := 2
  nboxes := 1073741824
  m_boundary := []
  m_interfaces := []

/-- The interface glues its side `ps1`, a side at the corner `a`, to its side
`ps2`, a side at the corner `b`, so that the two corners fall together: the flag
of its orientation record says whether the positions of the two corners inside
their sides agree. -/
def boundaryInterface.gluesAt (I : boundaryInterface) (a b : patch_corner) : Prop :=
  I.ps1 ∈ getPatchSides a 2 ∧ I.ps2 ∈ getPatchSides b 2
    ∧ I.orient = [decide (getParsOnSide a I.ps1 2 = getParsOnSide b I.ps2 2)]

/-- The interface joins the corners `a` and `b`, whichever of the two patches it
lists first. -/
def boundaryInterface.joins (I : boundaryInterface) (a b : patch_corner) : Prop :=
  I.gluesAt a b ∨ I.gluesAt b a

/-! # Theorems -/

section ScatterLemmas

open gsVisitorPoisson

variable {R : Type} [CommRing R]

theorem sum_map_range_eq (f : Nat → R) (n : Nat) :
    ((List.range n).map f).sum = ∑ i in Finset.range n, f i := by
  induction n with
  | zero => simp
  | succ n ih => simp [List.range_succ, Finset.sum_range_succ, ih]

theorem coeff_coeffRefAdd (m : gsSparseMatrix R) (i j : Nat) (v : R) (r c : Nat) :
    (m.coeffRefAdd i j v).coeff r c
      = m.coeff r c + (if r = i ∧ c = j then v else 0) := by
  unfold gsSparseMatrix.coeffRefAdd gsSparseMatrix.coeff
  by_cases h : r = i ∧ c = j
  · obtain ⟨rfl, rfl⟩ := h
    simp
  · simp [h]

/-- Right-hand side after the inner loop over a list of local columns. -/
theorem colFold_rhs (mapper : gsDofMapper) (elim : gsMatrix R) (act : Nat → Nat)
    (lm : gsMatrix R) (i ii : Nat) (l : List Nat) (acc : gsSparseMatrix R × gsMatrix R)
    (r k : Nat) :
    (l.foldl (colStep mapper elim act lm i ii) acc).2 r k
      = acc.2 r k - (if r = ii then
          (l.map (fun j => if mapper.is_free_index (act j) then 0
            else lm i j * elim (mapper.global_to_bindex (act j)) k)).sum else 0) := by
  induction l generalizing acc with
  | nil => simp
  | cons j l ih =>
    rw [List.foldl_cons, ih]
    unfold colStep
    by_cases hf : mapper.is_free_index (act j) = true
    · simp [hf]
    · by_cases hr : r = ii
      · simp [hf, hr, gsMatrix.rowSubScaled]; ring
      · simp [hf, hr, gsMatrix.rowSubScaled]

/-- System matrix value after the inner loop over a list of local columns. -/
theorem colFold_sys (mapper : gsDofMapper) (elim : gsMatrix R) (act : Nat → Nat)
    (lm : gsMatrix R) (i ii : Nat) (l : List Nat) (acc : gsSparseMatrix R × gsMatrix R)
    (r c : Nat) :
    (l.foldl (colStep mapper elim act lm i ii) acc).1.coeff r c
      = acc.1.coeff r c + (if r = ii then
          (l.map (fun j => if mapper.is_free_index (act j) = true ∧ act j = c then lm i j
            else 0)).sum else 0) := by
  induction l generalizing acc with
  | nil => simp
  | cons j l ih =>
    rw [List.foldl_cons, ih]
    unfold colStep
    by_cases hf : mapper.is_free_index (act j) = true
    · by_cases hr : r = ii
      · by_cases hc : act j = c
        · subst hc
          simp [hf, hr, coeff_coeffRefAdd]; ring
        · have hc2 : ¬ c = act j := fun h => hc h.symm
          simp [hf, hr, hc, hc2, coeff_coeffRefAdd]
      · simp [hf, hr, coeff_coeffRefAdd]
    · simp [hf]

/-- Stored entries that the inner loop leaves alone. -/
theorem colFold_sys_frame (mapper : gsDofMapper) (elim : gsMatrix R) (act : Nat → Nat)
    (lm : gsMatrix R) (i ii : Nat) (l : List Nat) (acc : gsSparseMatrix R × gsMatrix R)
    (r c : Nat) (h : r ≠ ii ∨ mapper.is_free_index c = false) :
    (l.foldl (colStep mapper elim act lm i ii) acc).1 r c = acc.1 r c := by
  induction l generalizing acc with
  | nil => simp
  | cons j l ih =>
    rw [List.foldl_cons, ih]
    unfold colStep
    by_cases hf : mapper.is_free_index (act j) = true
    · have : ¬ (r = ii ∧ c = act j) := by
        rintro ⟨h1, h2⟩
        rcases h with h | h
        · exact h h1
        · rw [h2, hf] at h; exact Bool.noConfusion h
      simp [hf, gsSparseMatrix.coeffRefAdd, this]
    · simp [hf]

/-- Right-hand side after the outer loop over a list of local rows. -/
theorem rowFold_rhs (mapper : gsDofMapper) (elim : gsMatrix R) (act : Nat → Nat) (n : Nat)
    (lm lr : gsMatrix R) (l : List Nat) (acc : gsSparseMatrix R × gsMatrix R) (r k : Nat) :
    (l.foldl (rowStep mapper elim act n lm lr) acc).2 r k
      = acc.2 r k + (l.map (fun i =>
          if mapper.is_free_index (act i) = true ∧ act i = r then
            lr i k - ((List.range n).map (fun j => if mapper.is_free_index (act j) then 0
              else lm i j * elim (mapper.global_to_bindex (act j)) k)).sum
          else 0)).sum := by
  induction l generalizing acc with
  | nil => simp
  | cons i l ih =>
    rw [List.foldl_cons, ih]
    unfold rowStep
    by_cases hf : mapper.is_free_index (act i) = true
    · by_cases hr : act i = r
      · subst hr
        simp only [hf, if_true, true_and, and_self, colFold_rhs, gsMatrix.rowAdd,
          List.map_cons, List.sum_cons]
        ring
      · have hr2 : ¬ r = act i := fun h => hr h.symm
        simp [hf, hr, hr2, colFold_rhs, gsMatrix.rowAdd]
    · simp [hf]

/-- System matrix value after the outer loop over a list of local rows. -/
theorem rowFold_sys (mapper : gsDofMapper) (elim : gsMatrix R) (act : Nat → Nat) (n : Nat)
    (lm lr : gsMatrix R) (l : List Nat) (acc : gsSparseMatrix R × gsMatrix R) (r c : Nat) :
    (l.foldl (rowStep mapper elim act n lm lr) acc).1.coeff r c
      = acc.1.coeff r c + (l.map (fun i =>
          if mapper.is_free_index (act i) = true ∧ act i = r then
            ((List.range n).map (fun j =>
              if mapper.is_free_index (act j) = true ∧ act j = c then lm i j else 0)).sum
          else 0)).sum := by
  induction l generalizing acc with
  | nil => simp
  | cons i l ih =>
    rw [List.foldl_cons, ih]
    unfold rowStep
    by_cases hf : mapper.is_free_index (act i) = true
    · by_cases hr : act i = r
      · subst hr
        simp only [hf, if_true, true_and, and_self, colFold_sys, List.map_cons, List.sum_cons]
        ring
      · have hr2 : ¬ r = act i := fun h => hr h.symm
        simp [hf, hr, hr2, colFold_sys]
    · simp [hf]

/-- Stored entries of the system matrix that the outer loop leaves alone: those
in a row or in a column that is not free. -/
theorem rowFold_sys_frame (mapper : gsDofMapper) (elim : gsMatrix R) (act : Nat → Nat) (n : Nat)
    (lm lr : gsMatrix R) (l : List Nat) (acc : gsSparseMatrix R × gsMatrix R) (r c : Nat)
    (h : mapper.is_free_index r = false ∨ mapper.is_free_index c = false) :
    (l.foldl (rowStep mapper elim act n lm lr) acc).1 r c = acc.1 r c := by
  induction l generalizing acc with
  | nil => simp
  | cons i l ih =>
    rw [List.foldl_cons, ih]
    unfold rowStep
    by_cases hf : mapper.is_free_index (act i) = true
    · simp only [hf, if_true]
      rw [colFold_sys_frame]
      rcases h with h | h
      · left
        intro e
        rw [e, hf] at h
        exact Bool.noConfusion h
      · right
        exact h
    · simp [hf]

/-- Rows of the right-hand side that the outer loop leaves alone: those that are not free. -/
theorem rowFold_rhs_frame (mapper : gsDofMapper) (elim : gsMatrix R) (act : Nat → Nat) (n : Nat)
    (lm lr : gsMatrix R) (l : List Nat) (acc : gsSparseMatrix R × gsMatrix R) (r k : Nat)
    (h : mapper.is_free_index r = false) :
    (l.foldl (rowStep mapper elim act n lm lr) acc).2 r k = acc.2 r k := by
  rw [rowFold_rhs]
  have : ∀ i, ¬ (mapper.is_free_index (act i) = true ∧ act i = r) := by
    rintro i ⟨h1, h2⟩
    rw [h2, h] at h1
    exact Bool.noConfusion h1
  simp [this]

/-- Right-hand side after one `localToGlobal` call, with sums over the local indices. -/
theorem localToGlobal_rhs_eq (v : gsVisitorPoisson R) (mapper : gsDofMapper) (elim : gsMatrix R)
    (patchIndex : Int) (sys : gsSparseMatrix R) (rhs : gsMatrix R) (r k : Nat)
    (hr : mapper.is_free_index r = true) :
    (v.localToGlobal mapper elim patchIndex sys rhs).2.2 r k
      = rhs r k
        + ∑ i in (Finset.range v.numActive).filter
            (fun i => v.globalActives mapper patchIndex i = r), v.localRhs i k
        - ∑ i in (Finset.range v.numActive).filter
            (fun i => v.globalActives mapper patchIndex i = r),
            ∑ j in (Finset.range v.numActive).filter
              (fun j => mapper.is_free_index (v.globalActives mapper patchIndex j) = false),
              v.localMat i j
                * elim (mapper.global_to_bindex (v.globalActives mapper patchIndex j)) k := by
  unfold localToGlobal globalActives
  simp only [rowFold_rhs, sum_map_range_eq, Finset.sum_filter]
  rw [add_sub_assoc, ← Finset.sum_sub_distrib]
  congr 1
  apply Finset.sum_congr rfl
  intro i _
  by_cases h : mapper.localToGlobal v.actives patchIndex i = r
  · subst h
    simp only [hr, and_self, if_true]
    congr 1
    apply Finset.sum_congr rfl
    intro j _
    by_cases hj : mapper.is_free_index (mapper.localToGlobal v.actives patchIndex j) = true
    · simp [hj]
    · simp [hj]
  · simp [h]

/-- System matrix value after one `localToGlobal` call, with sums over the local indices. -/
theorem localToGlobal_sys_eq (v : gsVisitorPoisson R) (mapper : gsDofMapper) (elim : gsMatrix R)
    (patchIndex : Int) (sys : gsSparseMatrix R) (rhs : gsMatrix R) (r c : Nat)
    (hr : mapper.is_free_index r = true) (hc : mapper.is_free_index c = true) :
    (v.localToGlobal mapper elim patchIndex sys rhs).2.1.coeff r c
      = sys.coeff r c
        + ∑ i in (Finset.range v.numActive).filter
            (fun i => v.globalActives mapper patchIndex i = r),
            ∑ j in (Finset.range v.numActive).filter
              (fun j => v.globalActives mapper patchIndex j = c), v.localMat i j := by
  unfold localToGlobal globalActives
  simp only [rowFold_sys, sum_map_range_eq, Finset.sum_filter]
  congr 1
  apply Finset.sum_congr rfl
  intro i _
  by_cases h : mapper.localToGlobal v.actives patchIndex i = r
  · subst h
    simp only [hr, and_self, if_true]
    apply Finset.sum_congr rfl
    intro j _
    by_cases hj : mapper.localToGlobal v.actives patchIndex j = c
    · subst hj
      simp [hc]
    · simp [hj]
  · simp [h]

/-- System matrix value after a sequence of `localToGlobal` calls. -/
theorem scatterAll_sys_eq (mapper : gsDofMapper) (elim : gsMatrix R) (calls : List (Call R))
    (sys : gsSparseMatrix R) (rhs : gsMatrix R) (r c : Nat)
    (hr : mapper.is_free_index r = true) (hc : mapper.is_free_index c = true) :
    (scatterAll mapper elim calls sys rhs).1.coeff r c
      = sys.coeff r c + (calls.map (fun call =>
          ∑ i in (Finset.range call.visitor.numActive).filter
            (fun i => call.visitor.globalActives mapper call.patchIndex i = r),
            ∑ j in (Finset.range call.visitor.numActive).filter
              (fun j => call.visitor.globalActives mapper call.patchIndex j = c),
              call.visitor.localMat i j)).sum := by
  unfold scatterAll
  induction calls generalizing sys rhs with
  | nil => simp
  | cons call calls ih =>
    rw [List.foldl_cons, ih, localToGlobal_sys_eq _ _ _ _ _ _ _ _ hr hc]
    simp only [List.map_cons, List.sum_cons]
    ring

end ScatterLemmas

section ScatterClaims

open gsVisitorPoisson

variable {R : Type} [CommRing R]

/-- C1: after `localToGlobal`, a free row `r` of the right-hand side is its old
value plus the sum of `localRhs.row(i)` over the local indices `i` mapped to
`r`, minus the sum over those `i` and over the local `j` with an eliminated
global index of `localMat(i,j) * eliminatedDofs.row(global_to_bindex(global j))`.
For two local indices, one free (`f`) and one eliminated (`e`) whose eliminated
value is `g`, the free row is lower by exactly `localMat(f,e) * g` than with
the eliminated value `0`. -/
theorem localToGlobal_rhs_static_condensation (v : gsVisitorPoisson R) (mapper : gsDofMapper)
    (patchIndex : Int) (sys : gsSparseMatrix R) (rhs : gsMatrix R) :
    (∀ (elim : gsMatrix R) (r k : Nat), mapper.is_free_index r = true →
      (v.localToGlobal mapper elim patchIndex sys rhs).2.2 r k
        = rhs r k
          + ∑ i in (Finset.range v.numActive).filter
              (fun i => v.globalActives mapper patchIndex i = r), v.localRhs i k
          - ∑ i in (Finset.range v.numActive).filter
              (fun i => v.globalActives mapper patchIndex i = r),
              ∑ j in (Finset.range v.numActive).filter
                (fun j => mapper.is_free_index (v.globalActives mapper patchIndex j) = false),
                v.localMat i j
                  * elim (mapper.global_to_bindex (v.globalActives mapper patchIndex j)) k)
    ∧
    (∀ (elimG elim0 : gsMatrix R) (f e : Nat) (g : Nat → R),
      v.numActive = 2 → f < 2 → e < 2 → f ≠ e →
      mapper.is_free_index (v.globalActives mapper patchIndex f) = true →
      mapper.is_free_index (v.globalActives mapper patchIndex e) = false →
      (∀ k, elimG (mapper.global_to_bindex (v.globalActives mapper patchIndex e)) k = g k) →
      (∀ k, elim0 (mapper.global_to_bindex (v.globalActives mapper patchIndex e)) k = 0) →
      ∀ k, (v.localToGlobal mapper elimG patchIndex sys rhs).2.2
              (v.globalActives mapper patchIndex f) k
            = (v.localToGlobal mapper elim0 patchIndex sys rhs).2.2
                (v.globalActives mapper patchIndex f) k
              - v.localMat f e * g k) := by
  refine ⟨fun elim r k hr => localToGlobal_rhs_eq v mapper elim patchIndex sys rhs r k hr, ?_⟩
  intro elimG elim0 f e g hn hf he hfe hfree helim hG h0 k
  rw [localToGlobal_rhs_eq _ _ _ _ _ _ _ _ hfree, localToGlobal_rhs_eq _ _ _ _ _ _ _ _ hfree]
  have hne : v.globalActives mapper patchIndex e ≠ v.globalActives mapper patchIndex f := by
    intro h
    rw [h, hfree] at helim
    exact Bool.noConfusion helim
  simp only [hn, Finset.sum_filter, Finset.sum_range_succ, Finset.sum_range_zero, zero_add]
  have hcases : (f = 0 ∧ e = 1) ∨ (f = 1 ∧ e = 0) := by omega
  rcases hcases with ⟨rfl, rfl⟩ | ⟨rfl, rfl⟩
  · simp [hfree, helim, hne, hG, h0]
  · simp [hfree, helim, hne, hG, h0]

/-- C2: one `localToGlobal` call adds to `sysMatrix(r,c)`, for free `r` and `c`,
exactly the sum of `localMat(i,j)` over the local pairs with `global i = r` and
`global j = c`; after a sequence of calls on a zero matrix, `sysMatrix(r,c)` is
the sum of these contributions over all calls. -/
theorem localToGlobal_sysMatrix_exact_sum (mapper : gsDofMapper) (elim : gsMatrix R)
    (r c : Nat) (hr : mapper.is_free_index r = true) (hc : mapper.is_free_index c = true) :
    (∀ (calls : List (Call R)) (rhs : gsMatrix R),
      (scatterAll mapper elim calls (gsSparseMatrix.zero R) rhs).1.coeff r c
        = (calls.map (fun call =>
            ∑ i in (Finset.range call.visitor.numActive).filter
              (fun i => call.visitor.globalActives mapper call.patchIndex i = r),
              ∑ j in (Finset.range call.visitor.numActive).filter
                (fun j => call.visitor.globalActives mapper call.patchIndex j = c),
                call.visitor.localMat i j)).sum)
    ∧
    (∀ (v : gsVisitorPoisson R) (patchIndex : Int) (sys : gsSparseMatrix R) (rhs : gsMatrix R),
      (v.localToGlobal mapper elim patchIndex sys rhs).2.1.coeff r c
        = sys.coeff r c
          + ∑ i in (Finset.range v.numActive).filter
              (fun i => v.globalActives mapper patchIndex i = r),
              ∑ j in (Finset.range v.numActive).filter
                (fun j => v.globalActives mapper patchIndex j = c), v.localMat i j) := by
  refine ⟨fun calls rhs => ?_, fun v patchIndex sys rhs =>
    localToGlobal_sys_eq v mapper elim patchIndex sys rhs r c hr hc⟩
  rw [scatterAll_sys_eq _ _ _ _ _ _ _ hr hc]
  simp [gsSparseMatrix.zero, gsSparseMatrix.coeff]

/-- C3: `localToGlobal` emits nothing for an eliminated global row and writes no
system-matrix entry in an eliminated column: every row `r` of `rhsMatrix` and
every entry `(r,c)` of `sysMatrix` with `r` not free is what it was before the
call, and so is every entry `(r,c)` of `sysMatrix` with `c` not free. -/
theorem localToGlobal_eliminated_frame (v : gsVisitorPoisson R) (mapper : gsDofMapper)
    (elim : gsMatrix R) (patchIndex : Int) (sys : gsSparseMatrix R) (rhs : gsMatrix R)
    (e : Nat) (he : mapper.is_free_index e = false) :
    (∀ k, (v.localToGlobal mapper elim patchIndex sys rhs).2.2 e k = rhs e k)
    ∧ (∀ c, (v.localToGlobal mapper elim patchIndex sys rhs).2.1 e c = sys e c)
    ∧ (∀ r, (v.localToGlobal mapper elim patchIndex sys rhs).2.1 r e = sys r e) := by
  unfold localToGlobal
  refine ⟨fun k => ?_, fun c => ?_, fun r => ?_⟩
  · exact rowFold_rhs_frame _ _ _ _ _ _ _ _ _ _ he
  · exact rowFold_sys_frame _ _ _ _ _ _ _ _ _ _ (Or.inl he)
  · exact rowFold_sys_frame _ _ _ _ _ _ _ _ _ _ (Or.inr he)

/-- Instance of C1 on the two-function element: the free row `0` holds
`10 - 2 * 5 = 0`, which is `2 * 5` below its value `10` for the eliminated value `0`. -/
theorem localToGlobal_rhs_static_condensation_witness :
    (TwoDofElement.mapper.is_free_index 0 = true
      ∧ (TwoDofElement.visitor.localToGlobal TwoDofElement.mapper TwoDofElement.elimFive 0
          (gsSparseMatrix.zero Int) TwoDofElement.rhsZero).2.2 0 0
        = TwoDofElement.rhsZero 0 0
          + ∑ i in (Finset.range TwoDofElement.visitor.numActive).filter
              (fun i => TwoDofElement.visitor.globalActives TwoDofElement.mapper 0 i = 0),
              TwoDofElement.visitor.localRhs i 0
          - ∑ i in (Finset.range TwoDofElement.visitor.numActive).filter
              (fun i => TwoDofElement.visitor.globalActives TwoDofElement.mapper 0 i = 0),
              ∑ j in (Finset.range TwoDofElement.visitor.numActive).filter
                (fun j => TwoDofElement.mapper.is_free_index
                  (TwoDofElement.visitor.globalActives TwoDofElement.mapper 0 j) = false),
                TwoDofElement.visitor.localMat i j
                  * TwoDofElement.elimFive (TwoDofElement.mapper.global_to_bindex
                      (TwoDofElement.visitor.globalActives TwoDofElement.mapper 0 j)) 0)
    ∧ (TwoDofElement.visitor.numActive = 2
      ∧ TwoDofElement.mapper.is_free_index
          (TwoDofElement.visitor.globalActives TwoDofElement.mapper 0 0) = true
      ∧ TwoDofElement.mapper.is_free_index
          (TwoDofElement.visitor.globalActives TwoDofElement.mapper 0 1) = false
      ∧ (TwoDofElement.visitor.localToGlobal TwoDofElement.mapper TwoDofElement.elimFive 0
          (gsSparseMatrix.zero Int) TwoDofElement.rhsZero).2.2
            (TwoDofElement.visitor.globalActives TwoDofElement.mapper 0 0) 0
        = (TwoDofElement.visitor.localToGlobal TwoDofElement.mapper TwoDofElement.elimZero 0
            (gsSparseMatrix.zero Int) TwoDofElement.rhsZero).2.2
              (TwoDofElement.visitor.globalActives TwoDofElement.mapper 0 0) 0
          - TwoDofElement.visitor.localMat 0 1 * 5) :=
  ⟨⟨by decide,
    (localToGlobal_rhs_static_condensation TwoDofElement.visitor TwoDofElement.mapper 0
      (gsSparseMatrix.zero Int) TwoDofElement.rhsZero).1 TwoDofElement.elimFive 0 0 (by decide)⟩,
   by decide, by decide, by decide,
    (localToGlobal_rhs_static_condensation TwoDofElement.visitor TwoDofElement.mapper 0
      (gsSparseMatrix.zero Int) TwoDofElement.rhsZero).2 TwoDofElement.elimFive
      TwoDofElement.elimZero 0 1 (fun _ => 5) (by decide) (by decide) (by decide) (by decide)
      (by decide) (by decide) (fun _ => rfl) (fun _ => rfl) 0⟩

/-- Instance of C2 on the two-function element: entry `(0,0)` of a zero system
matrix after two calls and after one call. -/
theorem localToGlobal_sysMatrix_exact_sum_witness :
    TwoDofElement.mapper.is_free_index 0 = true
    ∧ (scatterAll TwoDofElement.mapper TwoDofElement.elimFive
        [⟨TwoDofElement.visitor, 0⟩, ⟨TwoDofElement.visitor, 0⟩]
        (gsSparseMatrix.zero Int) TwoDofElement.rhsZero).1.coeff 0 0
      = (([⟨TwoDofElement.visitor, 0⟩, ⟨TwoDofElement.visitor, 0⟩] : List (Call Int)).map
          (fun call =>
            ∑ i in (Finset.range call.visitor.numActive).filter
              (fun i => call.visitor.globalActives TwoDofElement.mapper call.patchIndex i = 0),
              ∑ j in (Finset.range call.visitor.numActive).filter
                (fun j => call.visitor.globalActives TwoDofElement.mapper call.patchIndex j = 0),
                call.visitor.localMat i j)).sum
    ∧ (TwoDofElement.visitor.localToGlobal TwoDofElement.mapper TwoDofElement.elimFive 0
        (gsSparseMatrix.zero Int) TwoDofElement.rhsZero).2.1.coeff 0 0
      = (gsSparseMatrix.zero Int).coeff 0 0
        + ∑ i in (Finset.range TwoDofElement.visitor.numActive).filter
            (fun i => TwoDofElement.visitor.globalActives TwoDofElement.mapper 0 i = 0),
            ∑ j in (Finset.range TwoDofElement.visitor.numActive).filter
              (fun j => TwoDofElement.visitor.globalActives TwoDofElement.mapper 0 j = 0),
              TwoDofElement.visitor.localMat i j :=
  ⟨by decide,
   (localToGlobal_sysMatrix_exact_sum TwoDofElement.mapper TwoDofElement.elimFive 0 0
      (by decide) (by decide)).1 _ _,
   (localToGlobal_sysMatrix_exact_sum TwoDofElement.mapper TwoDofElement.elimFive 0 0
      (by decide) (by decide)).2 _ _ _ _⟩

/-- Instance of C3 on the two-function element: the eliminated index `1`. -/
theorem localToGlobal_eliminated_frame_witness :
    TwoDofElement.mapper.is_free_index 1 = false
    ∧ (∀ k, (TwoDofElement.visitor.localToGlobal TwoDofElement.mapper TwoDofElement.elimFive 0
        (gsSparseMatrix.zero Int) TwoDofElement.rhsZero).2.2 1 k = TwoDofElement.rhsZero 1 k)
    ∧ (∀ c, (TwoDofElement.visitor.localToGlobal TwoDofElement.mapper TwoDofElement.elimFive 0
        (gsSparseMatrix.zero Int) TwoDofElement.rhsZero).2.1 1 c = gsSparseMatrix.zero Int 1 c)
    ∧ (∀ r, (TwoDofElement.visitor.localToGlobal TwoDofElement.mapper TwoDofElement.elimFive 0
        (gsSparseMatrix.zero Int) TwoDofElement.rhsZero).2.1 r 1 = gsSparseMatrix.zero Int r 1) :=
  ⟨by decide,
   localToGlobal_eliminated_frame TwoDofElement.visitor TwoDofElement.mapper
     TwoDofElement.elimFive 0 (gsSparseMatrix.zero Int) TwoDofElement.rhsZero 1 (by decide)⟩

end ScatterClaims

section ConsistencyClaims

theorem patchAtLeast_in_range (unsignedBoxes : Bool) (patch : Int) (nboxes : Nat)
    (h0 : 0 ≤ patch) (h1 : patch < (nboxes : Int)) :
    gsBoxTopology.patchAtLeast unsignedBoxes patch nboxes = false := by
  unfold gsBoxTopology.patchAtLeast
  cases unsignedBoxes
  · simp only [Bool.false_eq_true, if_false, decide_eq_false_iff_not]
    omega
  · simp only [if_true, decide_eq_false_iff_not]
    omega

/-- With all patch indices in range, `checkConsistency` prints at most the
warning of the side count. -/
theorem checkConsistency_in_range (t : gsBoxTopology) (hv : t.patchesInRange)
    (unsignedBoxes : Bool) :
    t.checkConsistency unsignedBoxes
      = if wrapInt ((t.nboxes : Int) * 2 * (t.m_dim : Int))
            ≠ wrapInt (2 * (t.nInterfaces : Int) + (t.nBoundary : Int)) then
          [Warning.inconsistent t.size (wrapInt ((t.nboxes : Int) * 2 * (t.m_dim : Int)))
            t.nInterfaces t.nBoundary
            (wrapInt (wrapInt ((t.nboxes : Int) * 2 * (t.m_dim : Int))
              - 2 * (t.nInterfaces : Int) - (t.nBoundary : Int)))]
        else [] := by
  obtain ⟨hb, hi⟩ := hv
  have h1 : t.m_boundary.filterMap
      (fun b => if gsBoxTopology.patchAtLeast unsignedBoxes b.patch t.nboxes then
          some (Warning.boundaryOutOfRange b.patch)
        else none) = [] := by
    rw [List.filterMap_eq_nil_iff]
    intro b hbm
    rw [patchAtLeast_in_range _ _ _ (hb b hbm).1 (hb b hbm).2]
    rfl
  have h2 : t.m_interfaces.filterMap
      (fun i => if gsBoxTopology.patchAtLeast unsignedBoxes i.ps1.patch t.nboxes
            || gsBoxTopology.patchAtLeast unsignedBoxes i.ps2.patch t.nboxes then
          some (Warning.interfaceOutOfRange i.ps1.patch i.ps2.patch)
        else none) = [] := by
    rw [List.filterMap_eq_nil_iff]
    intro i him
    rw [patchAtLeast_in_range _ _ _ (hi i him).1.1 (hi i him).1.2,
      patchAtLeast_in_range _ _ _ (hi i him).2.1 (hi i him).2.2]
    rfl
  unfold gsBoxTopology.checkConsistency
  simp only [h1, h2, List.append_nil]

/-- C4, as stated, fails when the count of sides does not fit in an `int`: on
`2^30` patches of dimension 2 with nothing listed all patch indices are in
range, `numSides` wraps around to 0 and `checkConsistency` prints no warning,
whatever the signedness of `nboxes`, while `P*2*d = 2^32` differs from
`2*nInterfaces() + nBoundary() = 0`. -/
theorem checkConsistency_silent_on_overflow :
    manyPatches.patchesInRange
    ∧ manyPatches.checkConsistency false = [] ∧ manyPatches.checkConsistency true = []
    ∧ manyPatches.nboxes * 2 * manyPatches.m_dim = 4294967296
    ∧ 2 * manyPatches.nInterfaces + manyPatches.nBoundary = 0 := by
  refine ⟨⟨by simp [manyPatches], by simp [manyPatches]⟩, by decide, by decide, by decide,
    by decide⟩

/-- C4, amended: for a topology whose boundary and interface patch indices are
all in range and whose counts `P*2*d` and `2*nInterfaces() + nBoundary()` are
below `2^31`, `checkConsistency` prints no warning exactly when
`nboxes * 2 * m_dim = 2 * nInterfaces() + nBoundary()`, whatever the signedness
of `nboxes`. -/
theorem checkConsistency_no_warning_iff (t : gsBoxTopology) (hv : t.patchesInRange)
    (hs : t.nboxes * 2 * t.m_dim < 2147483648)
    (hl : 2 * t.nInterfaces + t.nBoundary < 2147483648) (unsignedBoxes : Bool) :
    t.checkConsistency unsignedBoxes = []
      ↔ t.nboxes * 2 * t.m_dim = 2 * t.nInterfaces + t.nBoundary := by
  rw [checkConsistency_in_range t hv]
  have e1 : wrapInt ((t.nboxes : Int) * 2 * (t.m_dim : Int))
      = ((t.nboxes * 2 * t.m_dim : Nat) : Int) := by
    have : (t.nboxes : Int) * 2 * (t.m_dim : Int) = ((t.nboxes * 2 * t.m_dim : Nat) : Int) := by
      push_cast; ring
    rw [this]
    unfold wrapInt
    omega
  have e2 : wrapInt (2 * (t.nInterfaces : Int) + (t.nBoundary : Int))
      = ((2 * t.nInterfaces + t.nBoundary : Nat) : Int) := by
    have : 2 * (t.nInterfaces : Int) + (t.nBoundary : Int)
        = ((2 * t.nInterfaces + t.nBoundary : Nat) : Int) := by
      push_cast; ring
    rw [this]
    unfold wrapInt
    omega
  rw [e1, e2]
  constructor
  · intro h
    by_contra hne
    rw [if_pos (by exact_mod_cast hne)] at h
    exact List.cons_ne_nil _ _ h
  · intro h
    rw [if_neg (by rw [h]; exact fun hne => hne rfl)]

/-- Instance of C4: the three-patch topology, 12 sides, 3 interfaces, 6 boundary sides. -/
theorem checkConsistency_no_warning_iff_witness :
    threePatches.patchesInRange
    ∧ threePatches.nboxes * 2 * threePatches.m_dim < 2147483648
    ∧ 2 * threePatches.nInterfaces + threePatches.nBoundary < 2147483648
    ∧ (threePatches.checkConsistency false = []
        ↔ threePatches.nboxes * 2 * threePatches.m_dim
            = 2 * threePatches.nInterfaces + threePatches.nBoundary) :=
  ⟨by unfold gsBoxTopology.patchesInRange; decide, by decide, by decide,
   checkConsistency_no_warning_iff threePatches (by unfold gsBoxTopology.patchesInRange; decide)
     (by decide) (by decide) false⟩

end ConsistencyClaims

section AutoBoundaryLemmas

theorem sidesFrom_lt (dim s : Nat) (h : s < 2 * dim) :
    sidesFrom dim s = s :: sidesFrom dim (s + 1) := by
  unfold sidesFrom
  have : 2 * dim - s + 1 = (2 * dim - (s + 1) + 1) + 1 := by omega
  rw [this, List.range'_succ]

theorem sidesFrom_ge (dim s : Nat) (h : ¬ s < 2 * dim) : sidesFrom dim s = [s] := by
  unfold sidesFrom
  have : 2 * dim - s + 1 = 1 := by omega
  rw [this]
  rfl

theorem visitedFrom_side_lt (dim n p s : Nat) (h : s < 2 * dim) :
    visitedFrom dim n p s = ⟨(p : Int), s⟩ :: visitedFrom dim n p (s + 1) := by
  unfold visitedFrom sidesOfPatch
  rw [sidesFrom_lt dim s h]
  rfl

theorem visitedFrom_patch_lt (dim n p s : Nat) (h : ¬ s < 2 * dim) (hp : p + 1 < n) :
    visitedFrom dim n p s = ⟨(p : Int), s⟩ :: visitedFrom dim n (p + 1) firstSide := by
  unfold visitedFrom
  have : n - (p + 1) = (n - (p + 1 + 1)) + 1 := by omega
  rw [this, List.range'_succ]
  unfold sidesOfPatch
  rw [sidesFrom_ge dim s h]
  simp

theorem visitedFrom_last (dim n p s : Nat) (h : ¬ s < 2 * dim) (hp : ¬ p + 1 < n) :
    visitedFrom dim n p s = [⟨(p : Int), s⟩] := by
  unfold visitedFrom
  have : n - (p + 1) = 0 := by omega
  rw [this]
  unfold sidesOfPatch
  rw [sidesFrom_ge dim s h]
  simp

theorem autoBoundaryBody_eq (t : gsBoxTopology) (ps : patch_side) :
    t.autoBoundaryBody ps = .ok (t.markSide ps) := by
  unfold gsBoxTopology.autoBoundaryBody gsBoxTopology.addBoundary gsBoxTopology.markSide
  cases hb : t.isBoundary ps <;> cases hi : t.isInterface ps <;> simp

theorem markSide_dim (t : gsBoxTopology) (ps : patch_side) : (t.markSide ps).m_dim = t.m_dim := by
  unfold gsBoxTopology.markSide
  split <;> rfl

theorem markSide_nboxes (t : gsBoxTopology) (ps : patch_side) :
    (t.markSide ps).nboxes = t.nboxes := by
  unfold gsBoxTopology.markSide
  split <;> rfl

theorem markSide_interfaces (t : gsBoxTopology) (ps : patch_side) :
    (t.markSide ps).m_interfaces = t.m_interfaces := by
  unfold gsBoxTopology.markSide
  split <;> rfl

/-- With a step budget that covers the sides still to visit, the loop of
`addAutoBoundaries` returns the topology with each of them marked in turn. -/
theorem addAutoBoundariesLoop_eq (fuel : Nat) :
    ∀ (t : gsBoxTopology) (p s : Nat), p < t.nboxes →
      (visitedFrom t.m_dim t.nboxes p s).length ≤ fuel →
      gsBoxTopology.addAutoBoundariesLoop fuel t ⟨(p : Int), s⟩
        = .ok ((visitedFrom t.m_dim t.nboxes p s).foldl gsBoxTopology.markSide t) := by
  induction fuel with
  | zero =>
    intro t p s _ hlen
    exfalso
    by_cases hs : s < 2 * t.m_dim
    · rw [visitedFrom_side_lt _ _ _ _ hs] at hlen
      simp at hlen
    · by_cases hp : p + 1 < t.nboxes
      · rw [visitedFrom_patch_lt _ _ _ _ hs hp] at hlen
        simp at hlen
      · rw [visitedFrom_last _ _ _ _ hs hp] at hlen
        simp at hlen
  | succ fuel ih =>
    intro t p s hpn hlen
    unfold gsBoxTopology.addAutoBoundariesLoop
    rw [autoBoundaryBody_eq]
    simp only [gsBoxTopology.nextPatchSide, nextSide, markSide_dim, markSide_nboxes]
    by_cases hs : s < 2 * t.m_dim
    · rw [visitedFrom_side_lt _ _ _ _ hs] at hlen ⊢
      simp only [hs, if_true, List.foldl_cons]
      have h := ih (t.markSide ⟨(p : Int), s⟩) p (s + 1)
        (by rw [markSide_nboxes]; exact hpn)
        (by rw [markSide_dim, markSide_nboxes]; simpa using hlen)
      rw [markSide_dim, markSide_nboxes] at h
      exact h
    · by_cases hp : p + 1 < t.nboxes
      · rw [visitedFrom_patch_lt _ _ _ _ hs hp] at hlen ⊢
        have hp2 : ((p : Int) + 1 < (t.nboxes : Int)) := by exact_mod_cast hp
        simp only [hs, if_false, hp2, decide_True, if_true, List.foldl_cons]
        have h := ih (t.markSide ⟨(p : Int), s⟩) (p + 1) firstSide
          (by rw [markSide_nboxes]; exact hp)
          (by rw [markSide_dim, markSide_nboxes]; simpa using hlen)
        rw [markSide_dim, markSide_nboxes] at h
        rw [← h]
        congr 2
      · rw [visitedFrom_last _ _ _ _ hs hp]
        have hp2 : ¬ ((p : Int) + 1 < (t.nboxes : Int)) := by
          intro h
          apply hp
          exact_mod_cast h
        simp [hs, hp2]

theorem length_sidesOfPatch (dim p s : Nat) :
    (sidesOfPatch dim p s).length = 2 * dim - s + 1 := by
  simp [sidesOfPatch, sidesFrom]

theorem length_laterPatches (dim : Nat) (l : List Nat) :
    (l.flatMap (fun q => sidesOfPatch dim q firstSide)).length
      = l.length * (2 * dim - firstSide + 1) := by
  induction l with
  | nil => simp
  | cons q l ih =>
    simp only [List.flatMap_cons, List.length_append, ih, length_sidesOfPatch, List.length_cons]
    ring

theorem length_visitedSides_le (t : gsBoxTopology) (h : t.nboxes ≠ 0) :
    t.visitedSides.length ≤ t.nboxes * (2 * t.m_dim + 1) := by
  unfold gsBoxTopology.visitedSides visitedFrom
  rw [List.length_append, length_sidesOfPatch, length_laterPatches, List.length_range']
  have h1 : 2 * t.m_dim - firstSide + 1 ≤ 2 * t.m_dim + 1 := by omega
  have h2 : t.nboxes = (t.nboxes - (0 + 1)) + 1 := by omega
  calc 2 * t.m_dim - firstSide + 1 + (t.nboxes - (0 + 1)) * (2 * t.m_dim - firstSide + 1)
      = ((t.nboxes - (0 + 1)) + 1) * (2 * t.m_dim - firstSide + 1) := by ring
    _ = t.nboxes * (2 * t.m_dim - firstSide + 1) := by rw [← h2]
    _ ≤ t.nboxes * (2 * t.m_dim + 1) := Nat.mul_le_mul_left _ h1

/-- Closed form of `addAutoBoundaries`: it returns, and the result is the
topology with the visited sides marked in turn. -/
theorem addAutoBoundaries_eq (t : gsBoxTopology) :
    t.addAutoBoundaries
      = .ok (if t.nboxes = 0 then t else t.visitedSides.foldl gsBoxTopology.markSide t) := by
  unfold gsBoxTopology.addAutoBoundaries gsBoxTopology.firstPatchSide
  by_cases h : t.nboxes = 0
  · simp [h]
  · simp only [h, if_false]
    have := addAutoBoundariesLoop_eq (t.nboxes * (2 * t.m_dim + 1)) t 0 firstSide
      (Nat.pos_of_ne_zero h) (length_visitedSides_le t h)
    simpa using this

theorem markAll_dim (l : List patch_side) (t : gsBoxTopology) :
    (l.foldl gsBoxTopology.markSide t).m_dim = t.m_dim := by
  induction l generalizing t with
  | nil => rfl
  | cons x l ih => rw [List.foldl_cons, ih, markSide_dim]

theorem markAll_nboxes (l : List patch_side) (t : gsBoxTopology) :
    (l.foldl gsBoxTopology.markSide t).nboxes = t.nboxes := by
  induction l generalizing t with
  | nil => rfl
  | cons x l ih => rw [List.foldl_cons, ih, markSide_nboxes]

theorem markAll_interfaces (l : List patch_side) (t : gsBoxTopology) :
    (l.foldl gsBoxTopology.markSide t).m_interfaces = t.m_interfaces := by
  induction l generalizing t with
  | nil => rfl
  | cons x l ih => rw [List.foldl_cons, ih, markSide_interfaces]

theorem isInterface_congr (t u : gsBoxTopology) (h : u.m_interfaces = t.m_interfaces)
    (ps : patch_side) : u.isInterface ps = t.isInterface ps := by
  unfold gsBoxTopology.isInterface
  rw [h]

theorem markSide_keeps_boundary (t : gsBoxTopology) (ps : patch_side) :
    t.m_boundary <+: (t.markSide ps).m_boundary := by
  unfold gsBoxTopology.markSide
  split
  · exact List.prefix_refl _
  · exact List.prefix_append _ _

theorem markAll_keeps_boundary (l : List patch_side) (t : gsBoxTopology) :
    t.m_boundary <+: (l.foldl gsBoxTopology.markSide t).m_boundary := by
  induction l generalizing t with
  | nil => exact List.prefix_refl _
  | cons x l ih =>
    rw [List.foldl_cons]
    exact List.IsPrefix.trans (markSide_keeps_boundary t x) (ih _)

theorem isBoundary_of_extends (t u : gsBoxTopology) (h : t.m_boundary <+: u.m_boundary)
    (ps : patch_side) (hb : t.isBoundary ps = true) : u.isBoundary ps = true := by
  unfold gsBoxTopology.isBoundary at hb ⊢
  rw [List.any_eq_true] at hb ⊢
  obtain ⟨b, hb1, hb2⟩ := hb
  exact ⟨b, h.subset hb1, hb2⟩

theorem markSide_classified (t : gsBoxTopology) (ps : patch_side) :
    (t.markSide ps).isBoundary ps = true ∨ t.isInterface ps = true := by
  cases hi : t.isInterface ps
  · left
    cases hb : t.isBoundary ps
    · have hm : t.markSide ps = { t with m_boundary := t.m_boundary ++ [ps] } := by
        simp [gsBoxTopology.markSide, hb, hi]
      rw [hm]
      simp [gsBoxTopology.isBoundary]
    · simp [gsBoxTopology.markSide, hb, hi]
  · right
    rfl

/-- After marking the sides of a list, each of them is a boundary side unless it
is a member of an interface. -/
theorem markAll_classified (l : List patch_side) (t : gsBoxTopology) (ps : patch_side)
    (h : ps ∈ l) :
    (l.foldl gsBoxTopology.markSide t).isBoundary ps = true ∨ t.isInterface ps = true := by
  induction l generalizing t with
  | nil => simp at h
  | cons x l ih =>
    rw [List.foldl_cons]
    rcases List.mem_cons.mp h with rfl | hl
    · rcases markSide_classified t ps with hb | hi
      · left
        exact isBoundary_of_extends _ _ (markAll_keeps_boundary l _) ps hb
      · right
        exact hi
    · rcases ih (t.markSide x) hl with hb | hi
      · left
        exact hb
      · right
        rw [← isInterface_congr t (t.markSide x) (markSide_interfaces t x)]
        exact hi

/-- Marking sides that are all classified changes nothing. -/
theorem markAll_of_classified (l : List patch_side) (t : gsBoxTopology)
    (h : ∀ ps ∈ l, t.isBoundary ps = true ∨ t.isInterface ps = true) :
    l.foldl gsBoxTopology.markSide t = t := by
  induction l with
  | nil => rfl
  | cons x l ih =>
    rw [List.foldl_cons]
    have hx : t.markSide x = t := by
      unfold gsBoxTopology.markSide
      rcases h x (List.mem_cons_self _ _) with hb | hi
      · simp [hb]
      · simp [hi]
    rw [hx]
    exact ih (fun ps hps => h ps (List.mem_cons_of_mem _ hps))

end AutoBoundaryLemmas

section AutoBoundaryClaims

/-- C6: `addAutoBoundaries` is idempotent: it returns a topology on which a
second call returns that same topology. -/
theorem addAutoBoundaries_idempotent (t : gsBoxTopology) :
    ∃ u, t.addAutoBoundaries = .ok u ∧ u.addAutoBoundaries = .ok u := by
  by_cases h : t.nboxes = 0
  · refine ⟨t, ?_, ?_⟩ <;> rw [addAutoBoundaries_eq, if_pos h]
  · refine ⟨t.visitedSides.foldl gsBoxTopology.markSide t, ?_, ?_⟩
    · rw [addAutoBoundaries_eq, if_neg h]
    · rw [addAutoBoundaries_eq]
      have hn : (t.visitedSides.foldl gsBoxTopology.markSide t).nboxes ≠ 0 := by
        rw [markAll_nboxes]
        exact h
      rw [if_neg hn]
      have hv : (t.visitedSides.foldl gsBoxTopology.markSide t).visitedSides = t.visitedSides := by
        unfold gsBoxTopology.visitedSides
        rw [markAll_nboxes, markAll_dim]
      rw [hv]
      congr 1
      apply markAll_of_classified
      intro ps hps
      rcases markAll_classified t.visitedSides t ps hps with hb | hi
      · exact Or.inl hb
      · right
        rw [isInterface_congr t _ (markAll_interfaces _ _)]
        exact hi

end AutoBoundaryClaims

section NeighbourLemmas

theorem getNeighbourLoop_none (l : List boundaryInterface) (ps result : patch_side)
    (h : ∀ J ∈ l, ¬ J.contains ps) : gsBoxTopology.getNeighbourLoop l ps result = (false, result) := by
  induction l with
  | nil => rfl
  | cons J l ih =>
    have hJ := h J (List.mem_cons_self _ _)
    unfold boundaryInterface.contains at hJ
    rw [not_or] at hJ
    unfold gsBoxTopology.getNeighbourLoop
    rw [if_neg hJ.1, if_neg hJ.2]
    exact ih (fun K hK => h K (List.mem_cons_of_mem _ hK))

theorem getNeighbourLoop_some (l : List boundaryInterface) (ps result : patch_side)
    (h : ∃ J ∈ l, J.contains ps) :
    ∃ I ∈ l, (I.ps1 = ps ∧ gsBoxTopology.getNeighbourLoop l ps result = (true, I.ps2))
      ∨ (I.ps2 = ps ∧ gsBoxTopology.getNeighbourLoop l ps result = (true, I.ps1)) := by
  induction l with
  | nil =>
    obtain ⟨J, hJ, _⟩ := h
    simp at hJ
  | cons K l ih =>
    unfold gsBoxTopology.getNeighbourLoop
    by_cases h1 : K.ps1 = ps
    · exact ⟨K, List.mem_cons_self _ _, Or.inl ⟨h1, by rw [if_pos h1]⟩⟩
    · by_cases h2 : K.ps2 = ps
      · exact ⟨K, List.mem_cons_self _ _, Or.inr ⟨h2, by rw [if_neg h1, if_pos h2]⟩⟩
      · rw [if_neg h1, if_neg h2]
        have hl : ∃ J ∈ l, J.contains ps := by
          obtain ⟨J, hJ, hc⟩ := h
          rcases List.mem_cons.mp hJ with rfl | hJl
          · rcases hc with hc | hc
            · exact absurd hc h1
            · exact absurd hc h2
          · exact ⟨J, hJl, hc⟩
        obtain ⟨I, hI, hres⟩ := ih hl
        exact ⟨I, List.mem_cons_of_mem _ hI, hres⟩

theorem getNeighbourLoop_unique (l : List boundaryInterface) (ps result : patch_side)
    (I : boundaryInterface) (hI : I ∈ l) (hu : ∀ J ∈ l, J.contains ps → J = I) :
    (I.ps1 = ps → gsBoxTopology.getNeighbourLoop l ps result = (true, I.ps2))
    ∧ (I.ps2 = ps → gsBoxTopology.getNeighbourLoop l ps result = (true, I.ps1)) := by
  induction l with
  | nil => simp at hI
  | cons K l ih =>
    unfold gsBoxTopology.getNeighbourLoop
    by_cases h1 : K.ps1 = ps
    · have hK : K = I := hu K (List.mem_cons_self _ _) (Or.inl h1)
      subst hK
      rw [if_pos h1]
      refine ⟨fun _ => rfl, fun h2 => ?_⟩
      rw [h1, h2]
    · by_cases h2 : K.ps2 = ps
      · have hK : K = I := hu K (List.mem_cons_self _ _) (Or.inr h2)
        subst hK
        rw [if_neg h1, if_pos h2]
        exact ⟨fun h => absurd h h1, fun _ => rfl⟩
      · rw [if_neg h1, if_neg h2]
        rcases List.mem_cons.mp hI with rfl | h
        · exact ⟨fun h => absurd h h1, fun h => absurd h h2⟩
        · exact ih h (fun J hJ hc => hu J (List.mem_cons_of_mem _ hJ) hc)

theorem isInterface_iff (t : gsBoxTopology) (ps : patch_side) :
    t.isInterface ps = true ↔ ∃ J ∈ t.m_interfaces, J.contains ps := by
  unfold gsBoxTopology.isInterface boundaryInterface.contains
  simp [List.any_eq_true]

end NeighbourLemmas

section NeighbourClaims

/-- C7, as stated, fails on a boundary side that is also listed in an
interface: in `doubleListed` the east side of patch 0 is a boundary side, and
`getNeighbour` returns `true` with the west side of patch 1 in `result`. -/
theorem getNeighbour_of_listed_boundary :
    doubleListed.isBoundary ⟨0, 2⟩ = true
    ∧ doubleListed.getNeighbour ⟨0, 2⟩ ⟨7, 7⟩ = (true, ⟨1, 1⟩) := by
  decide

/-- C7, amended: in every topology `getNeighbour(ps, result)` on a member of an
interface returns `true` with the other side of an interface that contains
`ps` in `result` (`ps2` when `ps` is its `ps1`, `ps1` when `ps` is its `ps2`),
which is the other side of the interface containing `ps` when there is only
one such interface.  On a side that is a member of no interface, be it an
unclassified side or a boundary side, it returns `false` and leaves `result`
untouched; a boundary side that is also listed in an interface is treated as
the member of the interface. -/
theorem getNeighbour_other_side_or_none (t : gsBoxTopology) (ps result : patch_side) :
    (t.isInterface ps = true →
      ∃ I ∈ t.m_interfaces, (I.ps1 = ps ∧ t.getNeighbour ps result = (true, I.ps2))
        ∨ (I.ps2 = ps ∧ t.getNeighbour ps result = (true, I.ps1)))
    ∧ (∀ I ∈ t.m_interfaces, (∀ J ∈ t.m_interfaces, J.contains ps → J = I) →
        (I.ps1 = ps → t.getNeighbour ps result = (true, I.ps2))
        ∧ (I.ps2 = ps → t.getNeighbour ps result = (true, I.ps1)))
    ∧ (t.isInterface ps = false → t.getNeighbour ps result = (false, result))
    ∧ (t.isBoundary ps = false → t.isInterface ps = false →
        t.getNeighbour ps result = (false, result))
    ∧ (t.isBoundary ps = true → t.isInterface ps = false →
        t.getNeighbour ps result = (false, result))
    ∧ (t.isBoundary ps = true → t.isInterface ps = true →
        (t.getNeighbour ps result).1 = true) := by
  have hnone : t.isInterface ps = false → t.getNeighbour ps result = (false, result) := by
    intro h
    apply getNeighbourLoop_none
    intro J hJ hc
    have : t.isInterface ps = true := (isInterface_iff t ps).mpr ⟨J, hJ, hc⟩
    rw [h] at this
    exact Bool.noConfusion this
  have hsome : t.isInterface ps = true →
      ∃ I ∈ t.m_interfaces, (I.ps1 = ps ∧ t.getNeighbour ps result = (true, I.ps2))
        ∨ (I.ps2 = ps ∧ t.getNeighbour ps result = (true, I.ps1)) :=
    fun h => getNeighbourLoop_some _ _ _ ((isInterface_iff t ps).mp h)
  refine ⟨hsome, fun I hI hu => ?_, hnone, fun _ h => hnone h, fun _ h => hnone h, ?_⟩
  · exact getNeighbourLoop_unique _ _ _ I hI hu
  · intro _ h
    obtain ⟨I, _, h1 | h1⟩ := hsome h
    · rw [h1.2]
    · rw [h1.2]

/-- Instance of C7 on the three patches: the north side of patch 1 and the
south side of patch 2 are neighbours, the west side of patch 0 is a boundary
side and side 4 of a patch 5 is unclassified. -/
theorem getNeighbour_other_side_or_none_witness :
    (threePatches.isInterface ⟨1, 4⟩ = true
      ∧ (⟨⟨1, 4⟩, ⟨2, 3⟩, [true]⟩ : boundaryInterface) ∈ threePatches.m_interfaces
      ∧ threePatches.getNeighbour ⟨1, 4⟩ ⟨0, 0⟩ = (true, ⟨2, 3⟩)
      ∧ threePatches.getNeighbour ⟨2, 3⟩ ⟨0, 0⟩ = (true, ⟨1, 4⟩))
    ∧ (threePatches.isBoundary ⟨0, 1⟩ = true ∧ threePatches.isInterface ⟨0, 1⟩ = false
      ∧ threePatches.getNeighbour ⟨0, 1⟩ ⟨7, 7⟩ = (false, ⟨7, 7⟩))
    ∧ (threePatches.isBoundary ⟨5, 4⟩ = false ∧ threePatches.isInterface ⟨5, 4⟩ = false
      ∧ threePatches.getNeighbour ⟨5, 4⟩ ⟨7, 7⟩ = (false, ⟨7, 7⟩)) := by
  have hu1 : ∀ J ∈ threePatches.m_interfaces,
      J.contains ⟨1, 4⟩ → J = (⟨⟨1, 4⟩, ⟨2, 3⟩, [true]⟩ : boundaryInterface) := by
    unfold boundaryInterface.contains
    decide
  have hu2 : ∀ J ∈ threePatches.m_interfaces,
      J.contains ⟨2, 3⟩ → J = (⟨⟨1, 4⟩, ⟨2, 3⟩, [true]⟩ : boundaryInterface) := by
    unfold boundaryInterface.contains
    decide
  exact ⟨⟨by decide, by decide,
      ((getNeighbour_other_side_or_none threePatches ⟨1, 4⟩ ⟨0, 0⟩).2.1 _ (by decide) hu1).1 rfl,
      ((getNeighbour_other_side_or_none threePatches ⟨2, 3⟩ ⟨0, 0⟩).2.1 _ (by decide) hu2).2 rfl⟩,
    ⟨by decide, by decide,
      (getNeighbour_other_side_or_none threePatches ⟨0, 1⟩ ⟨7, 7⟩).2.2.2.2.1 (by decide)
        (by decide)⟩,
    ⟨by decide, by decide,
      (getNeighbour_other_side_or_none threePatches ⟨5, 4⟩ ⟨7, 7⟩).2.2.2.1 (by decide)
        (by decide)⟩⟩

end NeighbourClaims

section CornerFuelLemmas

/-- A walk that ends within its step budget ends the same way with one more step. -/
theorem getCornerListLoop_succ (t : gsBoxTopology) (start : patch_corner) (fuel : Nat) :
    ∀ (w : CornerWalk) (r : Bool × List patch_corner),
      t.getCornerListLoop start fuel w = .ok r → t.getCornerListLoop start (fuel + 1) w = .ok r := by
  induction fuel with
  | zero =>
    intro w r h
    simp [gsBoxTopology.getCornerListLoop] at h
  | succ fuel ih =>
    intro w r h
    rw [gsBoxTopology.getCornerListLoop] at h ⊢
    cases hb : t.cornerListBody start w with
    | error e =>
      rw [hb] at h
      simp at h
    | ok v =>
      obtain ⟨brk, w1⟩ := v
      rw [hb] at h
      cases brk with
      | true => simpa using h
      | false =>
        simp only at h ⊢
        by_cases hc : w1.curCorner = start
        · rw [if_pos hc] at h ⊢
          exact h
        · rw [if_neg hc] at h ⊢
          exact ih w1 r h

/-- A walk that ends within its step budget ends the same way with any larger one. -/
theorem getCornerListLoop_mono (t : gsBoxTopology) (start : patch_corner) (fuel k : Nat)
    (w : CornerWalk) (r : Bool × List patch_corner)
    (h : t.getCornerListLoop start fuel w = .ok r) :
    t.getCornerListLoop start (fuel + k) w = .ok r := by
  induction k with
  | zero => exact h
  | succ k ih => exact getCornerListLoop_succ t start (fuel + k) w r ih

theorem getCornerList_mono (t : gsBoxTopology) (fuel k : Nat) (c : patch_corner)
    (r : Bool × List patch_corner) (h : t.getCornerList fuel c = .ok r) :
    t.getCornerList (fuel + k) c = .ok r := by
  unfold gsBoxTopology.getCornerList at h ⊢
  by_cases hd : t.m_dim ≠ 2
  · rw [if_pos hd] at h
    simp at h
  · rw [if_neg hd] at h ⊢
    split at h
    · exact getCornerListLoop_mono t c fuel k _ r h
    · simp at h

theorem vertexStep_mono (t : gsBoxTopology) (fuel k : Nat) (keep : Nat → Bool) (i : Int)
    (acc : List (List patch_corner)) (j : Nat) (r : List (List patch_corner))
    (h : t.vertexStep fuel keep i acc j = .ok r) :
    t.vertexStep (fuel + k) keep i acc j = .ok r := by
  unfold gsBoxTopology.vertexStep at h ⊢
  cases hc : t.getCornerList fuel ⟨i, j⟩ with
  | error e =>
    rw [hc] at h
    simp at h
  | ok v =>
    rw [getCornerList_mono t fuel k _ v hc]
    rw [hc] at h
    exact h

/-- A fold that succeeds still succeeds, with the same result, when its step
function is replaced by one that agrees with it on success. -/
theorem foldlM_ok_mono {α β ε : Type} (f g : β → α → Except ε β)
    (hfg : ∀ b a r, f b a = .ok r → g b a = .ok r) :
    ∀ (l : List α) (b r : β), l.foldlM f b = .ok r → l.foldlM g b = .ok r := by
  intro l
  induction l with
  | nil =>
    intro b r h
    simpa using h
  | cons a l ih =>
    intro b r h
    rw [List.foldlM_cons] at h ⊢
    cases hf : f b a with
    | error e =>
      rw [hf] at h
      cases h
    | ok v =>
      rw [hf] at h
      rw [hfg b a v hf]
      exact ih v r h

theorem vertexScan_mono (t : gsBoxTopology) (fuel k : Nat) (keep : Nat → Bool)
    (r : List (List patch_corner)) (h : t.vertexScan fuel keep = .ok r) :
    t.vertexScan (fuel + k) keep = .ok r := by
  unfold gsBoxTopology.vertexScan at h ⊢
  refine foldlM_ok_mono _ _ ?_ _ _ _ h
  intro b i r1 h1
  exact foldlM_ok_mono _ _ (fun b2 j r2 h2 => vertexStep_mono t fuel k keep _ b2 j r2 h2) _ _ _ h1

theorem getEVs_mono (t : gsBoxTopology) (fuel k : Nat) (r : List (List patch_corner))
    (h : t.getEVs fuel = .ok r) : t.getEVs (fuel + k) = .ok r := by
  unfold gsBoxTopology.getEVs at h ⊢
  by_cases hd : t.m_dim ≠ 2
  · rw [if_pos hd] at h
    simp at h
  · rw [if_neg hd] at h ⊢
    exact vertexScan_mono t fuel k _ r h

theorem getOVs_mono (t : gsBoxTopology) (fuel k : Nat) (r : List (List patch_corner))
    (h : t.getOVs fuel = .ok r) : t.getOVs (fuel + k) = .ok r := by
  unfold gsBoxTopology.getOVs at h ⊢
  by_cases hd : t.m_dim ≠ 2
  · rw [if_pos hd] at h
    simp at h
  · rw [if_neg hd] at h ⊢
    exact vertexScan_mono t fuel k _ r h

end CornerFuelLemmas

section VertexClaims

/-- The three corner walks and the two vertex scans of the 64 layouts
`threePatchesAt`, evaluated with a budget of three passes. -/
theorem threePatchesAt_base :
    ∀ c0 ∈ [1, 2, 3, 4], ∀ c1 ∈ [1, 2, 3, 4], ∀ c2 ∈ [1, 2, 3, 4],
      (threePatchesAt c0 c1 c2).getCornerList 3 ⟨0, c0⟩
          = .ok (true, [⟨0, c0⟩, ⟨1, c1⟩, ⟨2, c2⟩])
      ∧ (threePatchesAt c0 c1 c2).getCornerList 3 ⟨1, c1⟩
          = .ok (true, [⟨1, c1⟩, ⟨2, c2⟩, ⟨0, c0⟩])
      ∧ (threePatchesAt c0 c1 c2).getCornerList 3 ⟨2, c2⟩
          = .ok (true, [⟨2, c2⟩, ⟨0, c0⟩, ⟨1, c1⟩])
      ∧ (threePatchesAt c0 c1 c2).getEVs 3 = .ok [[⟨0, c0⟩, ⟨1, c1⟩, ⟨2, c2⟩]]
      ∧ (threePatchesAt c0 c1 c2).getOVs 3 = .ok [] := by
  decide!

/-- The corner walks and vertex scans of `twoSquaresAt` with a budget of two passes. -/
theorem twoSquaresAt_base :
    ∀ s0 ∈ [1, 2, 3, 4], ∀ s1 ∈ [1, 2, 3, 4], ∀ o ∈ [true, false], ∀ q ∈ [true, false],
      (twoSquaresAt s0 s1 o).getCornerList 2 (getPatchCorner ⟨0, s0⟩ [q])
          = .ok (false, [getPatchCorner ⟨0, s0⟩ [q],
              getPatchCorner ⟨1, s1⟩ [if o then q else !q]])
      ∧ (twoSquaresAt s0 s1 o).getCornerList 2 (getPatchCorner ⟨1, s1⟩ [if o then q else !q])
          = .ok (false, [getPatchCorner ⟨1, s1⟩ [if o then q else !q],
              getPatchCorner ⟨0, s0⟩ [q]])
      ∧ (twoSquaresAt s0 s1 o).getEVs 2 = .ok []
      ∧ (twoSquaresAt s0 s1 o).getOVs 2 = .ok [] := by
  decide!

/-- C9, as the program has it: two squares joined along one side (side `s0` of
patch 0 on side `s1` of patch 1, any orientation flag `o`, the other six sides
boundary).  `getCornerList` started at a corner on the shared side (at position
`q` of the side) returns `false`, an open walk, with the two corners that meet
there, whatever the step budget from two passes on; `getOVs` and `getEVs` both
return the empty list. -/
theorem two_squares_shared_corner_open :
    ∀ s0 ∈ [1, 2, 3, 4], ∀ s1 ∈ [1, 2, 3, 4], ∀ (o q : Bool) (k : Nat),
      (twoSquaresAt s0 s1 o).getCornerList (2 + k) (getPatchCorner ⟨0, s0⟩ [q])
          = .ok (false, [getPatchCorner ⟨0, s0⟩ [q],
              getPatchCorner ⟨1, s1⟩ [if o then q else !q]])
      ∧ (twoSquaresAt s0 s1 o).getCornerList (2 + k)
            (getPatchCorner ⟨1, s1⟩ [if o then q else !q])
          = .ok (false, [getPatchCorner ⟨1, s1⟩ [if o then q else !q],
              getPatchCorner ⟨0, s0⟩ [q]])
      ∧ (twoSquaresAt s0 s1 o).getEVs (2 + k) = .ok []
      ∧ (twoSquaresAt s0 s1 o).getOVs (2 + k) = .ok [] := by
  intro s0 h0 s1 h1 o q k
  have ho : o ∈ [true, false] := by cases o <;> simp
  have hq : q ∈ [true, false] := by cases q <;> simp
  obtain ⟨ha, hb, he, hv⟩ := twoSquaresAt_base s0 h0 s1 h1 o ho q hq
  exact ⟨getCornerList_mono _ 2 k _ _ ha, getCornerList_mono _ 2 k _ _ hb,
    getEVs_mono _ 2 k _ he, getOVs_mono _ 2 k _ hv⟩

/-- Instance of C9 as amended: `twoSquares`, east side of patch 0 on west side of
patch 1 with identity orientation, the southern end of the shared side. -/
theorem two_squares_shared_corner_open_witness :
    2 ∈ [1, 2, 3, 4] ∧ 1 ∈ [1, 2, 3, 4] ∧ twoSquaresAt 2 1 true = twoSquares
    ∧ getPatchCorner ⟨0, 2⟩ [false] = ⟨0, 2⟩ ∧ getPatchCorner ⟨1, 1⟩ [false] = ⟨1, 1⟩
    ∧ (twoSquaresAt 2 1 true).getCornerList (2 + 0) (getPatchCorner ⟨0, 2⟩ [false])
        = .ok (false, [getPatchCorner ⟨0, 2⟩ [false],
            getPatchCorner ⟨1, 1⟩ [if true then false else !false]])
    ∧ (twoSquaresAt 2 1 true).getCornerList (2 + 0)
          (getPatchCorner ⟨1, 1⟩ [if true then false else !false])
        = .ok (false, [getPatchCorner ⟨1, 1⟩ [if true then false else !false],
            getPatchCorner ⟨0, 2⟩ [false]])
    ∧ (twoSquaresAt 2 1 true).getEVs (2 + 0) = .ok []
    ∧ (twoSquaresAt 2 1 true).getOVs (2 + 0) = .ok [] :=
  ⟨by decide, by decide, by decide, by decide, by decide,
    two_squares_shared_corner_open 2 (by decide) 1 (by decide) true false 0⟩

/-- C9 as stated fails on `twoSquares`: the walk from the southeast corner of
patch 0, which lies on the shared side, is open (`false`) and has two corners,
no budget makes it return `true`, and `getOVs` reports no vertex. -/
theorem two_squares_shared_corner_not_closed :
    twoSquares.getCornerList 2 ⟨0, 2⟩ = .ok (false, [⟨0, 2⟩, ⟨1, 1⟩])
    ∧ twoSquares.getOVs 2 = .ok []
    ∧ ¬ ∃ (fuel : Nat) (l : List patch_corner),
        twoSquares.getCornerList fuel ⟨0, 2⟩ = .ok (true, l) := by
  refine ⟨by decide, by decide, ?_⟩
  rintro ⟨fuel, l, h⟩
  have h2 : twoSquares.getCornerList 2 ⟨0, 2⟩ = .ok (false, [⟨0, 2⟩, ⟨1, 1⟩]) := by decide
  rcases Nat.lt_or_ge fuel 2 with hlt | hge
  · have hf : fuel = 0 ∨ fuel = 1 := by omega
    rcases hf with rfl | rfl
    · have h0 : twoSquares.getCornerList 0 ⟨0, 2⟩ = .error .outOfFuel := by decide
      rw [h0] at h
      cases h
    · have h1 : twoSquares.getCornerList 1 ⟨0, 2⟩ = .error .outOfFuel := by decide
      rw [h1] at h
      cases h
  · obtain ⟨k, rfl⟩ : ∃ k, fuel = 2 + k := ⟨fuel - 2, by omega⟩
    rw [getCornerList_mono _ 2 k _ _ h2] at h
    cases h

/-- C10: one two-dimensional patch without interface, whatever sides are listed
as boundary (in particular `singlePatch`, whose four sides are): `getOVs` and
`getEVs` return the empty list and `getCornerList` returns `false` on each of
the four corners, whatever the step budget from one pass on. -/
theorem single_patch_no_vertices (b : List patch_side) (k : Nat) :
    (onePatch b).getOVs (1 + k) = .ok []
    ∧ (onePatch b).getEVs (1 + k) = .ok []
    ∧ (∀ j ∈ [1, 2, 3, 4], (onePatch b).getCornerList (1 + k) ⟨0, j⟩ = .ok (false, [⟨0, j⟩]))
    ∧ singlePatch.getOVs (1 + k) = .ok []
    ∧ singlePatch.getEVs (1 + k) = .ok []
    ∧ (∀ j ∈ [1, 2, 3, 4], singlePatch.getCornerList (1 + k) ⟨0, j⟩ = .ok (false, [⟨0, j⟩])) := by
  have hc : ∀ (b : List patch_side), ∀ j ∈ [1, 2, 3, 4],
      (onePatch b).getCornerList 1 ⟨0, j⟩ = .ok (false, [⟨0, j⟩]) := by
    intro b j hj
    simp only [List.mem_cons, List.mem_singleton, List.not_mem_nil, or_false] at hj
    rcases hj with rfl | rfl | rfl | rfl <;> rfl
  have ho : ∀ (b : List patch_side), (onePatch b).getOVs 1 = .ok [] := fun b => rfl
  have he : ∀ (b : List patch_side), (onePatch b).getEVs 1 = .ok [] := fun b => rfl
  exact ⟨getOVs_mono _ 1 k _ (ho b), getEVs_mono _ 1 k _ (he b),
    fun j hj => getCornerList_mono _ 1 k _ _ (hc b j hj),
    getOVs_mono _ 1 k _ (ho _), getEVs_mono _ 1 k _ (he _),
    fun j hj => getCornerList_mono _ 1 k _ _ (hc _ j hj)⟩

/-- Instance of C10: `singlePatch`, its northwest corner, budget of five passes. -/
theorem single_patch_no_vertices_witness :
    3 ∈ [1, 2, 3, 4]
    ∧ singlePatch.getCornerList (1 + 4) ⟨0, 3⟩ = .ok (false, [⟨0, 3⟩])
    ∧ singlePatch.getOVs (1 + 4) = .ok []
    ∧ singlePatch.getEVs (1 + 4) = .ok [] :=
  ⟨by decide, (single_patch_no_vertices [] 4).2.2.2.2.2 3 (by decide),
    (single_patch_no_vertices [] 4).2.2.2.1, (single_patch_no_vertices [] 4).2.2.2.2.1⟩

end VertexClaims

section DimensionClaims

/-- C14: in a topology whose dimension is not 2 the assertion `m_dim==2` fails,
so that `getCornerList`, `getEVs` and `getOVs` fail with an error and return no
classification, whatever the step budget and the start corner. -/
theorem unsupported_dimension_fails (t : gsBoxTopology) (h : t.m_dim ≠ 2) (fuel : Nat)
    (start : patch_corner) :
    GISMO_ASSERT (decide (t.m_dim = 2)) = .error .assertFailed
    ∧ t.getCornerList fuel start = .error .assertFailed
    ∧ t.getEVs fuel = .error .assertFailed
    ∧ t.getOVs fuel = .error .assertFailed := by
  refine ⟨?_, ?_, ?_, ?_⟩
  · simp [GISMO_ASSERT, h]
  · simp [gsBoxTopology.getCornerList, h]
  · simp [gsBoxTopology.getEVs, h]
  · simp [gsBoxTopology.getOVs, h]

/-- Instance of C14: one three-dimensional box. -/
theorem unsupported_dimension_fails_witness :
    oneCube.m_dim ≠ 2
    ∧ GISMO_ASSERT (decide (oneCube.m_dim = 2)) = .error .assertFailed
    ∧ oneCube.getCornerList 7 ⟨0, 1⟩ = .error .assertFailed
    ∧ oneCube.getEVs 7 = .error .assertFailed
    ∧ oneCube.getOVs 7 = .error .assertFailed :=
  ⟨by decide, unsupported_dimension_fails oneCube (by decide) 7 ⟨0, 1⟩⟩

end DimensionClaims

section SymmetryClaims

open gsVisitorPoisson

variable {R : Type} [CommRing R]

/-- C20: `localToGlobal` adds to every entry `(r,c)` of free indices the full sum
of the `localMat(i,j)` with `global i = r` and `global j = c`, whatever the
order of `r` and `c` (no triangular restriction).  Hence, when `localMat` is
symmetric on the active indices and `sysMatrix` is symmetric before the call,
`sysMatrix` is symmetric after the call, also when several local indices have
the same global index. -/
theorem localToGlobal_preserves_symmetry (v : gsVisitorPoisson R) (mapper : gsDofMapper)
    (elim : gsMatrix R) (patchIndex : Int) (sys : gsSparseMatrix R) (rhs : gsMatrix R)
    (hlm : ∀ i j, i < v.numActive → j < v.numActive → v.localMat i j = v.localMat j i)
    (hs : ∀ r c, sys.coeff r c = sys.coeff c r) :
    (∀ r c, mapper.is_free_index r = true → mapper.is_free_index c = true →
      (v.localToGlobal mapper elim patchIndex sys rhs).2.1.coeff r c
        = sys.coeff r c
          + ∑ i in (Finset.range v.numActive).filter
              (fun i => v.globalActives mapper patchIndex i = r),
              ∑ j in (Finset.range v.numActive).filter
                (fun j => v.globalActives mapper patchIndex j = c), v.localMat i j)
    ∧ (∀ r c, (v.localToGlobal mapper elim patchIndex sys rhs).2.1.coeff r c
        = (v.localToGlobal mapper elim patchIndex sys rhs).2.1.coeff c r) := by
  refine ⟨fun r c hr hc => localToGlobal_sys_eq v mapper elim patchIndex sys rhs r c hr hc, ?_⟩
  intro r c
  have hframe : ∀ a b, (mapper.is_free_index a = false ∨ mapper.is_free_index b = false) →
      (v.localToGlobal mapper elim patchIndex sys rhs).2.1.coeff a b = sys.coeff a b := by
    intro a b hab
    unfold gsSparseMatrix.coeff localToGlobal
    rw [rowFold_sys_frame _ _ _ _ _ _ _ _ _ _ hab]
  cases hr : mapper.is_free_index r with
  | false => rw [hframe r c (Or.inl hr), hframe c r (Or.inr hr), hs]
  | true =>
    cases hc : mapper.is_free_index c with
    | false => rw [hframe r c (Or.inr hc), hframe c r (Or.inl hc), hs]
    | true =>
      rw [localToGlobal_sys_eq _ _ _ _ _ _ _ _ hr hc, localToGlobal_sys_eq _ _ _ _ _ _ _ _ hc hr,
        hs r c]
      congr 1
      rw [Finset.sum_comm]
      apply Finset.sum_congr rfl
      intro j hj
      apply Finset.sum_congr rfl
      intro i hi
      exact hlm i j (Finset.mem_range.mp (Finset.mem_filter.mp hi).1)
        (Finset.mem_range.mp (Finset.mem_filter.mp hj).1)

/-- Instance of C20: three active functions, the first two with the same global
index, scattered into the zero matrix. -/
theorem localToGlobal_preserves_symmetry_witness :
    (∀ i j, i < TwoDofElement.symVisitor.numActive → j < TwoDofElement.symVisitor.numActive →
      TwoDofElement.symVisitor.localMat i j = TwoDofElement.symVisitor.localMat j i)
    ∧ (∀ r c, (gsSparseMatrix.zero Int).coeff r c = (gsSparseMatrix.zero Int).coeff c r)
    ∧ (TwoDofElement.symVisitor.localToGlobal TwoDofElement.mergeMapper TwoDofElement.elimZero 0
        (gsSparseMatrix.zero Int) TwoDofElement.rhsZero).2.1.coeff 0 1 = 7
    ∧ (TwoDofElement.symVisitor.localToGlobal TwoDofElement.mergeMapper TwoDofElement.elimZero 0
        (gsSparseMatrix.zero Int) TwoDofElement.rhsZero).2.1.coeff 0 1
      = (TwoDofElement.symVisitor.localToGlobal TwoDofElement.mergeMapper TwoDofElement.elimZero 0
        (gsSparseMatrix.zero Int) TwoDofElement.rhsZero).2.1.coeff 1 0 :=
  ⟨fun i j _ _ => by simp only [TwoDofElement.symVisitor]; ring,
   fun _ _ => rfl,
   by decide,
   (localToGlobal_preserves_symmetry TwoDofElement.symVisitor TwoDofElement.mergeMapper
      TwoDofElement.elimZero 0 (gsSparseMatrix.zero Int) TwoDofElement.rhsZero
      (fun i j _ _ => by simp only [TwoDofElement.symVisitor]; ring) (fun _ _ => rfl)).2 0 1⟩

end SymmetryClaims

section AssembleLemmas

open gsVisitorPoisson gsVisitorPoissonData

variable {R : Type} [CommRing R]

theorem assembleStep_rhsVals (geoEval : gsGeometryEvaluator R) (quWeights : List R)
    (d : gsVisitorPoissonData R) (k : Nat) :
    (assembleStep geoEval quWeights d k).rhsVals = d.rhsVals := rfl

theorem assembleStep_bVals (geoEval : gsGeometryEvaluator R) (quWeights : List R)
    (d : gsVisitorPoissonData R) (k : Nat) :
    (assembleStep geoEval quWeights d k).bVals = d.bVals := rfl

theorem assembleStep_bGrads (geoEval : gsGeometryEvaluator R) (quWeights : List R)
    (d : gsVisitorPoissonData R) (k : Nat) :
    (assembleStep geoEval quWeights d k).bGrads = d.bGrads := rfl

/-- The loop of `assemble` over a list of nodes keeps a zero `localRhs` zero when
`rhsVals` is zero. -/
theorem assembleFold_localRhs_zero (geoEval : gsGeometryEvaluator R) (quWeights : List R)
    (l : List Nat) (d : gsVisitorPoissonData R)
    (hv : ∀ c k, d.rhsVals c k = 0) (hz : ∀ i c, d.localRhs i c = 0) :
    ∀ i c, (l.foldl (assembleStep geoEval quWeights) d).localRhs i c = 0 := by
  induction l generalizing d with
  | nil => exact hz
  | cons k l ih =>
    rw [List.foldl_cons]
    apply ih
    · intro c k2
      rw [assembleStep_rhsVals]
      exact hv c k2
    · intro i c
      show d.localRhs i c + _ * (d.bVals i k * d.rhsVals c k) = 0
      rw [hz, hv]
      ring

/-- With a zero local right-hand side and a zero table of eliminated values one
`localToGlobal` call leaves the right-hand side as it is. -/
theorem localToGlobal_rhs_unchanged (v : gsVisitorPoisson R) (mapper : gsDofMapper)
    (elim : gsMatrix R) (patchIndex : Int) (sys : gsSparseMatrix R) (rhs : gsMatrix R)
    (hz : ∀ i c, v.localRhs i c = 0) (he : ∀ b k, elim b k = 0) (r k : Nat) :
    (v.localToGlobal mapper elim patchIndex sys rhs).2.2 r k = rhs r k := by
  unfold localToGlobal
  simp only [rowFold_rhs, hz, he, mul_zero, ite_self, List.map_const', List.sum_replicate,
    smul_zero, sub_zero, add_zero]

end AssembleLemmas
section ZeroSourceClaims

open gsVisitorPoisson gsVisitorPoissonData

variable {R : Type} [CommRing R]

/-- C19: on an element whose source values `rhsVals` are all zero, `evaluate`
followed by `assemble` leaves `localRhs` zero (and so does `assemble` alone on
a zero `localRhs`); `localToGlobal` with a zero `localRhs` and an all-zero table
of eliminated values leaves `rhsMatrix` unchanged; and any sequence of such
calls on a zero right-hand side yields a zero right-hand side. -/
theorem zero_source_gives_zero_rhs (mapper : gsDofMapper) (elim : gsMatrix R)
    (he : ∀ b k, elim b k = 0) :
    (∀ (d : gsVisitorPoissonData R) (paramCoef : Bool) (rhs : gsMatrix R → gsMatrix R)
        (basis : gsBasis R) (evaluateAt : gsMatrix R → gsGeometryEvaluator R)
        (quNodes : gsMatrix R) (quWeights : List R),
      (∀ c k, (d.evaluate paramCoef rhs basis evaluateAt quNodes).1.rhsVals c k = 0) →
      ∀ i c, ((d.evaluate paramCoef rhs basis evaluateAt quNodes).1.assemble
          (d.evaluate paramCoef rhs basis evaluateAt quNodes).2 quWeights).localRhs i c = 0)
    ∧ (∀ (d : gsVisitorPoissonData R) (geoEval : gsGeometryEvaluator R) (quWeights : List R),
      (∀ c k, d.rhsVals c k = 0) → (∀ i c, d.localRhs i c = 0) →
      ∀ i c, (d.assemble geoEval quWeights).localRhs i c = 0)
    ∧ (∀ (v : gsVisitorPoisson R) (patchIndex : Int) (sys : gsSparseMatrix R) (rhs : gsMatrix R),
      (∀ i c, v.localRhs i c = 0) →
      ∀ r k, (v.localToGlobal mapper elim patchIndex sys rhs).2.2 r k = rhs r k)
    ∧ (∀ (calls : List (Call R)) (sys : gsSparseMatrix R),
      (∀ call ∈ calls, ∀ i c, call.visitor.localRhs i c = 0) →
      ∀ r k, (scatterAll mapper elim calls sys (fun _ _ => 0)).2 r k = 0) := by
  refine ⟨?_, ?_, ?_, ?_⟩
  · intro d paramCoef rhs basis evaluateAt quNodes quWeights hv
    exact assembleFold_localRhs_zero _ _ _ _ hv (fun _ _ => rfl)
  · intro d geoEval quWeights hv hz
    exact assembleFold_localRhs_zero _ _ _ _ hv hz
  · intro v patchIndex sys rhs hz r k
    exact localToGlobal_rhs_unchanged v mapper elim patchIndex sys rhs hz he r k
  · intro calls sys hz
    have key : ∀ (calls : List (Call R)) (sys : gsSparseMatrix R) (rhs : gsMatrix R),
        (∀ call ∈ calls, ∀ i c, call.visitor.localRhs i c = 0) →
        ∀ r k, (scatterAll mapper elim calls sys rhs).2 r k = rhs r k := by
      intro calls
      induction calls with
      | nil => intro sys rhs _ r k; rfl
      | cons call calls ih =>
        intro sys rhs hz r k
        unfold scatterAll at ih ⊢
        rw [List.foldl_cons, ih _ _ (fun c hc => hz c (List.mem_cons_of_mem _ hc))]
        exact localToGlobal_rhs_unchanged _ mapper elim _ sys rhs
          (hz call (List.mem_cons_self _ _)) he r k
    intro r k
    rw [key calls sys _ hz]

/-- Instance of C19: two calls with a zero local right-hand side, eliminated
values zero, on the zero right-hand side. -/
theorem zero_source_gives_zero_rhs_witness :
    (∀ b k, TwoDofElement.elimZero b k = 0)
    ∧ (∀ call ∈ ([⟨TwoDofElement.zeroRhsVisitor, 0⟩, ⟨TwoDofElement.zeroRhsVisitor, 1⟩] :
        List (Call Int)), ∀ i c, call.visitor.localRhs i c = 0)
    ∧ (∀ r k, (scatterAll TwoDofElement.mapper TwoDofElement.elimZero
        [⟨TwoDofElement.zeroRhsVisitor, 0⟩, ⟨TwoDofElement.zeroRhsVisitor, 1⟩]
        (gsSparseMatrix.zero Int) (fun _ _ => 0)).2 r k = 0)
    ∧ (TwoDofElement.zeroRhsVisitor.localToGlobal TwoDofElement.mapper TwoDofElement.elimZero 0
        (gsSparseMatrix.zero Int) TwoDofElement.rhsZero).2.2 0 0 = 0 :=
  have hz : ∀ call ∈ ([⟨TwoDofElement.zeroRhsVisitor, 0⟩, ⟨TwoDofElement.zeroRhsVisitor, 1⟩] :
      List (Call Int)), ∀ i c, call.visitor.localRhs i c = 0 := by
    intro call hc i c
    simp only [List.mem_cons, List.mem_singleton, List.not_mem_nil, or_false] at hc
    rcases hc with rfl | rfl <;> rfl
  ⟨fun _ _ => rfl, hz,
   (zero_source_gives_zero_rhs TwoDofElement.mapper TwoDofElement.elimZero
      (fun _ _ => rfl)).2.2.2 _ _ hz,
   by decide⟩

end ZeroSourceClaims

section SolverClaims

variable {R Real : Type}

/-- C15: each of the four constructors of `gsIterativeSolver` fails with the
error of the failed assertion when the operator has `rows() ≠ cols()`, and
succeeds when the operator is square; the solver then has `size()` equal to
the common dimension and `iterations() = 0`.  For the two matrix constructors
the operator is `makeMatrixOp(_mat)`. -/
theorem gsIterativeSolver_requires_square (op : gsLinearOperator R) (maxIt : Int) (tol : Real)
    {M : Type} (makeMatrixOp : M → gsLinearOperator R) (mat : M) :
    (op.rows ≠ op.cols →
      (gsIterativeSolver.ofOperator op maxIt tol : Except Failure (gsIterativeSolver R Real))
        = .error .assertFailed
      ∧ (gsIterativeSolver.ofOperatorPtr op maxIt tol : Except Failure (gsIterativeSolver R Real))
        = .error .assertFailed)
    ∧ ((makeMatrixOp mat).rows ≠ (makeMatrixOp mat).cols →
      (gsIterativeSolver.ofSparseMatrix makeMatrixOp mat maxIt tol :
          Except Failure (gsIterativeSolver R Real)) = .error .assertFailed
      ∧ (gsIterativeSolver.ofDenseMatrix makeMatrixOp mat maxIt tol :
          Except Failure (gsIterativeSolver R Real)) = .error .assertFailed)
    ∧ (op.rows = op.cols →
      (∃ s : gsIterativeSolver R Real, gsIterativeSolver.ofOperator op maxIt tol = .ok s
        ∧ s.size = op.rows ∧ s.size = op.cols ∧ s.iterations = 0)
      ∧ (∃ s : gsIterativeSolver R Real, gsIterativeSolver.ofOperatorPtr op maxIt tol = .ok s
        ∧ s.size = op.rows ∧ s.size = op.cols ∧ s.iterations = 0))
    ∧ ((makeMatrixOp mat).rows = (makeMatrixOp mat).cols →
      (∃ s : gsIterativeSolver R Real,
        gsIterativeSolver.ofSparseMatrix makeMatrixOp mat maxIt tol = .ok s
        ∧ s.size = (makeMatrixOp mat).rows ∧ s.size = (makeMatrixOp mat).cols
        ∧ s.iterations = 0)
      ∧ (∃ s : gsIterativeSolver R Real,
        gsIterativeSolver.ofDenseMatrix makeMatrixOp mat maxIt tol = .ok s
        ∧ s.size = (makeMatrixOp mat).rows ∧ s.size = (makeMatrixOp mat).cols
        ∧ s.iterations = 0)) := by
  refine ⟨fun h => ?_, fun h => ?_, fun h => ?_, fun h => ?_⟩
  · simp [gsIterativeSolver.ofOperator, gsIterativeSolver.ofOperatorPtr, GISMO_ASSERT, h]
  · simp [gsIterativeSolver.ofSparseMatrix, gsIterativeSolver.ofDenseMatrix, GISMO_ASSERT, h]
  · constructor
    · refine ⟨{ m_mat_ptr := none, m_mat := op, m_maxIters := maxIt, m_tol := tol,
                m_numIter := 0, m_error := none }, ?_, rfl, h, rfl⟩
      simp [gsIterativeSolver.ofOperator, GISMO_ASSERT, h]
    · refine ⟨{ m_mat_ptr := some op, m_mat := op, m_maxIters := maxIt, m_tol := tol,
                m_numIter := 0, m_error := none }, ?_, rfl, h, rfl⟩
      simp [gsIterativeSolver.ofOperatorPtr, GISMO_ASSERT, h]
  · constructor
    · refine ⟨{ m_mat_ptr := some (makeMatrixOp mat), m_mat := makeMatrixOp mat,
                m_maxIters := maxIt, m_tol := tol, m_numIter := 0, m_error := none },
        ?_, rfl, h, rfl⟩
      simp [gsIterativeSolver.ofSparseMatrix, GISMO_ASSERT, h]
    · refine ⟨{ m_mat_ptr := some (makeMatrixOp mat), m_mat := makeMatrixOp mat,
                m_maxIters := maxIt, m_tol := tol, m_numIter := 0, m_error := none },
        ?_, rfl, h, rfl⟩
      simp [gsIterativeSolver.ofDenseMatrix, GISMO_ASSERT, h]

/-- Instance of C15: an operator with 2 rows and 3 columns is refused, the
identity operator on 4 rows is accepted. -/
theorem gsIterativeSolver_requires_square_witness :
    wideOperator.rows ≠ wideOperator.cols
    ∧ ((gsIterativeSolver.ofOperator wideOperator 1000 (0 : Int) :
          Except Failure (gsIterativeSolver Int Int)) = .error .assertFailed
      ∧ (gsIterativeSolver.ofOperatorPtr wideOperator 1000 (0 : Int) :
          Except Failure (gsIterativeSolver Int Int)) = .error .assertFailed)
    ∧ (gsIdentityOp Int 4).rows = (gsIdentityOp Int 4).cols
    ∧ (∃ s : gsIterativeSolver Int Int,
        gsIterativeSolver.ofOperator (gsIdentityOp Int 4) 1000 (0 : Int) = .ok s
        ∧ s.size = (gsIdentityOp Int 4).rows ∧ s.size = (gsIdentityOp Int 4).cols
        ∧ s.iterations = 0) :=
  ⟨by decide,
   (gsIterativeSolver_requires_square wideOperator 1000 (0 : Int)
      (fun m : Nat => gsIdentityOp Int m) 4).1 (by decide),
   rfl,
   ((gsIterativeSolver_requires_square (gsIdentityOp Int 4) 1000 (0 : Int)
      (fun m : Nat => gsIdentityOp Int m) 4).2.2.1 rfl).1⟩

end SolverClaims

section BlockLemmas

variable {R : Type}

theorem sum_replicate_zero (n : Nat) : (List.replicate n 0).sum = 0 := by
  induction n with
  | zero => rfl
  | succ n ih => simp [List.replicate_succ, ih]

/-- Slice `i` of a concatenation of lists, cut at the sums of the lengths. -/
theorem slice_flatten (L : List (List R)) :
    ∀ (i : Nat) (h : i < L.length),
      (L.flatten.drop ((L.take i).map List.length).sum).take (L.get ⟨i, h⟩).length
        = L.get ⟨i, h⟩ := by
  induction L with
  | nil => intro i h; simp at h
  | cons x L ih =>
    intro i h
    cases i with
    | zero => simp
    | succ i =>
      have h2 : i < L.length := by simpa using h
      simpa using ih i h2

theorem length_addVec [Add R] (x y : List R) (n : Nat) (hx : x.length = n) (hy : y.length = n) :
    (gsBlockOp.addVec x y).length = n := by
  simp [gsBlockOp.addVec, hx, hy]

theorem getD_addVec [AddCommMonoid R] (x y : List R) (n k : Nat) (hx : x.length = n)
    (hy : y.length = n) (hk : k < n) :
    (gsBlockOp.addVec x y).getD k 0 = x.getD k 0 + y.getD k 0 := by
  have h1 : k < x.length := by omega
  have h2 : k < y.length := by omega
  have h3 : k < (gsBlockOp.addVec x y).length := by
    rw [length_addVec x y n hx hy]; exact hk
  rw [List.getD_eq_getElem _ _ h1, List.getD_eq_getElem _ _ h2, List.getD_eq_getElem _ _ h3]
  simp [gsBlockOp.addVec]

/-- The loop over the columns in `rowResult`, for a list of columns: length and entries. -/
theorem rowFold_entries [AddCommMonoid R] (B : gsBlockOp R) (input : List R) (i n : Nat)
    (hop : ∀ j op, B.blockPrec i j = some op → (op.apply (B.inputSegment input j)).length = n)
    (l : List Nat)
    (acc : List R) (hacc : acc.length = n) :
    (l.foldl (fun acc j =>
        match B.blockPrec i j with
        | none => acc
        | some op => gsBlockOp.addVec acc (op.apply (B.inputSegment input j))) acc).length = n
    ∧ ∀ k, k < n →
      (l.foldl (fun acc j =>
        match B.blockPrec i j with
        | none => acc
        | some op => gsBlockOp.addVec acc (op.apply (B.inputSegment input j))) acc).getD k 0
      = acc.getD k 0 + (l.map (fun j =>
          match B.blockPrec i j with
          | none => 0
          | some op => (op.apply (B.inputSegment input j)).getD k 0)).sum := by
  induction l generalizing acc with
  | nil => exact ⟨hacc, fun k _ => by simp⟩
  | cons j l ih =>
    rw [List.foldl_cons]
    cases hb : B.blockPrec i j with
    | none =>
      obtain ⟨h1, h2⟩ := ih acc hacc
      refine ⟨h1, fun k hk => ?_⟩
      rw [h2 k hk]
      simp [hb]
    | some op =>
      have hl := length_addVec acc (op.apply (B.inputSegment input j)) n hacc (hop j op hb)
      obtain ⟨h1, h2⟩ := ih _ hl
      refine ⟨h1, fun k hk => ?_⟩
      rw [h2 k hk, getD_addVec _ _ n k hacc (hop j op hb) hk]
      simp [hb, add_assoc]

end BlockLemmas
section BlockLemmas2

variable {R : Type}

/-- Cutting a vector into consecutive segments of the sizes of a list and
concatenating the segments gives the vector back. -/
theorem segments_partition (sizes : List Nat) :
    ∀ (input : List R), input.length = sizes.sum →
      (List.range sizes.length).flatMap
        (fun j => (input.drop (sizes.take j).sum).take (sizes.getD j 0)) = input := by
  induction sizes with
  | nil =>
    intro input h
    simp at h
    simp [h]
  | cons a rest ih =>
    intro input h
    have hlen : (input.drop a).length = rest.sum := by
      simp only [List.sum_cons] at h
      rw [List.length_drop]
      omega
    have := ih (input.drop a) hlen
    rw [List.length_cons, List.range_succ_eq_map, List.flatMap_cons, List.flatMap_map]
    simp only [List.take_zero, List.sum_nil, List.drop_zero, List.getD_cons_zero,
      Function.comp_def, List.take_succ_cons, List.sum_cons, List.getD_cons_succ]
    have h2 : ∀ j, (input.drop (a + (rest.take j).sum)) = (input.drop a).drop (rest.take j).sum := by
      intro j
      rw [List.drop_drop, Nat.add_comm]
    simp only [h2]
    rw [this]
    exact List.take_append_drop a input

theorem take_sum_add_le (sizes : List Nat) :
    ∀ j, j < sizes.length → (sizes.take j).sum + sizes.getD j 0 ≤ sizes.sum := by
  induction sizes with
  | nil => intro j h; simp at h
  | cons a rest ih =>
    intro j h
    cases j with
    | zero => simp
    | succ j =>
      have := ih j (by simpa using h)
      simp only [List.take_succ_cons, List.sum_cons, List.getD_cons_succ]
      omega

theorem inputSegment_length (B : gsBlockOp R) (input : List R)
    (hlen : B.blockInputPositions.length = B.nCols) (hin : input.length = B.cols) (j : Nat)
    (hj : j < B.nCols) :
    (B.inputSegment input j).length = B.blockInputPositions.getD j 0 := by
  unfold gsBlockOp.inputSegment
  have := take_sum_add_le B.blockInputPositions j (by rw [hlen]; exact hj)
  unfold gsBlockOp.cols at hin
  rw [List.length_take, List.length_drop]
  omega

theorem slot_result_length (B : gsBlockOp R) (hB : B.wellFormed) (input : List R)
    (hin : input.length = B.cols) (i j : Nat) (op : gsLinearOperator R)
    (hop : B.blockPrec i j = some op) :
    (op.apply (B.inputSegment input j)).length = B.blockTargetPositions.getD i 0 := by
  obtain ⟨_, hc, h⟩ := hB
  obtain ⟨_, hj, h3, h4, h5⟩ := h i j op hop
  rw [h5 _ (by rw [inputSegment_length B input hc hin j hj, h4]), h3]

theorem rowResult_length [AddCommMonoid R] (B : gsBlockOp R) (hB : B.wellFormed)
    (input : List R) (hin : input.length = B.cols) (i : Nat) :
    (B.rowResult input i).length = B.blockTargetPositions.getD i 0 := by
  unfold gsBlockOp.rowResult
  exact (rowFold_entries B input i _ (fun j op hop => slot_result_length B hB input hin i j op hop)
    _ _ (by simp)).1

/-- In a well-formed block operator the segment of block row `i` of the output
of `apply` is `rowResult` of that row. -/
theorem outputSegment_apply [AddCommMonoid R] (B : gsBlockOp R) (hB : B.wellFormed)
    (input : List R) (hin : input.length = B.cols) (i : Nat) (hi : i < B.nRows) :
    B.outputSegment (B.apply input) i = B.rowResult input i := by
  have hT := hB.1
  have hlenL : ((List.range B.nRows).map (B.rowResult input)).length = B.nRows := by simp
  have hmap : ((List.range B.nRows).map (B.rowResult input)).map List.length
      = B.blockTargetPositions := by
    apply List.ext_getElem
    · simp [hT]
    · intro n h1 h2
      simp only [List.getElem_map, List.getElem_range]
      rw [rowResult_length B hB input hin, List.getD_eq_getElem _ _ h2]
  have hi2 : i < ((List.range B.nRows).map (B.rowResult input)).length := by
    rw [hlenL]; exact hi
  have key := slice_flatten ((List.range B.nRows).map (B.rowResult input)) i hi2
  have hget : ((List.range B.nRows).map (B.rowResult input)).get ⟨i, hi2⟩
      = B.rowResult input i := by simp
  rw [hget] at key
  have hsum : (((List.range B.nRows).map (B.rowResult input)).take i).map List.length
      = B.blockTargetPositions.take i := by
    rw [List.map_take, hmap]
  rw [hsum] at key
  unfold gsBlockOp.outputSegment gsBlockOp.apply
  rw [← rowResult_length B hB input hin i, List.flatMap_def]
  exact key

end BlockLemmas2
section BlockClaims

variable {R : Type}

theorem addVec_zeros [AddCommMonoid R] (x : List R) :
    gsBlockOp.addVec (List.replicate x.length 0) x = x := by
  unfold gsBlockOp.addVec
  induction x with
  | nil => rfl
  | cons a x ih => simp [List.replicate_succ, ih]

theorem identityBlocks_eq (n1 n2 : Nat) :
    identityBlocks R n1 n2 = .ok
      { nRows := 2, nCols := 2,
        blockPrec := fun i j => if i = 1 ∧ j = 1 then some (gsIdentityOp R n2)
          else if i = 0 ∧ j = 0 then some (gsIdentityOp R n1) else none,
        blockTargetPositions := [n1, n2], blockInputPositions := [n1, n2] } := by
  simp [identityBlocks, gsBlockOp.addOperator, gsBlockOp.make, gsBlockOp.rowSizeFits,
    gsBlockOp.colSizeFits, List.range_succ, gsIdentityOp, List.replicate_succ]

/-- C16: `apply` of a block operator.  The segments of the input, sized by the
block columns, partition the input.  In a well-formed block operator the
output segment of block row `i` is `rowResult`, whose entries are the sums over
the populated slots `(i, j)` of the entries of `operator.apply(inputSegment j)`;
it is zero when no operator is registered in row `i`.  The 2x2 block operator
with identity operators on the diagonal and empty slots off it is well formed
and maps `a ++ b` to `a ++ b`. -/
theorem gsBlockOp_apply_spec [AddCommMonoid R] (B : gsBlockOp R) (input : List R) :
    (B.blockInputPositions.length = B.nCols → input.length = B.cols →
      (List.range B.nCols).flatMap (B.inputSegment input) = input)
    ∧ (B.wellFormed → input.length = B.cols → ∀ i, i < B.nRows →
      B.outputSegment (B.apply input) i = B.rowResult input i
      ∧ (B.rowResult input i).length = B.blockTargetPositions.getD i 0
      ∧ (∀ k, k < B.blockTargetPositions.getD i 0 →
          (B.outputSegment (B.apply input) i).getD k 0
            = ((List.range B.nCols).map (fun j =>
                match B.blockPrec i j with
                | none => 0
                | some op => (op.apply (B.inputSegment input j)).getD k 0)).sum)
      ∧ ((∀ j, B.blockPrec i j = none) →
          B.outputSegment (B.apply input) i
            = List.replicate (B.blockTargetPositions.getD i 0) 0))
    ∧ (∀ (n1 n2 : Nat), ∃ I : gsBlockOp R, identityBlocks R n1 n2 = .ok I ∧ I.wellFormed
        ∧ ∀ a b : List R, a.length = n1 → b.length = n2 → I.apply (a ++ b) = a ++ b) := by
  refine ⟨?_, ?_, ?_⟩
  · intro hlen hin
    have := segments_partition B.blockInputPositions input hin
    rw [hlen] at this
    exact this
  · intro hB hin i hi
    have hseg := outputSegment_apply B hB input hin i hi
    have hrow := rowFold_entries B input i (B.blockTargetPositions.getD i 0)
      (fun j op hop => slot_result_length B hB input hin i j op hop)
      (List.range B.nCols) (List.replicate (B.blockTargetPositions.getD i 0) 0) (by simp)
    refine ⟨hseg, hrow.1, fun k hk => ?_, fun hnone => ?_⟩
    · rw [hseg]
      unfold gsBlockOp.rowResult
      rw [hrow.2 k hk]
      have hz : (List.replicate (B.blockTargetPositions.getD i 0) (0 : R)).getD k 0 = 0 := by
        simp only [List.getD_eq_getElem?_getD, List.getElem?_replicate]
        split <;> rfl
      rw [hz, zero_add]
    · rw [hseg]
      unfold gsBlockOp.rowResult
      have : ∀ (l : List Nat) (acc : List R),
          l.foldl (fun acc j =>
            match B.blockPrec i j with
            | none => acc
            | some op => gsBlockOp.addVec acc (op.apply (B.inputSegment input j))) acc = acc := by
        intro l
        induction l with
        | nil => intro acc; rfl
        | cons j l ih =>
          intro acc
          rw [List.foldl_cons, hnone j]
          exact ih acc
      rw [this]
  · intro n1 n2
    refine ⟨_, identityBlocks_eq n1 n2, ?_, ?_⟩
    · refine ⟨rfl, rfl, ?_⟩
      intro i j op hop
      simp only at hop
      by_cases h1 : i = 1 ∧ j = 1
      · obtain ⟨rfl, rfl⟩ := h1
        simp at hop
        subst hop
        simp [gsIdentityOp]
      · rw [if_neg h1] at hop
        by_cases h0 : i = 0 ∧ j = 0
        · obtain ⟨rfl, rfl⟩ := h0
          simp at hop
          subst hop
          simp [gsIdentityOp]
        · rw [if_neg h0] at hop
          cases hop
    · intro a b ha hb
      subst ha
      subst hb
      simp [gsBlockOp.apply, gsBlockOp.rowResult, gsBlockOp.inputSegment, List.range_succ,
        gsIdentityOp, addVec_zeros]

/-- Instance of C16: the 2x2 identity block operator on `[1, 2] ++ [3]`, which
is well formed, so that the statement about the rows applies to it. -/
theorem gsBlockOp_apply_spec_witness :
    ∃ I : gsBlockOp Int, identityBlocks Int 2 1 = .ok I ∧ I.wellFormed
      ∧ I.apply ([1, 2] ++ [3]) = [1, 2] ++ [3]
      ∧ I.outputSegment (I.apply [1, 2, 3]) 1 = I.rowResult [1, 2, 3] 1 := by
  obtain ⟨I, h1, h2, h3⟩ := (gsBlockOp_apply_spec (gsBlockOp.make 0 0) ([] : List Int)).2.2 2 1
  exact ⟨I, h1, h2, h3 [1, 2] [3] rfl rfl,
    ((gsBlockOp_apply_spec I [1, 2, 3]).2.1 h2 (by
      rw [identityBlocks_eq] at h1
      cases h1
      decide) 1 (by
      rw [identityBlocks_eq] at h1
      cases h1
      decide)).1⟩

/-- C17: `rows()` is the sum of the sizes of the block rows and `cols()` the sum
of the sizes of the block columns; a block operator as constructed, without a
registered operator, has `rows() = 0` and `cols() = 0`; the 2x2 identity block
operator has `rows() = cols() = n1 + n2`. -/
theorem gsBlockOp_rows_cols (B : gsBlockOp R) (nRows nCols n1 n2 : Nat) :
    B.rows = B.blockTargetPositions.sum
    ∧ B.cols = B.blockInputPositions.sum
    ∧ (gsBlockOp.make nRows nCols : gsBlockOp R).rows = 0
    ∧ (gsBlockOp.make nRows nCols : gsBlockOp R).cols = 0
    ∧ (∀ i j, (gsBlockOp.make nRows nCols : gsBlockOp R).blockPrec i j = none)
    ∧ ∃ I : gsBlockOp R, identityBlocks R n1 n2 = .ok I ∧ I.rows = n1 + n2
        ∧ I.cols = n1 + n2 := by
  refine ⟨rfl, rfl, sum_replicate_zero nRows, sum_replicate_zero nCols, fun _ _ => rfl,
    _, identityBlocks_eq n1 n2, ?_, ?_⟩
  · simp [gsBlockOp.rows]
  · simp [gsBlockOp.cols]

end BlockClaims

section NormLemmas

variable {S T P E Q : Type} [Zero T] [Add T]

/-- The loop over the elements of one patch: `m_value` grows by the values that
`compute` returns, accumulated in the order of the calls. -/
theorem norm_element_fold (sqrt : T → T) (visitor : NormVisitor S T P E Q) (store : Bool) (p : P)
    (q : Q) (es : List E) :
    ∀ (acc : gsNorm T × S) (rec : List T × S),
      acc.1.m_value = rec.1.foldl (fun a b => a + b) 0 → acc.2 = rec.2 →
      (es.foldl (gsNorm.elementStep sqrt visitor store p q) acc).1.m_value
          = (es.foldl (gsNorm.computedElement visitor p q) rec).1.foldl (fun a b => a + b) 0
      ∧ (es.foldl (gsNorm.elementStep sqrt visitor store p q) acc).2
          = (es.foldl (gsNorm.computedElement visitor p q) rec).2 := by
  induction es with
  | nil => intro acc rec h1 h2; exact ⟨h1, h2⟩
  | cons e es ih =>
    intro acc rec h1 h2
    rw [List.foldl_cons, List.foldl_cons]
    apply ih
    · simp only [gsNorm.elementStep, gsNorm.computedElement, List.foldl_append, List.foldl_cons,
        List.foldl_nil]
      rw [h1, h2]
    · simp only [gsNorm.elementStep, gsNorm.computedElement]
      rw [h2]

/-- The loop over the patches: the same for all patches in turn. -/
theorem norm_patch_fold (sqrt : T → T) (visitor : NormVisitor S T P E Q) (elements : P → List E)
    (store : Bool) (ps : List P) :
    ∀ (acc : gsNorm T × S) (rec : List T × S),
      acc.1.m_value = rec.1.foldl (fun a b => a + b) 0 → acc.2 = rec.2 →
      (ps.foldl (gsNorm.patchStep sqrt visitor elements store) acc).1.m_value
          = (ps.foldl (gsNorm.computedPatch visitor elements) rec).1.foldl (fun a b => a + b) 0
      ∧ (ps.foldl (gsNorm.patchStep sqrt visitor elements store) acc).2
          = (ps.foldl (gsNorm.computedPatch visitor elements) rec).2 := by
  induction ps with
  | nil => intro acc rec h1 h2; exact ⟨h1, h2⟩
  | cons p ps ih =>
    intro acc rec h1 h2
    rw [List.foldl_cons, List.foldl_cons]
    have he := norm_element_fold sqrt visitor store p (visitor.initialise acc.2 p).2 (elements p)
      (acc.1, (visitor.initialise acc.2 p).1) (rec.1, (visitor.initialise acc.2 p).1) h1 rfl
    apply ih
    · simp only [gsNorm.patchStep, gsNorm.computedPatch]
      rw [← h2]
      exact he.1
    · simp only [gsNorm.patchStep, gsNorm.computedPatch]
      rw [← h2]
      exact he.2

/-- The value after `apply` is the square root of the accumulated values of `compute`. -/
theorem norm_apply_value (n : gsNorm T) (sqrt : T → T) (visitor : NormVisitor S T P E Q) (s : S)
    (patches : List P) (elements : P → List E) (store : Bool) :
    (n.apply sqrt visitor s patches elements store).1.value
      = sqrt ((gsNorm.computed visitor s patches elements).foldl (fun a b => a + b) 0) := by
  unfold gsNorm.apply gsNorm.value gsNorm.computed
  simp only
  rw [(norm_patch_fold sqrt visitor elements store patches _ ([], s) rfl rfl).1]

end NormLemmas

section NormClaims

variable {S T P E Q : Type}

/-- C18: after `apply`, `value()` is the square root of the sum of the values
that `visitor.compute` returned for the elements of all patches (accumulated in
the order of the calls, starting from zero, which in an additive monoid is the
sum of the list).  The value does not depend on the state of the norm object
before the call: a second `apply` in which `compute` returns the same values
gives the same value. -/
theorem gsNorm_apply_value [AddMonoid T] (n : gsNorm T) (sqrt : T → T)
    (visitor : NormVisitor S T P E Q) (s : S) (patches : List P) (elements : P → List E)
    (store : Bool) :
    (n.apply sqrt visitor s patches elements store).1.value
      = sqrt (gsNorm.computed visitor s patches elements).sum
    ∧ (∀ (m : gsNorm T) (store2 : Bool),
        (m.apply sqrt visitor s patches elements store2).1.value
          = (n.apply sqrt visitor s patches elements store).1.value)
    ∧ (∀ (visitor2 : NormVisitor S T P E Q) (s2 : S) (patches2 : List P)
        (elements2 : P → List E) (store2 : Bool),
        gsNorm.computed visitor2 s2 patches2 elements2
          = gsNorm.computed visitor s patches elements →
        ((n.apply sqrt visitor s patches elements store).1.apply sqrt visitor2 s2 patches2
            elements2 store2).1.value
          = (n.apply sqrt visitor s patches elements store).1.value) := by
  have hsum : ∀ (l : List T) (a : T), l.foldl (fun a b => a + b) a = a + l.sum := by
    intro l
    induction l with
    | nil => intro a; simp
    | cons x l ih => intro a; rw [List.foldl_cons, ih, List.sum_cons, add_assoc]
  have hval : ∀ (m : gsNorm T) (v : NormVisitor S T P E Q) (s0 : S) (ps : List P)
      (els : P → List E) (st : Bool),
      (m.apply sqrt v s0 ps els st).1.value = sqrt (gsNorm.computed v s0 ps els).sum := by
    intro m v s0 ps els st
    rw [norm_apply_value, hsum, zero_add]
  refine ⟨hval _ _ _ _ _ _, fun m store2 => ?_, fun visitor2 s2 patches2 elements2 store2 h => ?_⟩
  · rw [hval, hval]
  · rw [hval, hval, h]

/-- Instance of C18: two patches with elements `1, 2` and `3`, `compute`
returning the element, doubling in place of the square root: `2 * (1 + 2 + 3)`,
also on a second call. -/
theorem gsNorm_apply_value_witness :
    gsNorm.computed echoVisitor () [0, 1] (fun p => if p = 0 then [1, 2] else [3]) = [1, 2, 3]
    ∧ ((⟨[], 77⟩ : gsNorm Int).apply (fun x => 2 * x) echoVisitor () [0, 1]
        (fun p => if p = 0 then [1, 2] else [3]) false).1.value = 12
    ∧ (((⟨[], 77⟩ : gsNorm Int).apply (fun x => 2 * x) echoVisitor () [0, 1]
        (fun p => if p = 0 then [1, 2] else [3]) false).1.apply (fun x => 2 * x) echoVisitor ()
        [0, 1] (fun p => if p = 0 then [1, 2] else [3]) true).1.value = 12 := by
  have h := gsNorm_apply_value (⟨[], 77⟩ : gsNorm Int) (fun x => 2 * x) echoVisitor () [0, 1]
    (fun p => if p = 0 then [1, 2] else [3]) false
  refine ⟨by decide, ?_, ?_⟩
  · rw [h.1]
    decide
  · rw [h.2.2 echoVisitor () [0, 1] (fun p => if p = 0 then [1, 2] else [3]) true rfl, h.1]
    decide

end NormClaims

section VertexScanLemmas

theorem crossInterface_cornerList (t : gsBoxTopology) (w w1 : CornerWalk)
    (h : t.crossInterface w = .ok w1) :
    w1.cornerList = w.cornerList ∧ w1.firstTurn = w.firstTurn ∧ w1.endSide = w.endSide := by
  unfold gsBoxTopology.crossInterface at h
  dsimp only at h
  split at h
  · cases h
  · split at h
    · split at h
      · split at h
        · cases h; exact ⟨rfl, rfl, rfl⟩
        · split at h
          · cases h; exact ⟨rfl, rfl, rfl⟩
          · cases h
      · cases h
    · cases h

theorem cornerListBody_cornerList (t : gsBoxTopology) (start : patch_corner) (w w1 : CornerWalk)
    (brk : Bool) (h : t.cornerListBody start w = .ok (brk, w1)) :
    w1.cornerList = w.cornerList ++ [w.curCorner] := by
  unfold gsBoxTopology.cornerListBody at h
  simp only at h
  split at h
  · split at h
    · split at h
      · cases h; rfl
      · split at h
        · cases h
        · next w3 hc =>
          cases h
          exact (crossInterface_cornerList t _ _ hc).1
    · cases h; rfl
  · split at h
    · cases h
    · next w3 hc =>
      cases h
      exact (crossInterface_cornerList t _ _ hc).1

/-- The corner list that the loop of `getCornerList` returns continues the list
it started with by the current corner. -/
theorem getCornerListLoop_extends (t : gsBoxTopology) (start : patch_corner) (fuel : Nat) :
    ∀ (w : CornerWalk) (b : Bool) (l : List patch_corner),
      t.getCornerListLoop start fuel w = .ok (b, l) →
      ∃ rest, l = w.cornerList ++ w.curCorner :: rest := by
  induction fuel with
  | zero =>
    intro w b l h
    simp [gsBoxTopology.getCornerListLoop] at h
  | succ fuel ih =>
    intro w b l h
    rw [gsBoxTopology.getCornerListLoop] at h
    cases hb : t.cornerListBody start w with
    | error e =>
      rw [hb] at h
      simp at h
    | ok v =>
      obtain ⟨brk, w1⟩ := v
      have hl := cornerListBody_cornerList t start w w1 brk hb
      rw [hb] at h
      cases brk with
      | true =>
        simp only [Except.ok.injEq, Prod.mk.injEq] at h
        exact ⟨[], by rw [← h.2, hl]⟩
      | false =>
        simp only at h
        by_cases hc : w1.curCorner = start
        · rw [if_pos hc] at h
          simp only [Except.ok.injEq, Prod.mk.injEq] at h
          exact ⟨[], by rw [← h.2, hl]⟩
        · rw [if_neg hc] at h
          obtain ⟨rest, hr⟩ := ih w1 b l h
          exact ⟨w1.curCorner :: rest, by rw [hr, hl]; simp⟩

/-- The corner list of `getCornerList` begins with the start corner. -/
theorem getCornerList_head (t : gsBoxTopology) (fuel : Nat) (c : patch_corner) (b : Bool)
    (l : List patch_corner) (h : t.getCornerList fuel c = .ok (b, l)) :
    ∃ rest, l = c :: rest := by
  unfold gsBoxTopology.getCornerList at h
  split at h
  · cases h
  · split at h
    · obtain ⟨rest, hr⟩ := getCornerListLoop_extends t c fuel _ b l h
      exact ⟨rest, by simpa using hr⟩
    · cases h

/-- A corner list is reported for the corner `j` of patch `i`. -/
theorem vertexStep_ok (t : gsBoxTopology) (fuel : Nat) (keep : Nat → Bool) (i : Int)
    (acc r : List (List patch_corner)) (j : Nat) (h : t.vertexStep fuel keep i acc j = .ok r) :
    r = acc ∨ ∃ l, r = acc ++ [l] ∧ t.getCornerList fuel ⟨i, j⟩ = .ok (true, l)
      ∧ keep l.length = true ∧ ∀ c ∈ l, ¬ c.patch < i := by
  unfold gsBoxTopology.vertexStep at h
  split at h
  · cases h
  · next isCycle cornerList hg =>
    simp only at h
    split at h
    · next hcond =>
      right
      simp only [Bool.and_eq_true, Bool.not_eq_true', List.any_eq_false, decide_eq_true_eq] at hcond
      obtain ⟨⟨h1, h2⟩, h3⟩ := hcond
      cases h
      subst h1
      exact ⟨cornerList, rfl, hg, h2, h3⟩
    · left
      cases h
      rfl

theorem foldlM_append_except {α β ε : Type} (f : β → α → Except ε β) (l1 l2 : List α) (b : β) :
    (l1 ++ l2).foldlM f b
      = match l1.foldlM f b with
        | .error e => .error e
        | .ok b1 => l2.foldlM f b1 := by
  induction l1 generalizing b with
  | nil => rfl
  | cons a l1 ih =>
    simp only [List.cons_append, List.foldlM_cons]
    cases h : f b a with
    | error e => rfl
    | ok v =>
      show List.foldlM f v (l1 ++ l2) = _
      rw [ih]
      rfl

theorem vertexScan_unfold (t : gsBoxTopology) (fuel : Nat) (keep : Nat → Bool) :
    t.vertexScan fuel keep = (List.map Int.ofNat (List.range t.nboxes)).foldlM
      (fun acc i => [1, 2, 3, 4].foldlM (t.vertexStep fuel keep i) acc) [] := by
  unfold gsBoxTopology.vertexScan
  congr 1
  simp
  generalize List.range t.nboxes = l
  induction l with
  | nil => rfl
  | cons a l ih => rw [List.flatMap_cons, ih]; rfl

/-- The two nested loops of `getEVs` and `getOVs` as one loop over `scanOrder`. -/
theorem vertexScan_flat (t : gsBoxTopology) (fuel : Nat) (keep : Nat → Bool) :
    t.vertexScan fuel keep
      = (scanOrder t.nboxes).foldlM
          (fun acc p => t.vertexStep fuel keep (Int.ofNat p.1) acc p.2) [] := by
  rw [vertexScan_unfold]
  unfold scanOrder
  generalize ([] : List (List patch_corner)) = acc
  generalize List.range t.nboxes = is
  induction is generalizing acc with
  | nil => rfl
  | cons i is ih =>
    have hin : ([1, 2, 3, 4].map (fun j => (i, j))).foldlM
        (fun acc p => t.vertexStep fuel keep (Int.ofNat p.1) acc p.2) acc
        = [1, 2, 3, 4].foldlM (t.vertexStep fuel keep (Int.ofNat i)) acc := by
      simp [List.foldlM_cons]
    rw [List.flatMap_cons, foldlM_append_except, hin, List.map_cons, List.foldlM_cons]
    cases h : [1, 2, 3, 4].foldlM (t.vertexStep fuel keep (Int.ofNat i)) acc with
    | error e => rfl
    | ok v =>
      show List.foldlM _ v (is.map _) = _
      rw [ih]

end VertexScanLemmas

section VertexScanClaims

/-- The lists that a scan appends, each with the place of the scan that appended it. -/
theorem scan_trace (t : gsBoxTopology) (fuel : Nat) (keep : Nat → Bool) (ps : List (Nat × Nat)) :
    ∀ (acc r : List (List patch_corner)),
      ps.foldlM (fun acc p => t.vertexStep fuel keep (Int.ofNat p.1) acc p.2) acc = .ok r →
      ∃ tr : List ((Nat × Nat) × List patch_corner),
        r = acc ++ tr.map Prod.snd ∧ (tr.map Prod.fst).Sublist ps
          ∧ ∀ x ∈ tr, Reported t fuel keep x := by
  induction ps with
  | nil =>
    intro acc r h
    cases h
    exact ⟨[], by simp, by simp, by simp⟩
  | cons p ps ih =>
    intro acc r h
    rw [List.foldlM_cons] at h
    cases hs : t.vertexStep fuel keep (Int.ofNat p.1) acc p.2 with
    | error e =>
      rw [hs] at h
      cases h
    | ok v =>
      rw [hs] at h
      obtain ⟨tr, hr, hsub, hall⟩ := ih v r h
      rcases vertexStep_ok t fuel keep _ acc v p.2 hs with hv | ⟨l, hv, hg, hk, hp⟩
      · subst hv
        exact ⟨tr, hr, hsub.cons _, hall⟩
      · refine ⟨(p, l) :: tr, ?_, ?_, ?_⟩
        · rw [hr, hv]
          simp
        · simpa using hsub.cons₂ p
        · intro x hx
          rcases List.mem_cons.1 hx with rfl | hx
          · exact ⟨hg, hk, hp⟩
          · exact hall x hx

theorem scanOrder_nodup (n : Nat) : (scanOrder n).Nodup := by
  unfold scanOrder
  rw [List.nodup_flatMap]
  refine ⟨?_, ?_⟩
  · intro i _
    simp
  · refine List.Pairwise.imp ?_ (List.nodup_range n)
    intro a b hab
    simp only [Function.onFun, List.disjoint_left]
    intro x hx hy
    simp only [List.mem_map] at hx hy
    obtain ⟨_, _, rfl⟩ := hx
    obtain ⟨_, _, h2⟩ := hy
    exact hab (congrArg Prod.fst h2).symm

/-- The lists of a scan, each with the place of the scan that appended it; the
places are pairwise different. -/
theorem vertexScan_trace (t : gsBoxTopology) (fuel : Nat) (keep : Nat → Bool)
    (r : List (List patch_corner)) (h : t.vertexScan fuel keep = .ok r) :
    ∃ tr : List ((Nat × Nat) × List patch_corner),
      r = tr.map Prod.snd ∧ tr.Pairwise (fun x y => x.1 ≠ y.1)
        ∧ ∀ x ∈ tr, Reported t fuel keep x := by
  rw [vertexScan_flat] at h
  obtain ⟨tr, hr, hsub, hall⟩ := scan_trace t fuel keep _ _ _ h
  refine ⟨tr, by simpa using hr, ?_, hall⟩
  have hn : (tr.map Prod.fst).Nodup := hsub.nodup (scanOrder_nodup _)
  exact (List.pairwise_map.1 hn)

theorem vertexScan_mem (t : gsBoxTopology) (fuel : Nat) (keep : Nat → Bool)
    (r : List (List patch_corner)) (h : t.vertexScan fuel keep = .ok r)
    (l : List patch_corner) (hl : l ∈ r) :
    keep l.length = true ∧ ∃ c, t.getCornerList fuel c = .ok (true, l) := by
  obtain ⟨tr, hr, -, hall⟩ := vertexScan_trace t fuel keep r h
  subst hr
  obtain ⟨x, hx, rfl⟩ := List.mem_map.1 hl
  exact ⟨(hall x hx).2.1, _, (hall x hx).1⟩

theorem getEVs_eq_scan (t : gsBoxTopology) (fuel : Nat) (r : List (List patch_corner))
    (h : t.getEVs fuel = .ok r) : t.vertexScan fuel (fun n => n != 4) = .ok r := by
  unfold gsBoxTopology.getEVs at h
  split at h
  · cases h
  · exact h

theorem getOVs_eq_scan (t : gsBoxTopology) (fuel : Nat) (r : List (List patch_corner))
    (h : t.getOVs fuel = .ok r) : t.vertexScan fuel (fun n => n == 4) = .ok r := by
  unfold gsBoxTopology.getOVs at h
  split at h
  · cases h
  · exact h

/-- The result of the walk from a corner does not depend on the step budget. -/
theorem getCornerList_result_unique (t : gsBoxTopology) (f1 f2 : Nat) (c : patch_corner)
    (r1 r2 : Bool × List patch_corner) (h1 : t.getCornerList f1 c = .ok r1)
    (h2 : t.getCornerList f2 c = .ok r2) : r1 = r2 := by
  have e1 := getCornerList_mono t f1 f2 c _ h1
  have e2 := getCornerList_mono t f2 f1 c _ h2
  rw [Nat.add_comm, e1] at e2
  simpa using e2

/-- C11: every list that `getOVs` returns is the list of a closed walk of
`getCornerList` (return value `true`) and has exactly 4 corners; every list that
`getEVs` returns is the list of a closed walk and its length is not 4; no list
is returned by both; and when the walk from a corner is open (return value
`false`), no list of either output begins with that corner, the corner with
which every list started from it begins, so that the list of the open walk is
in neither output.  Both functions return only for a topology of dimension 2. -/
theorem vertex_lists_are_closed_cycles (t : gsBoxTopology) (fo fe : Nat)
    (ovs evs : List (List patch_corner))
    (ho : t.getOVs fo = .ok ovs) (he : t.getEVs fe = .ok evs) :
    t.m_dim = 2
    ∧ (∀ l ∈ ovs, l.length = 4 ∧ ∃ c, t.getCornerList fo c = .ok (true, l))
    ∧ (∀ l ∈ evs, l.length ≠ 4 ∧ ∃ c, t.getCornerList fe c = .ok (true, l))
    ∧ (∀ l, ¬ (l ∈ ovs ∧ l ∈ evs))
    ∧ (∀ (fuel : Nat) (c : patch_corner) (l0 : List patch_corner),
        t.getCornerList fuel c = .ok (false, l0) →
          (∀ l, l ∈ ovs ∨ l ∈ evs → l.head? ≠ some c) ∧ l0 ∉ ovs ∧ l0 ∉ evs) := by
  have hd : t.m_dim = 2 := by
    unfold gsBoxTopology.getOVs at ho
    split at ho
    · cases ho
    · next hd => exact not_not.1 hd
  have hO := vertexScan_mem t fo _ ovs (getOVs_eq_scan t fo ovs ho)
  have hE := vertexScan_mem t fe _ evs (getEVs_eq_scan t fe evs he)
  have hO4 : ∀ l ∈ ovs, l.length = 4 := fun l hl => by simpa using (hO l hl).1
  have hE4 : ∀ l ∈ evs, l.length ≠ 4 := fun l hl => by simpa using (hE l hl).1
  refine ⟨hd, fun l hl => ⟨hO4 l hl, (hO l hl).2⟩, fun l hl => ⟨hE4 l hl, (hE l hl).2⟩, ?_, ?_⟩
  · rintro l ⟨h1, h2⟩
    exact hE4 l h2 (hO4 l h1)
  · intro fuel c l0 hc
    have hclosed : ∀ l, l ∈ ovs ∨ l ∈ evs →
        ∃ f c0, t.getCornerList f c0 = .ok (true, l) := by
      rintro l (hl | hl)
      · exact ⟨fo, (hO l hl).2⟩
      · exact ⟨fe, (hE l hl).2⟩
    have hhead : ∀ l, l ∈ ovs ∨ l ∈ evs → l.head? ≠ some c := by
      intro l hl hh
      obtain ⟨f, c0, h0⟩ := hclosed l hl
      obtain ⟨rest, hr⟩ := getCornerList_head t f c0 true l h0
      rw [hr, List.head?_cons, Option.some.injEq] at hh
      subst hh
      have := getCornerList_result_unique t f fuel c0 _ _ h0 hc
      simp at this
    obtain ⟨rest, hr⟩ := getCornerList_head t fuel c false l0 hc
    have hl0 : l0.head? = some c := by rw [hr]; rfl
    exact ⟨hhead, fun hl => hhead l0 (Or.inl hl) hl0, fun hl => hhead l0 (Or.inr hl) hl0⟩

theorem vertex_lists_are_closed_cycles_witness :
    tenPatches.getOVs 4 = .ok tenPatchesOVs ∧ tenPatches.getEVs 4 = .ok tenPatchesEVs
    ∧ tenPatches.m_dim = 2
    ∧ (∀ l ∈ tenPatchesOVs, l.length = 4 ∧ ∃ c, tenPatches.getCornerList 4 c = .ok (true, l))
    ∧ (∀ l ∈ tenPatchesEVs, l.length ≠ 4 ∧ ∃ c, tenPatches.getCornerList 4 c = .ok (true, l))
    ∧ (∀ l, ¬ (l ∈ tenPatchesOVs ∧ l ∈ tenPatchesEVs))
    ∧ (∀ (fuel : Nat) (c : patch_corner) (l0 : List patch_corner),
        tenPatches.getCornerList fuel c = .ok (false, l0) →
          (∀ l, l ∈ tenPatchesOVs ∨ l ∈ tenPatchesEVs → l.head? ≠ some c)
            ∧ l0 ∉ tenPatchesOVs ∧ l0 ∉ tenPatchesEVs) :=
  ⟨by decide, by decide,
    vertex_lists_are_closed_cycles tenPatches 4 4 tenPatchesOVs tenPatchesEVs
      (by decide) (by decide)⟩

end VertexScanClaims

section DeduplicationClaims

theorem torus_sidesInOneInterface : torus.sidesInOneInterface := by
  unfold gsBoxTopology.sidesInOneInterface
  decide

/-- C12: the de-duplication of `getOVs` misses a cycle that comes back to the
patch under scan.  The torus of two patches has dimension 2 and each of its
sides belongs to one interface; its eight corners form two closed cycles of
four corners, each of which is to be reported once.  `getOVs` returns four
lists, and the first and the fourth hold the same four corners: the skip test
`cornerList[k].patch < i` is strict, and no corner of the cycle lies in a patch
of smaller index than the patch 0 under scan. -/
theorem torus_cycle_reported_twice :
    torus.m_dim = 2 ∧ torus.sidesInOneInterface
    ∧ torus.getOVs 4
        = .ok [[⟨0, 1⟩, ⟨1, 2⟩, ⟨0, 4⟩, ⟨1, 3⟩], [⟨0, 2⟩, ⟨1, 1⟩, ⟨0, 3⟩, ⟨1, 4⟩],
               [⟨0, 3⟩, ⟨1, 4⟩, ⟨0, 2⟩, ⟨1, 1⟩], [⟨0, 4⟩, ⟨1, 3⟩, ⟨0, 1⟩, ⟨1, 2⟩]]
    ∧ sameCorners [⟨0, 1⟩, ⟨1, 2⟩, ⟨0, 4⟩, ⟨1, 3⟩] [⟨0, 4⟩, ⟨1, 3⟩, ⟨0, 1⟩, ⟨1, 2⟩]
    ∧ ¬ List.Pairwise (fun l1 l2 => ¬ sameCorners l1 l2)
        [[(⟨0, 1⟩ : patch_corner), ⟨1, 2⟩, ⟨0, 4⟩, ⟨1, 3⟩], [⟨0, 2⟩, ⟨1, 1⟩, ⟨0, 3⟩, ⟨1, 4⟩],
         [⟨0, 3⟩, ⟨1, 4⟩, ⟨0, 2⟩, ⟨1, 1⟩], [⟨0, 4⟩, ⟨1, 3⟩, ⟨0, 1⟩, ⟨1, 2⟩]] := by
  have hs : sameCorners [⟨0, 1⟩, ⟨1, 2⟩, ⟨0, 4⟩, ⟨1, 3⟩] [⟨0, 4⟩, ⟨1, 3⟩, ⟨0, 1⟩, ⟨1, 2⟩] := by
    constructor <;> intro c hc <;> simp only [List.mem_cons, List.mem_singleton,
      List.not_mem_nil, or_false] at hc ⊢ <;> tauto
  refine ⟨rfl, torus_sidesInOneInterface, by decide, hs, ?_⟩
  intro hp
  rw [List.pairwise_cons] at hp
  exact hp.1 _ (by simp) hs

/-- Across patches the skip test works: two lists kept by a scan that hold the
same corners start in the same patch, so one of them holds two different
corners of one patch. -/
theorem scan_no_repeated_cycle (t : gsBoxTopology) (fuel : Nat) (keep : Nat → Bool)
    (r : List (List patch_corner)) (h : t.vertexScan fuel keep = .ok r)
    (hone : ∀ l ∈ r, onePerPatch l) :
    r.Pairwise (fun l1 l2 => ¬ sameCorners l1 l2) := by
  obtain ⟨tr, hr, hpw, hall⟩ := vertexScan_trace t fuel keep r h
  subst hr
  rw [List.pairwise_map]
  refine List.Pairwise.imp_of_mem ?_ hpw
  intro x y hx hy hxy hsame
  obtain ⟨rx, hrx⟩ := getCornerList_head t fuel _ true x.2 (hall x hx).1
  obtain ⟨ry, hry⟩ := getCornerList_head t fuel _ true y.2 (hall y hy).1
  have hxin : (⟨Int.ofNat x.1.1, x.1.2⟩ : patch_corner) ∈ x.2 := by
    rw [hrx]; exact List.mem_cons_self _ _
  have hyin : (⟨Int.ofNat y.1.1, y.1.2⟩ : patch_corner) ∈ y.2 := by
    rw [hry]; exact List.mem_cons_self _ _
  have h1 := (hall y hy).2.2 _ (hsame.1 hxin)
  have h2 := (hall x hx).2.2 _ (hsame.2 hyin)
  simp only [Int.ofNat_eq_coe, Nat.cast_lt, not_lt] at h1 h2
  have hp : x.1.1 = y.1.1 := le_antisymm h2 h1
  have hc := hone x.2 (List.mem_map_of_mem _ hx) _ hxin _ (hsame.2 hyin)
    (by simp only [hp])
  simp only [patch_corner.mk.injEq] at hc
  exact hxy (Prod.ext hp hc.2)

end DeduplicationClaims

section WalkGeometry

theorem validSide_cases (s : patch_side) (h : validSide s) :
    s = ⟨s.patch, 1⟩ ∨ s = ⟨s.patch, 2⟩ ∨ s = ⟨s.patch, 3⟩ ∨ s = ⟨s.patch, 4⟩ := by
  obtain ⟨p, k⟩ := s
  unfold validSide at h
  simp only at h
  have : k = 1 ∨ k = 2 ∨ k = 3 ∨ k = 4 := by omega
  rcases this with rfl | rfl | rfl | rfl <;> simp

theorem validCorner_cases (c : patch_corner) (h : validCorner c) :
    c = ⟨c.patch, 1⟩ ∨ c = ⟨c.patch, 2⟩ ∨ c = ⟨c.patch, 3⟩ ∨ c = ⟨c.patch, 4⟩ := by
  obtain ⟨p, k⟩ := c
  unfold validCorner at h
  simp only at h
  have : k = 1 ∨ k = 2 ∨ k = 3 ∨ k = 4 := by omega
  rcases this with rfl | rfl | rfl | rfl <;> simp

theorem getPatchSides_two (c : patch_corner) :
    getPatchSides c 2
      = [⟨c.patch, if (c.corner - 1) % 2 == 1 then 2 else 1⟩,
         ⟨c.patch, 2 + (if ((c.corner - 1) / 2) % 2 == 1 then 2 else 1)⟩] := by
  simp [getPatchSides, List.range_succ]

theorem validState_cases (x : WalkState) (h : validState x) :
    ∃ p : Int, x = (⟨p, 1⟩, ⟨p, 1⟩) ∨ x = (⟨p, 1⟩, ⟨p, 3⟩) ∨ x = (⟨p, 2⟩, ⟨p, 2⟩)
      ∨ x = (⟨p, 2⟩, ⟨p, 3⟩) ∨ x = (⟨p, 3⟩, ⟨p, 1⟩) ∨ x = (⟨p, 3⟩, ⟨p, 4⟩)
      ∨ x = (⟨p, 4⟩, ⟨p, 2⟩) ∨ x = (⟨p, 4⟩, ⟨p, 4⟩) := by
  obtain ⟨c, s⟩ := x
  obtain ⟨hc, hs⟩ := h
  simp only at hc hs
  refine ⟨c.patch, ?_⟩
  rcases validCorner_cases c hc with h | h | h | h <;> rw [h] at hs ⊢ <;>
    simp [getPatchSides_two] at hs <;> rcases hs with rfl | rfl <;> simp

theorem validState_of_cases (p : Int) :
    validState (⟨p, 1⟩, ⟨p, 1⟩) ∧ validState (⟨p, 1⟩, ⟨p, 3⟩) ∧ validState (⟨p, 2⟩, ⟨p, 2⟩)
      ∧ validState (⟨p, 2⟩, ⟨p, 3⟩) ∧ validState (⟨p, 3⟩, ⟨p, 1⟩) ∧ validState (⟨p, 3⟩, ⟨p, 4⟩)
      ∧ validState (⟨p, 4⟩, ⟨p, 2⟩) ∧ validState (⟨p, 4⟩, ⟨p, 4⟩) := by
  simp [validState, validCorner, getPatchSides_two]

theorem arrive_valid (n : patch_side) (q : Bool) (h : validSide n) :
    validState (arrive n q) ∧ flipState (arrive n q) = (getPatchCorner n [q], n)
      ∧ getParsOnSide (getPatchCorner n [q]) n 2 = [q] := by
  rcases validSide_cases n h with h | h | h | h <;> rw [h] <;> cases q <;>
    simp [arrive, flipState, otherSideAt, validState, validCorner, getPatchSides_two,
      getPatchCorner, cornerOfParameters, direction, parameter, getParsOnSide, getParameters,
      List.range_succ]

theorem validState_pars (x : WalkState) (h : validState x) :
    validSide x.2
      ∧ getParsOnSide x.1 x.2 2 = [(getParsOnSide x.1 x.2 2).headD false]
      ∧ getPatchCorner x.2 [(getParsOnSide x.1 x.2 2).headD false] = x.1 := by
  obtain ⟨p, hx⟩ := validState_cases x h
  rcases hx with h | h | h | h | h | h | h | h <;> rw [h] <;>
    simp [validSide, getPatchCorner, cornerOfParameters, direction, parameter, getParsOnSide,
      getParameters, List.range_succ]

theorem flipState_valid (x : WalkState) (h : validState x) :
    validState (flipState x) ∧ flipState (flipState x) = x ∧ flipState x ≠ x
      ∧ (flipState x).1 = x.1 := by
  obtain ⟨p, hx⟩ := validState_cases x h
  rcases hx with h | h | h | h | h | h | h | h <;> rw [h] <;>
    simp [flipState, otherSideAt, validState, validCorner, getPatchSides_two]

theorem validState_corner (x y : WalkState) (hx : validState x) (hy : validState y)
    (h : x.1 = y.1) : y = x ∨ y = flipState x := by
  obtain ⟨p, hx⟩ := validState_cases x hx
  obtain ⟨r, hy⟩ := validState_cases y hy
  rcases hx with hx | hx | hx | hx | hx | hx | hx | hx <;> rw [hx] at h ⊢ <;>
    rcases hy with hy | hy | hy | hy | hy | hy | hy | hy <;> rw [hy] at h ⊢ <;>
    simp [flipState, otherSideAt, getPatchSides_two] at h ⊢ <;> exact h.symm

theorem start_states (c : patch_corner) (h : validCorner c) :
    ∃ p0 p1, getPatchSides c 2 = [p0, p1] ∧ validState (c, p0) ∧ flipState (c, p0) = (c, p1) := by
  refine ⟨_, _, getPatchSides_two c, ?_, ?_⟩ <;>
    rcases validCorner_cases c h with h | h | h | h <;> rw [h] <;>
    simp [flipState, otherSideAt, validState, validCorner, getPatchSides_two]

end WalkGeometry

section WalkMap

theorem nodup_ends (l : List boundaryInterface)
    (h : (l.flatMap (fun I => [I.ps1, I.ps2])).Nodup) :
    ∀ I ∈ l, I.ps1 ≠ I.ps2 ∧ ∀ J ∈ l,
      (J.ps1 = I.ps1 ∨ J.ps1 = I.ps2 ∨ J.ps2 = I.ps1 ∨ J.ps2 = I.ps2) → J = I := by
  induction l with
  | nil => intro I hI; simp at hI
  | cons K l ih =>
    rw [List.flatMap_cons, List.nodup_append] at h
    obtain ⟨hK, hl, hdis⟩ := h
    have hK12 : K.ps1 ≠ K.ps2 := by
      intro h
      simp [h] at hK
    have hmem : ∀ J ∈ l, J.ps1 ∈ l.flatMap (fun I => [I.ps1, I.ps2])
        ∧ J.ps2 ∈ l.flatMap (fun I => [I.ps1, I.ps2]) := by
      intro J hJ
      simp only [List.mem_flatMap, List.mem_cons, List.mem_singleton, List.not_mem_nil, or_false]
      exact ⟨⟨J, hJ, Or.inl rfl⟩, ⟨J, hJ, Or.inr rfl⟩⟩
    have hoff : ∀ J ∈ l, J.ps1 ≠ K.ps1 ∧ J.ps1 ≠ K.ps2 ∧ J.ps2 ≠ K.ps1 ∧ J.ps2 ≠ K.ps2 := by
      intro J hJ
      have h1 := (hmem J hJ).1
      have h2 := (hmem J hJ).2
      refine ⟨?_, ?_, ?_, ?_⟩ <;> intro he
      · exact hdis (List.mem_cons_self _ _) (he ▸ h1)
      · exact hdis (List.mem_cons_of_mem _ (List.mem_cons_self _ _)) (he ▸ h1)
      · exact hdis (List.mem_cons_self _ _) (he ▸ h2)
      · exact hdis (List.mem_cons_of_mem _ (List.mem_cons_self _ _)) (he ▸ h2)
    intro I hI0
    rcases List.mem_cons.1 hI0 with rfl | hI
    · refine ⟨hK12, ?_⟩
      intro J hJ hs
      rcases List.mem_cons.1 hJ with rfl | hJ
      · rfl
      · obtain ⟨a, b, c, d⟩ := hoff J hJ
        rcases hs with hs | hs | hs | hs
        · exact absurd hs a
        · exact absurd hs b
        · exact absurd hs c
        · exact absurd hs d
    · refine ⟨(ih hl I hI).1, ?_⟩
      intro J hJ hs
      rcases List.mem_cons.1 hJ with rfl | hJ
      · obtain ⟨a, b, c, d⟩ := hoff I hI
        rcases hs with hs | hs | hs | hs
        · exact absurd hs.symm a
        · exact absurd hs.symm c
        · exact absurd hs.symm b
        · exact absurd hs.symm d
      · exact (ih hl I hI).2 J hJ hs

theorem interfaceOf_some (t : gsBoxTopology) (s : patch_side) (I : boundaryInterface)
    (h : t.interfaceOf s = some I) : I ∈ t.m_interfaces ∧ (I.ps1 = s ∨ I.ps2 = s) := by
  unfold gsBoxTopology.interfaceOf at h
  have h2 := List.find?_some h
  simp only [Bool.or_eq_true, beq_iff_eq] at h2
  exact ⟨List.mem_of_find?_eq_some h, h2⟩

theorem interfaceOf_of_mem (t : gsBoxTopology) (h1 : t.sidesInOneInterface) (s : patch_side)
    (I : boundaryInterface) (hI : I ∈ t.m_interfaces) (hs : I.ps1 = s ∨ I.ps2 = s) :
    t.interfaceOf s = some I := by
  cases hf : t.interfaceOf s with
  | none =>
    unfold gsBoxTopology.interfaceOf at hf
    rw [List.find?_eq_none] at hf
    have := hf I hI
    simp only [Bool.or_eq_true, beq_iff_eq] at this
    exact absurd hs this
  | some J =>
    obtain ⟨hJ, hJs⟩ := interfaceOf_some t s J hf
    have := (nodup_ends _ h1 I hI).2 J hJ (by
      rcases hs with hs | hs <;> rcases hJs with hJs | hJs <;> simp [hs, hJs])
    rw [this]

theorem getNeighbourLoop_find (l : List boundaryInterface) (s r : patch_side) :
    gsBoxTopology.getNeighbourLoop l s r
      = match l.find? (fun i => i.ps1 == s || i.ps2 == s) with
        | none => (false, r)
        | some I => (true, I.otherSide s) := by
  induction l with
  | nil => rfl
  | cons K l ih =>
    unfold gsBoxTopology.getNeighbourLoop
    by_cases ha : K.ps1 = s
    · simp [ha, List.find?_cons, boundaryInterface.otherSide]
    · by_cases hb : K.ps2 = s
      · simp [ha, hb, List.find?_cons, boundaryInterface.otherSide]
      · rw [if_neg ha, if_neg hb, ih]
        simp [ha, hb, List.find?_cons]

theorem getNeighbour_interfaceOf (t : gsBoxTopology) (s r : patch_side) :
    t.getNeighbour s r
      = match t.interfaceOf s with
        | none => (false, r)
        | some I => (true, I.otherSide s) :=
  getNeighbourLoop_find t.m_interfaces s r

theorem otherSide_interface (t : gsBoxTopology) (h1 : t.sidesInOneInterface) (s : patch_side)
    (I : boundaryInterface) (h : t.interfaceOf s = some I) :
    t.interfaceOf (I.otherSide s) = some I ∧ I.otherSide (I.otherSide s) = s
      ∧ I.otherSide s ≠ s ∧ (I.otherSide s = I.ps1 ∨ I.otherSide s = I.ps2) := by
  obtain ⟨hI, hs⟩ := interfaceOf_some t s I h
  have hne := (nodup_ends _ h1 I hI).1
  rcases hs with hs | hs
  · have e : I.otherSide s = I.ps2 := by simp [boundaryInterface.otherSide, hs]
    have e2 : I.otherSide I.ps2 = s := by
      unfold boundaryInterface.otherSide
      rw [if_neg hne, hs]
    rw [e, e2]
    exact ⟨interfaceOf_of_mem t h1 _ I hI (Or.inr rfl), rfl, by rw [← hs]; exact hne.symm,
      Or.inr rfl⟩
  · have e : I.otherSide s = I.ps1 := by
      simp [boundaryInterface.otherSide, ← hs, hne]
    have e2 : I.otherSide I.ps1 = s := by
      unfold boundaryInterface.otherSide
      rw [if_pos rfl, hs]
    rw [e, e2]
    exact ⟨interfaceOf_of_mem t h1 _ I hI (Or.inl rfl), rfl, by rw [← hs]; exact hne,
      Or.inl rfl⟩

theorem crossState_none (t : gsBoxTopology) (x : WalkState) :
    t.crossState x = none ↔ t.interfaceOf x.2 = none := by
  unfold gsBoxTopology.crossState
  cases t.interfaceOf x.2 <;> simp

/-- A crossing from a state of the walk arrives in a state of the walk, and
crossing back from the arrival, seen from its other side, leads to the state of
departure seen from its other side. -/
theorem crossState_some (t : gsBoxTopology) (hv : t.interfacesValid)
    (h1 : t.sidesInOneInterface) (x y : WalkState) (hx : validState x)
    (h : t.crossState x = some y) :
    validState y ∧ y ∈ t.arrivals ∧ t.crossState (flipState y) = some (flipState x)
      ∧ y ≠ flipState x := by
  unfold gsBoxTopology.crossState at h
  cases hI : t.interfaceOf x.2 with
  | none =>
    rw [hI] at h
    cases h
  | some I =>
    rw [hI] at h
    simp only [Option.some.injEq] at h
    obtain ⟨hIm, hIs⟩ := interfaceOf_some t x.2 I hI
    obtain ⟨hn1, hn2, hn3, hn4⟩ := otherSide_interface t h1 x.2 I hI
    obtain ⟨hv1, hv2, hv3⟩ := hv I hIm
    have hnv : validSide (I.otherSide x.2) := by
      rcases hn4 with e | e <;> rw [e] <;> assumption
    obtain ⟨ha1, ha2, ha3⟩ := arrive_valid (I.otherSide x.2)
      (if I.orient.headD true then (getParsOnSide x.1 x.2 2).headD false
        else !(getParsOnSide x.1 x.2 2).headD false) hnv
    rw [h] at ha1 ha2
    obtain ⟨hp1, hp2, hp3⟩ := validState_pars x hx
    refine ⟨ha1, ?_, ?_, ?_⟩
    · unfold gsBoxTopology.arrivals
      rw [List.mem_flatMap]
      refine ⟨I, hIm, ?_⟩
      rw [← h]
      rcases hn4 with e | e <;> rw [e] <;>
        cases (if I.orient.headD true then (getParsOnSide x.1 x.2 2).headD false
          else !(getParsOnSide x.1 x.2 2).headD false) <;> simp
    · rw [ha2]
      unfold gsBoxTopology.crossState
      simp only [hn1, hn2, ha3, List.headD_cons]
      have hb : (if I.orient.headD true then
            (if I.orient.headD true then (getParsOnSide x.1 x.2 2).headD false
              else !(getParsOnSide x.1 x.2 2).headD false)
          else !(if I.orient.headD true then (getParsOnSide x.1 x.2 2).headD false
              else !(getParsOnSide x.1 x.2 2).headD false))
          = (getParsOnSide x.1 x.2 2).headD false := by
        cases I.orient.headD true <;> simp
      rw [hb]
      unfold arrive flipState
      rw [hp3]
    · intro hy
      have := (flipState_valid x hx).2.1
      rw [← hy, ha2] at this
      have h2 : I.otherSide x.2 = x.2 := congrArg Prod.snd this
      exact hn3 h2

theorem crossState_injective (t : gsBoxTopology) (hv : t.interfacesValid)
    (h1 : t.sidesInOneInterface) (a b c : WalkState) (ha : validState a) (hb : validState b)
    (h : t.crossState a = some c) (h2 : t.crossState b = some c) : a = b := by
  have ra := (crossState_some t hv h1 a c ha h).2.2.1
  have rb := (crossState_some t hv h1 b c hb h2).2.2.1
  rw [ra] at rb
  simp only [Option.some.injEq] at rb
  have := congrArg flipState rb
  rwa [(flipState_valid a ha).2.1, (flipState_valid b hb).2.1] at this

theorem arrivals_length (t : gsBoxTopology) : t.arrivals.length = 4 * t.nInterfaces := by
  unfold gsBoxTopology.arrivals gsBoxTopology.nInterfaces
  induction t.m_interfaces with
  | nil => rfl
  | cons I l ih =>
    rw [List.flatMap_cons, List.length_append, ih]
    simp only [List.length_cons, List.length_nil]
    omega

/-- The crossing of lines 124-135 in terms of `crossState`. -/
theorem crossInterface_eq (t : gsBoxTopology) (hd : t.m_dim = 2) (hv : t.interfacesValid)
    (h1 : t.sidesInOneInterface) (w : CornerWalk) (I : boundaryInterface) (y : WalkState)
    (hx : validState (w.curCorner, w.curSide)) (hI : t.interfaceOf w.curSide = some I)
    (hn : w.neighbour = I.otherSide w.curSide)
    (hy : t.crossState (w.curCorner, w.curSide) = some y) :
    t.crossInterface w
      = .ok { w with orient := I.orient, curCorner := y.1, curSide := y.2 } := by
  obtain ⟨hIm, hIs⟩ := interfaceOf_some t w.curSide I hI
  obtain ⟨hn1, hn2, hn3, hn4⟩ := otherSide_interface t h1 w.curSide I hI
  obtain ⟨hv1, hv2, hv3⟩ := hv I hIm
  have hnv : validSide (I.otherSide w.curSide) := by
    rcases hn4 with e | e <;> rw [e] <;> assumption
  obtain ⟨hp1, hp2, hp3⟩ := validState_pars _ hx
  simp only at hp1 hp2 hp3
  unfold gsBoxTopology.crossState at hy
  simp only [hI, Option.some.injEq] at hy
  obtain ⟨o, os, ho⟩ := List.exists_cons_of_ne_nil hv3
  rw [ho, List.headD_cons] at hy
  obtain ⟨ha1, ha2, ha3⟩ := arrive_valid (I.otherSide w.curSide)
    (if o then (getParsOnSide w.curCorner w.curSide 2).headD false
      else !(getParsOnSide w.curCorner w.curSide 2).headD false) hnv
  rw [hy] at ha1 ha2
  have hmem : I.otherSide w.curSide ∈ getPatchSides y.1 2 := by
    have := (flipState_valid y ha1).1
    rw [ha2] at this
    have e : y.1 = getPatchCorner (I.otherSide w.curSide)
        [if o then (getParsOnSide w.curCorner w.curSide 2).headD false
          else !(getParsOnSide w.curCorner w.curSide 2).headD false] := by
      rw [← hy]; rfl
    rw [e]
    exact this.2
  have hy1 : y.1 = getPatchCorner (I.otherSide w.curSide)
      [if o then (getParsOnSide w.curCorner w.curSide 2).headD false
        else !(getParsOnSide w.curCorner w.curSide 2).headD false] := by
    rw [← hy]; rfl
  have hy2 : y.2 = otherSideAt y.1 (I.otherSide w.curSide) := by
    rw [hy1, ← hy]; rfl
  unfold gsBoxTopology.crossInterface
  have hor : t.getOrientationOfInterface w.curSide w.orient = o :: os := by
    unfold gsBoxTopology.getOrientationOfInterface
    have : t.m_interfaces.find? (fun i => i.ps1 == w.curSide || i.ps2 == w.curSide) = some I := hI
    rw [this]
    exact ho
  simp only [hd, hor, hn]
  rw [hp2]
  simp only [List.length_singleton, ne_eq, not_true_eq_false, if_false, List.head?_cons]
  rw [← hy1]
  rw [getPatchSides_two] at hmem ⊢
  simp only [List.mem_cons, List.mem_singleton, List.not_mem_nil, or_false] at hmem
  unfold otherSideAt at hy2
  rw [getPatchSides_two] at hy2
  simp only at hy2 ⊢
  rcases hmem with e | e
  · rw [if_pos e] at hy2 ⊢
    rw [hy2, ho]
  · by_cases e0 : I.otherSide w.curSide
        = ⟨y.1.patch, if (y.1.corner - 1) % 2 == 1 then 2 else 1⟩
    · rw [if_pos e0] at hy2 ⊢
      rw [hy2, ho]
    · rw [if_neg e0] at hy2 ⊢
      rw [if_pos e, hy2, ho]

end WalkMap

section WalkIterates

theorem iterState_add (t : gsBoxTopology) (a b : Nat) (x : WalkState) :
    t.iterState (a + b) x = (t.iterState a x).bind (t.iterState b) := by
  induction a generalizing x with
  | zero => simp [gsBoxTopology.iterState]
  | succ a ih =>
    have e : ∀ (n : Nat) (z : WalkState), t.iterState (n + 1) z
        = match t.crossState z with
          | none => none
          | some y => t.iterState n y := fun _ _ => rfl
    rw [Nat.succ_add, e (a + b), e a]
    cases t.crossState x with
    | none => rfl
    | some y => exact ih y

theorem iterState_one (t : gsBoxTopology) (x : WalkState) :
    t.iterState 1 x = t.crossState x := by
  unfold gsBoxTopology.iterState
  cases t.crossState x <;> rfl

theorem iterState_succ_back (t : gsBoxTopology) (n : Nat) (x : WalkState) :
    t.iterState (n + 1) x = (t.iterState n x).bind t.crossState := by
  rw [iterState_add]
  congr 1
  funext y
  exact iterState_one t y

theorem iterState_succ_front (t : gsBoxTopology) (n : Nat) (x : WalkState) :
    t.iterState (n + 1) x = (t.crossState x).bind (t.iterState n) := by
  rw [Nat.add_comm, iterState_add, iterState_one]

theorem iterState_valid (t : gsBoxTopology) (hv : t.interfacesValid)
    (h1 : t.sidesInOneInterface) (n : Nat) :
    ∀ (x y : WalkState), validState x → t.iterState n x = some y → validState y := by
  induction n with
  | zero =>
    intro x y hx h
    cases h
    exact hx
  | succ n ih =>
    intro x y hx h
    rw [iterState_succ_front] at h
    cases hc : t.crossState x with
    | none => rw [hc] at h; cases h
    | some z =>
      rw [hc] at h
      exact ih z y (crossState_some t hv h1 x z hx hc).1 h

theorem iterState_arrival (t : gsBoxTopology) (hv : t.interfacesValid)
    (h1 : t.sidesInOneInterface) (n : Nat) (x y : WalkState) (hx : validState x)
    (h : t.iterState (n + 1) x = some y) : y ∈ t.arrivals := by
  rw [iterState_succ_back] at h
  cases hc : t.iterState n x with
  | none => rw [hc] at h; cases h
  | some z =>
    rw [hc] at h
    exact (crossState_some t hv h1 z y (iterState_valid t hv h1 n x z hx hc) h).2.1

theorem iterState_none_add (t : gsBoxTopology) (k d : Nat) (x : WalkState)
    (h : t.iterState k x = none) : t.iterState (k + d) x = none := by
  rw [iterState_add, h]
  rfl

theorem iterState_some_le (t : gsBoxTopology) (m i : Nat) (x y : WalkState) (hi : i ≤ m)
    (h : t.iterState m x = some y) :
    ∃ a, t.iterState i x = some a ∧ t.iterState (m - i) a = some y := by
  obtain ⟨d, rfl⟩ := Nat.exists_eq_add_of_le hi
  rw [iterState_add] at h
  cases hc : t.iterState i x with
  | none => rw [hc] at h; cases h
  | some a =>
    rw [hc] at h
    exact ⟨a, rfl, by simpa using h⟩

/-- Walking back: the crossings from `a` to `b`, taken in the other direction,
lead from `b` seen from its other side to `a` seen from its other side. -/
theorem iterState_reverse (t : gsBoxTopology) (hv : t.interfacesValid)
    (h1 : t.sidesInOneInterface) (n : Nat) :
    ∀ (a b : WalkState), validState a → t.iterState n a = some b →
      t.iterState n (flipState b) = some (flipState a) := by
  induction n with
  | zero =>
    intro a b ha h
    cases h
    rfl
  | succ n ih =>
    intro a b ha h
    rw [iterState_succ_front] at h
    cases hc : t.crossState a with
    | none => rw [hc] at h; cases h
    | some a1 =>
      rw [hc] at h
      obtain ⟨hv1, -, hr, -⟩ := crossState_some t hv h1 a a1 ha hc
      rw [iterState_succ_back, ih a1 b hv1 h]
      exact hr

theorem iterState_back (t : gsBoxTopology) (hv : t.interfacesValid)
    (h1 : t.sidesInOneInterface) (x : WalkState) (hx : validState x) (d : Nat) :
    ∀ (i : Nat) (y : WalkState), t.iterState i x = some y → t.iterState (i + d) x = some y →
      t.iterState d x = some x := by
  intro i
  induction i with
  | zero =>
    intro y h h2
    cases h
    simpa using h2
  | succ i ih =>
    intro y h h2
    rw [iterState_succ_back] at h
    rw [Nat.succ_add, iterState_succ_back] at h2
    cases ha : t.iterState i x with
    | none => rw [ha] at h; cases h
    | some a =>
      cases hb : t.iterState (i + d) x with
      | none => rw [hb] at h2; cases h2
      | some b =>
        rw [ha] at h
        rw [hb] at h2
        have hva := iterState_valid t hv h1 i x a hx ha
        have hvb := iterState_valid t hv h1 (i + d) x b hx hb
        have := crossState_injective t hv h1 a b y hva hvb h h2
        subst this
        exact ih a ha hb

theorem iterState_period (t : gsBoxTopology) (m : Nat) (x : WalkState)
    (h : t.iterState m x = some x) (j : Nat) : t.iterState (m * j) x = some x := by
  induction j with
  | zero => rfl
  | succ j ih =>
    rw [Nat.mul_succ, iterState_add, ih]
    exact h

end WalkIterates

section WalkOrbit

/-- Within `4 * nInterfaces + 1` crossings the walk from a state either reaches a
side without neighbour or is back in the state it began with. -/
theorem orbit_stops (t : gsBoxTopology) (hv : t.interfacesValid) (h1 : t.sidesInOneInterface)
    (x : WalkState) (hx : validState x) :
    ∃ k, 1 ≤ k ∧ k ≤ 4 * t.nInterfaces + 1
      ∧ (t.iterState k x = none ∨ t.iterState k x = some x) := by
  by_contra hcon
  push_neg at hcon
  have hsome : ∀ k, 1 ≤ k → k ≤ 4 * t.nInterfaces + 1 →
      ∃ y, t.iterState k x = some y ∧ y ∈ t.arrivals := by
    intro k hk1 hk2
    cases hc : t.iterState k x with
    | none => exact absurd hc (hcon k hk1 hk2).1
    | some y =>
      refine ⟨y, rfl, ?_⟩
      obtain ⟨n, rfl⟩ : ∃ n, k = n + 1 := ⟨k - 1, by omega⟩
      exact iterState_arrival t hv h1 n x y hx hc
  have hcard : t.arrivals.toFinset.card < (Finset.Icc 1 (4 * t.nInterfaces + 1)).card := by
    have := List.toFinset_card_le t.arrivals
    rw [arrivals_length] at this
    simp only [Nat.card_Icc, add_tsub_cancel_right]
    omega
  obtain ⟨i, hi, j, hj, hij, he⟩ := Finset.exists_ne_map_eq_of_card_lt_of_maps_to hcard
    (f := fun k => (t.iterState k x).getD x) (by
      intro k hk
      rw [Finset.mem_Icc] at hk
      obtain ⟨y, hy, hya⟩ := hsome k hk.1 hk.2
      simp only [hy, Option.getD_some, List.mem_toFinset]
      exact hya)
  rw [Finset.mem_Icc] at hi hj
  obtain ⟨yi, hyi, -⟩ := hsome i hi.1 hi.2
  obtain ⟨yj, hyj, -⟩ := hsome j hj.1 hj.2
  simp only [hyi, hyj, Option.getD_some] at he
  subst he
  rcases Nat.lt_or_gt_of_ne hij with hlt | hlt
  · obtain ⟨d, rfl⟩ := Nat.exists_eq_add_of_le (Nat.le_of_lt hlt)
    have := iterState_back t hv h1 x hx d i yi hyi hyj
    exact (hcon d (by omega) (by omega)).2 this
  · obtain ⟨d, rfl⟩ := Nat.exists_eq_add_of_le (Nat.le_of_lt hlt)
    have := iterState_back t hv h1 x hx d j yi hyj hyi
    exact (hcon d (by omega) (by omega)).2 this

/-- The first time at which the walk from `x` either reaches a side without
neighbour or arrives at the corner `start` of `x`. -/
theorem orbit_first_stop (t : gsBoxTopology) (hv : t.interfacesValid)
    (h1 : t.sidesInOneInterface) (x : WalkState) (hx : validState x) :
    ∃ k, 1 ≤ k ∧ k ≤ 4 * t.nInterfaces + 1
      ∧ (t.iterState k x = none ∨ ∃ y, t.iterState k x = some y ∧ y.1 = x.1)
      ∧ ∀ i, 1 ≤ i → i < k → ∃ y, t.iterState i x = some y ∧ y.1 ≠ x.1 := by
  obtain ⟨k, hk1, hk2, hk⟩ := orbit_stops t hv h1 x hx
  have hex : ∃ k, 1 ≤ k ∧ (t.iterState k x = none ∨ ∃ y, t.iterState k x = some y ∧ y.1 = x.1) := by
    refine ⟨k, hk1, ?_⟩
    rcases hk with hk | hk
    · exact Or.inl hk
    · exact Or.inr ⟨x, hk, rfl⟩
  classical
  refine ⟨Nat.find hex, (Nat.find_spec hex).1, ?_, (Nat.find_spec hex).2, ?_⟩
  · refine le_trans (Nat.find_min' hex ⟨hk1, ?_⟩) hk2
    rcases hk with hk | hk
    · exact Or.inl hk
    · exact Or.inr ⟨x, hk, rfl⟩
  · intro i hi1 hik
    have hmin := Nat.find_min hex hik
    rw [not_and_or] at hmin
    rcases hmin with hmin | hmin
    · exact absurd hi1 hmin
    · rw [not_or] at hmin
      cases hc : t.iterState i x with
      | none => exact absurd hc hmin.1
      | some y =>
        refine ⟨y, rfl, ?_⟩
        intro hy
        exact hmin.2 ⟨y, hc, hy⟩

/-- If the walk from `x` reaches a side without neighbour, the walk from the
same corner through its other side does not come back to that corner. -/
theorem orbit_no_return (t : gsBoxTopology) (hv : t.interfacesValid)
    (h1 : t.sidesInOneInterface) (x : WalkState) (hx : validState x) (k m : Nat)
    (hk : t.iterState k x = none) (hm : 1 ≤ m) (y : WalkState)
    (hy : t.iterState m (flipState x) = some y) (hc : y.1 = x.1) : False := by
  obtain ⟨hfv, hff, hfne, hf1⟩ := flipState_valid x hx
  have hyv := iterState_valid t hv h1 m _ y hfv hy
  rcases validState_corner x y hx hyv hc.symm with rfl | rfl
  · -- the walk arrives at `x` itself
    have hpal : ∀ i, i ≤ m → ∀ a, t.iterState i (flipState y) = some a →
        t.iterState (m - i) (flipState y) = some (flipState a) := by
      intro i hi a ha
      obtain ⟨a2, ha2, hrest⟩ := iterState_some_le t m i _ _ hi hy
      rw [ha] at ha2
      cases ha2
      have hav := iterState_valid t hv h1 i _ a hfv ha
      exact iterState_reverse t hv h1 (m - i) a y hav hrest
    rcases Nat.even_or_odd' m with ⟨i, hi | hi⟩
    · obtain ⟨a, ha, -⟩ := iterState_some_le t m i _ _ (by omega) hy
      have h2 := hpal i (by omega) a ha
      have e : m - i = i := by omega
      rw [e, ha] at h2
      have hav := iterState_valid t hv h1 i _ a hfv ha
      exact (flipState_valid a hav).2.2.1 (Option.some.inj h2).symm
    · obtain ⟨a, ha, -⟩ := iterState_some_le t m i _ _ (by omega) hy
      have h2 := hpal i (by omega) a ha
      have e : m - i = i + 1 := by omega
      rw [e, iterState_succ_back, ha] at h2
      have hav := iterState_valid t hv h1 i _ a hfv ha
      exact (crossState_some t hv h1 a _ hav h2).2.2.2 rfl
  · -- the walk arrives at the state it began with
    have hrev := iterState_reverse t hv h1 m _ _ hfv hy
    rw [hff] at hrev
    have hper := iterState_period t m x hrev k
    have hnone := iterState_none_add t k (m * k - k) x hk
    have e : k + (m * k - k) = m * k := by
      have : k ≤ m * k := Nat.le_mul_of_pos_left k hm
      omega
    rw [e, hper] at hnone
    cases hnone

end WalkOrbit

section WalkLoop

theorem getCornerListLoop_eq_run (t : gsBoxTopology) (start : patch_corner) (fuel : Nat) :
    ∀ w : CornerWalk, t.getCornerListLoop start fuel w
      = (t.getCornerListRun start fuel w).map (fun r => (r.2.firstTurn, r.2.cornerList)) := by
  induction fuel with
  | zero => intro w; rfl
  | succ fuel ih =>
    intro w
    rw [gsBoxTopology.getCornerListLoop, gsBoxTopology.getCornerListRun]
    cases hb : t.cornerListBody start w with
    | error e => rfl
    | ok v =>
      obtain ⟨brk, w1⟩ := v
      cases brk with
      | true => rfl
      | false =>
        simp only
        by_cases hc : w1.curCorner = start
        · rw [if_pos hc, if_pos hc]; rfl
        · rw [if_neg hc, if_neg hc]; exact ih w1

theorem getCornerList_eq_walk (t : gsBoxTopology) (fuel : Nat) (start : patch_corner) :
    t.getCornerList fuel start
      = (t.getCornerListWalk fuel start).map (fun r => (r.2.firstTurn, r.2.cornerList)) := by
  unfold gsBoxTopology.getCornerList gsBoxTopology.getCornerListWalk
  split
  · rfl
  · split
    · exact getCornerListLoop_eq_run t start fuel _
    · rfl

/-- A pass of the loop from a state whose side has a neighbour. -/
theorem cornerListBody_cross (t : gsBoxTopology) (hd : t.m_dim = 2) (hv : t.interfacesValid)
    (h1 : t.sidesInOneInterface) (start : patch_corner) (w : CornerWalk) (y : WalkState)
    (hx : validState (w.curCorner, w.curSide))
    (hy : t.crossState (w.curCorner, w.curSide) = some y) :
    ∃ w1, t.cornerListBody start w = .ok (false, w1) ∧ w1.curCorner = y.1 ∧ w1.curSide = y.2
      ∧ w1.endSide = w.endSide ∧ w1.firstTurn = w.firstTurn := by
  cases hI : t.interfaceOf w.curSide with
  | none =>
    have := (crossState_none t (w.curCorner, w.curSide)).2 hI
    rw [this] at hy
    cases hy
  | some I =>
    have hn : t.getNeighbour w.curSide w.neighbour = (true, I.otherSide w.curSide) := by
      rw [getNeighbour_interfaceOf, hI]
    have hcr := crossInterface_eq t hd hv h1
      { w with cornerList := w.cornerList ++ [w.curCorner], neighbour := I.otherSide w.curSide }
      I y hx hI rfl hy
    unfold gsBoxTopology.cornerListBody
    simp only [hn, Bool.not_true, Bool.false_eq_true, if_false]
    rw [hcr]
    exact ⟨_, rfl, rfl, rfl, rfl, rfl⟩

/-- A pass of the loop in the second direction from a state whose side has no
neighbour. -/
theorem cornerListBody_stop (t : gsBoxTopology) (start : patch_corner) (w : CornerWalk)
    (hf : w.firstTurn = false) (hy : t.crossState (w.curCorner, w.curSide) = none) :
    ∃ w1, t.cornerListBody start w = .ok (true, w1) ∧ w1.curSide = w.curSide
      ∧ w1.endSide = w.endSide ∧ w1.firstTurn = false := by
  have hI := (crossState_none t (w.curCorner, w.curSide)).1 hy
  have hn : t.getNeighbour w.curSide w.neighbour = (false, w.neighbour) := by
    rw [getNeighbour_interfaceOf, hI]
  unfold gsBoxTopology.cornerListBody
  simp only [hn, hf, Bool.not_false, if_true, Bool.false_eq_true, if_false]
  exact ⟨_, rfl, rfl, rfl, rfl⟩

/-- A pass of the loop in the first direction from a state whose side has no
neighbour, when the other side of the start corner has none either. -/
theorem cornerListBody_turn_stop (t : gsBoxTopology) (start : patch_corner) (w : CornerWalk)
    (hf : w.firstTurn = true) (hy : t.crossState (w.curCorner, w.curSide) = none)
    (hz : t.crossState (start, w.endSide) = none) :
    ∃ w1, t.cornerListBody start w = .ok (true, w1) ∧ w1.curSide = w.endSide
      ∧ w1.endSide = w.curSide ∧ w1.firstTurn = false := by
  have hI := (crossState_none t (w.curCorner, w.curSide)).1 hy
  have hJ := (crossState_none t (start, w.endSide)).1 hz
  have hn : t.getNeighbour w.curSide w.neighbour = (false, w.neighbour) := by
    rw [getNeighbour_interfaceOf, hI]
  have hn2 : t.getNeighbour w.endSide w.neighbour = (false, w.neighbour) := by
    rw [getNeighbour_interfaceOf, hJ]
  unfold gsBoxTopology.cornerListBody
  simp only [hn, hn2, hf, Bool.not_false, if_true]
  exact ⟨_, rfl, rfl, rfl, rfl⟩

/-- A pass of the loop in the first direction from a state whose side has no
neighbour, when the other side of the start corner has one. -/
theorem cornerListBody_turn_cross (t : gsBoxTopology) (hd : t.m_dim = 2)
    (hv : t.interfacesValid) (h1 : t.sidesInOneInterface) (start : patch_corner)
    (w : CornerWalk) (z : WalkState)
    (hf : w.firstTurn = true) (hy : t.crossState (w.curCorner, w.curSide) = none)
    (hs : validState (start, w.endSide))
    (hz : t.crossState (start, w.endSide) = some z) :
    ∃ w1, t.cornerListBody start w = .ok (false, w1) ∧ w1.curCorner = z.1 ∧ w1.curSide = z.2
      ∧ w1.endSide = w.curSide ∧ w1.firstTurn = false := by
  have hI := (crossState_none t (w.curCorner, w.curSide)).1 hy
  have hn : t.getNeighbour w.curSide w.neighbour = (false, w.neighbour) := by
    rw [getNeighbour_interfaceOf, hI]
  cases hJ : t.interfaceOf w.endSide with
  | none =>
    have := (crossState_none t (start, w.endSide)).2 hJ
    rw [this] at hz
    cases hz
  | some J =>
    have hn2 : t.getNeighbour w.endSide w.neighbour = (true, J.otherSide w.endSide) := by
      rw [getNeighbour_interfaceOf, hJ]
    have hcr := crossInterface_eq t hd hv h1
      { w with cornerList := w.cornerList ++ [w.curCorner], neighbour := J.otherSide w.endSide,
               curSide := w.endSide, endSide := w.curSide, curCorner := start,
               firstTurn := false }
      J z hs hJ rfl hz
    unfold gsBoxTopology.cornerListBody
    simp only [hn, hn2, hf, Bool.not_false, if_true, Bool.not_true, Bool.false_eq_true, if_false]
    rw [hcr]
    exact ⟨_, rfl, rfl, rfl, rfl, rfl⟩

/-- The passes of the loop that cross and arrive away from the start corner. -/
theorem getCornerListRun_advance (t : gsBoxTopology) (hd : t.m_dim = 2)
    (hv : t.interfacesValid) (h1 : t.sidesInOneInterface) (start : patch_corner) (j : Nat) :
    ∀ (w : CornerWalk), validState (w.curCorner, w.curSide) →
      (∀ i, 1 ≤ i → i ≤ j →
        ∃ y, t.iterState i (w.curCorner, w.curSide) = some y ∧ y.1 ≠ start) →
      ∃ w1, (∀ f, t.getCornerListRun start (j + f) w = t.getCornerListRun start f w1)
        ∧ t.iterState j (w.curCorner, w.curSide) = some (w1.curCorner, w1.curSide)
        ∧ w1.endSide = w.endSide ∧ w1.firstTurn = w.firstTurn := by
  induction j with
  | zero =>
    intro w _ _
    exact ⟨w, fun f => by rw [Nat.zero_add], rfl, rfl, rfl⟩
  | succ j ih =>
    intro w hx hall
    obtain ⟨y, hy, hys⟩ := hall 1 (le_refl 1) (by omega)
    rw [iterState_one] at hy
    obtain ⟨w1, hb, hc1, hc2, he, hf⟩ := cornerListBody_cross t hd hv h1 start w y hx hy
    have hyv := (crossState_some t hv h1 _ y hx hy).1
    have hst : (w1.curCorner, w1.curSide) = y := by rw [hc1, hc2]
    obtain ⟨w2, hrun, hit, he2, hf2⟩ := ih w1 (by rw [hst]; exact hyv) (by
      intro i hi1 hi2
      obtain ⟨z, hz, hzs⟩ := hall (i + 1) (by omega) (by omega)
      rw [iterState_succ_front, hy] at hz
      rw [hst]
      exact ⟨z, hz, hzs⟩)
    refine ⟨w2, ?_, ?_, by rw [he2, he], by rw [hf2, hf]⟩
    · intro f
      rw [Nat.succ_add, gsBoxTopology.getCornerListRun, hb]
      simp only
      rw [if_neg (by rw [hc1]; exact hys)]
      exact hrun f
    · rw [iterState_succ_front, hy]
      rw [hst] at hit
      exact hit

end WalkLoop

section WalkTermination

theorem getNeighbour_of_crossState_none (t : gsBoxTopology) (c : patch_corner)
    (s r : patch_side) (h : t.crossState (c, s) = none) : (t.getNeighbour s r).1 = false := by
  have hI := (crossState_none t (c, s)).1 h
  simp only at hI
  rw [getNeighbour_interfaceOf, hI]

/-- The loop of `getCornerList` from the start corner ends within
`8 * nInterfaces + 2` passes, either at the start corner in the first direction
or through `break` in the second direction. -/
theorem getCornerListRun_terminates (t : gsBoxTopology) (hd : t.m_dim = 2)
    (hv : t.interfacesValid) (h1 : t.sidesInOneInterface) (start : patch_corner)
    (w0 : CornerWalk) (hx : validState (w0.curCorner, w0.curSide)) (hc : w0.curCorner = start)
    (hfl : flipState (w0.curCorner, w0.curSide) = (start, w0.endSide))
    (hf : w0.firstTurn = true) :
    ∃ fuel, fuel ≤ 8 * t.nInterfaces + 2 ∧ ∃ (brk : Bool) (w : CornerWalk),
      t.getCornerListRun start fuel w0 = .ok (brk, w)
      ∧ ((brk = false ∧ w.curCorner = start ∧ w.firstTurn = true)
        ∨ (brk = true ∧ w.firstTurn = false
            ∧ (t.getNeighbour w.curSide w.neighbour).1 = false
            ∧ (t.getNeighbour w.endSide w.neighbour).1 = false)) := by
  obtain ⟨k, hk1, hk2, hstop, hbefore⟩ := orbit_first_stop t hv h1 _ hx
  simp only [hc] at hbefore hstop
  obtain ⟨k, rfl⟩ : ∃ n, k = n + 1 := ⟨k - 1, by omega⟩
  obtain ⟨w1, hrun, hit, he1, hf1⟩ := getCornerListRun_advance t hd hv h1 start k w0 hx (by
    intro i hi1 hi2
    rw [hc]
    exact hbefore i hi1 (by omega))
  rw [hc] at hit
  have hav := iterState_valid t hv h1 k _ _ (by rw [← hc]; exact hx) hit
  have hstep : t.iterState (k + 1) (start, w0.curSide)
      = t.crossState (w1.curCorner, w1.curSide) := by
    rw [iterState_succ_back, hit]
    rfl
  rw [hf] at hf1
  rcases hstop with hnone | ⟨y, hy, hys⟩
  · rw [hstep] at hnone
    have hyv : validState (start, w0.endSide) := by
      rw [← hfl]
      exact (flipState_valid _ hx).1
    cases hz : t.crossState (start, w0.endSide) with
    | none =>
      obtain ⟨w2, hb, hc2, he2, hf2⟩ :=
        cornerListBody_turn_stop t start w1 hf1 hnone (by rw [he1]; exact hz)
      refine ⟨k + 1, by omega, true, w2, ?_, Or.inr ⟨rfl, hf2, ?_, ?_⟩⟩
      · rw [hrun 1, gsBoxTopology.getCornerListRun, hb]
      · rw [hc2, he1]
        exact getNeighbour_of_crossState_none t _ _ _ hz
      · rw [he2]
        exact getNeighbour_of_crossState_none t _ _ _ hnone
    | some z =>
      obtain ⟨m, hm1, hm2, hstop2, hbefore2⟩ := orbit_first_stop t hv h1 _ hyv
      simp only at hstop2 hbefore2
      have hnone2 : t.iterState m (start, w0.endSide) = none := by
        rcases hstop2 with h | ⟨y, hy, hys⟩
        · exact h
        · exfalso
          rw [← hfl] at hy
          refine orbit_no_return t hv h1 _ hx (k + 1) m ?_ hm1 y hy (by rw [hys, hc])
          rw [hc, hstep]
          exact hnone
      have hm : 2 ≤ m := by
        rcases Nat.lt_or_ge m 2 with h | h
        · have : m = 1 := by omega
          subst this
          rw [iterState_one, hz] at hnone2
          cases hnone2
        · exact h
      obtain ⟨m, rfl⟩ : ∃ n, m = n + 2 := ⟨m - 2, by omega⟩
      have hzs : z.1 ≠ start := by
        obtain ⟨y, hy, hys⟩ := hbefore2 1 (le_refl 1) (by omega)
        rw [iterState_one, hz] at hy
        cases hy
        exact hys
      obtain ⟨w2, hb, hc2, hs2, he2, hf2⟩ := cornerListBody_turn_cross t hd hv h1 start w1 z
        hf1 hnone (by rw [he1]; exact hyv) (by rw [he1]; exact hz)
      have hzv := (crossState_some t hv h1 _ z hyv hz).1
      have hst : (w2.curCorner, w2.curSide) = z := by rw [hc2, hs2]
      obtain ⟨w3, hrun3, hit3, he3, hf3⟩ := getCornerListRun_advance t hd hv h1 start m w2
        (by rw [hst]; exact hzv) (by
          intro i hi1 hi2
          obtain ⟨y, hy, hys⟩ := hbefore2 (i + 1) (by omega) (by omega)
          rw [iterState_succ_front, hz] at hy
          rw [hst]
          exact ⟨y, hy, hys⟩)
      have hend : t.crossState (w3.curCorner, w3.curSide) = none := by
        have : t.iterState (m + 2) (start, w0.endSide)
            = t.crossState (w3.curCorner, w3.curSide) := by
          rw [iterState_succ_back, iterState_succ_front, hz]
          rw [hst] at hit3
          simp only [Option.some_bind]
          rw [hit3]
          rfl
        rw [← this]
        exact hnone2
      rw [hf2] at hf3
      obtain ⟨w4, hb4, hc4, he4, hf4⟩ := cornerListBody_stop t start w3 hf3 hend
      refine ⟨k + ((m + 1) + 1), by omega, true, w4, ?_, Or.inr ⟨rfl, hf4, ?_, ?_⟩⟩
      · rw [hrun ((m + 1) + 1), gsBoxTopology.getCornerListRun, hb]
        simp only
        rw [if_neg (by rw [hc2]; exact hzs), hrun3 1, gsBoxTopology.getCornerListRun, hb4]
      · rw [hc4]
        exact getNeighbour_of_crossState_none t _ _ _ hend
      · rw [he4, he3, he2]
        exact getNeighbour_of_crossState_none t _ _ _ hnone
  · rw [hstep] at hy
    obtain ⟨w2, hb, hc2, hs2, he2, hf2⟩ := cornerListBody_cross t hd hv h1 start w1 y hav hy
    refine ⟨k + 1, by omega, false, w2, ?_, Or.inl ⟨rfl, by rw [hc2, hys], by rw [hf2, hf1]⟩⟩
    rw [hrun 1, gsBoxTopology.getCornerListRun, hb]
    simp only
    rw [if_pos (by rw [hc2, hys])]

/-- C13: in a two-dimensional topology whose interfaces join sides of squares
and in which each patch side belongs to at most one interface, the walk of
`getCornerList` from any corner of a patch terminates: within
`8 * nInterfaces + 2` passes the loop is left, and a larger step budget gives
the same result.  The loop is left either because the current corner equals the
start corner, in the first direction, and the return value is `true` (closed),
or through `break` in the second direction, when the side reached in the first
direction (`endSide`) and the side reached in the second direction (`curSide`)
both have no neighbour, and the return value is `false` (open). -/
theorem getCornerList_terminates (t : gsBoxTopology) (start : patch_corner)
    (hd : t.m_dim = 2) (hv : t.interfacesValid) (h1 : t.sidesInOneInterface)
    (hs : validCorner start) :
    ∃ fuel, fuel ≤ 8 * t.nInterfaces + 2 ∧ ∃ (brk : Bool) (w : CornerWalk),
      t.getCornerListWalk fuel start = .ok (brk, w)
      ∧ (∀ k, t.getCornerList (fuel + k) start = .ok (w.firstTurn, w.cornerList))
      ∧ ((brk = false ∧ w.curCorner = start ∧ w.firstTurn = true)
        ∨ (brk = true ∧ w.firstTurn = false
            ∧ (t.getNeighbour w.curSide w.neighbour).1 = false
            ∧ (t.getNeighbour w.endSide w.neighbour).1 = false)) := by
  obtain ⟨p0, p1, hps, hx, hfl⟩ := start_states start hs
  obtain ⟨fuel, hfuel, brk, w, hrun, hexit⟩ := getCornerListRun_terminates t hd hv h1 start
    { cornerList := [], curSide := p0, endSide := p1, neighbour := ⟨0, 0⟩,
      curCorner := start, orient := [], firstTurn := true } hx rfl hfl rfl
  have hwalk : t.getCornerListWalk fuel start = .ok (brk, w) := by
    unfold gsBoxTopology.getCornerListWalk
    rw [if_neg (by simp [hd]), hd, hps]
    exact hrun
  refine ⟨fuel, hfuel, brk, w, hwalk, ?_, hexit⟩
  intro k
  refine getCornerList_mono t fuel k start _ ?_
  rw [getCornerList_eq_walk, hwalk]
  rfl

theorem getCornerList_terminates_witness :
    threePatches.m_dim = 2 ∧ threePatches.interfacesValid ∧ threePatches.sidesInOneInterface
    ∧ validCorner ⟨0, 4⟩
    ∧ ∃ fuel, fuel ≤ 8 * threePatches.nInterfaces + 2 ∧ ∃ (brk : Bool) (w : CornerWalk),
      threePatches.getCornerListWalk fuel ⟨0, 4⟩ = .ok (brk, w)
      ∧ (∀ k, threePatches.getCornerList (fuel + k) ⟨0, 4⟩ = .ok (w.firstTurn, w.cornerList))
      ∧ ((brk = false ∧ w.curCorner = ⟨0, 4⟩ ∧ w.firstTurn = true)
        ∨ (brk = true ∧ w.firstTurn = false
            ∧ (threePatches.getNeighbour w.curSide w.neighbour).1 = false
            ∧ (threePatches.getNeighbour w.endSide w.neighbour).1 = false)) :=
  have hv : threePatches.interfacesValid := by
    unfold gsBoxTopology.interfacesValid validSide
    decide
  have h1 : threePatches.sidesInOneInterface := by
    unfold gsBoxTopology.sidesInOneInterface
    decide
  have hs : validCorner ⟨0, 4⟩ := by
    unfold validCorner
    decide
  ⟨rfl, hv, h1, hs, getCornerList_terminates threePatches ⟨0, 4⟩ rfl hv h1 hs⟩

end WalkTermination

section ScatterOrder

open gsVisitorPoisson

variable {R : Type} [CommRing R]

theorem colStep_eq_applyOp (mapper : gsDofMapper) (elim : gsMatrix R) (act : Nat → Nat)
    (lm : gsMatrix R) (i ii : Nat) (acc : gsSparseMatrix R × gsMatrix R) (j : Nat) :
    colStep mapper elim act lm i ii acc j = applyOp acc (colOp mapper elim act lm i ii j) := by
  unfold colStep colOp
  by_cases h : mapper.is_free_index (act j) = true
  · simp only [h, if_true]; rfl
  · simp only [h]; rfl

theorem rowStep_eq_applyOps (mapper : gsDofMapper) (elim : gsMatrix R) (act : Nat → Nat)
    (n : Nat) (lm lr : gsMatrix R) (acc : gsSparseMatrix R × gsMatrix R) (i : Nat) :
    rowStep mapper elim act n lm lr acc i
      = (rowOps mapper elim act n lm lr i).foldl applyOp acc := by
  unfold rowStep rowOps
  by_cases h : mapper.is_free_index (act i) = true
  · simp only [h, if_true, List.foldl_cons, List.foldl_map]
    congr 1
    funext a j
    exact colStep_eq_applyOp mapper elim act lm i (act i) a j
  · simp only [h]; rfl

theorem rowFold_eq_applyOps (mapper : gsDofMapper) (elim : gsMatrix R) (act : Nat → Nat)
    (n : Nat) (lm lr : gsMatrix R) (l : List Nat) (acc : gsSparseMatrix R × gsMatrix R) :
    l.foldl (rowStep mapper elim act n lm lr) acc
      = (l.flatMap (rowOps mapper elim act n lm lr)).foldl applyOp acc := by
  induction l generalizing acc with
  | nil => rfl
  | cons i l ih =>
    rw [List.foldl_cons, List.flatMap_cons, List.foldl_append, ih, rowStep_eq_applyOps]

/-- One call of `localToGlobal` does its writes one after the other. -/
theorem localToGlobal_eq_applyOps (mapper : gsDofMapper) (elim : gsMatrix R) (c : Call R)
    (acc : gsSparseMatrix R × gsMatrix R) :
    (c.visitor.localToGlobal mapper elim c.patchIndex acc.1 acc.2).2
      = (callOps mapper elim c).foldl applyOp acc := by
  unfold localToGlobal callOps
  exact rowFold_eq_applyOps mapper elim _ _ _ _ _ acc

theorem scatterAll_eq_applyOps (mapper : gsDofMapper) (elim : gsMatrix R) (calls : List (Call R))
    (acc : gsSparseMatrix R × gsMatrix R) :
    scatterAll mapper elim calls acc.1 acc.2
      = (calls.flatMap (callOps mapper elim)).foldl applyOp acc := by
  unfold scatterAll
  induction calls generalizing acc with
  | nil => rfl
  | cons c calls ih =>
    rw [List.foldl_cons, List.flatMap_cons, List.foldl_append, ← localToGlobal_eq_applyOps]
    exact ih _

theorem rowAdd_rowAdd_comm (m : gsMatrix R) (i j : Nat) (v w : Nat → R) :
    (m.rowAdd i v).rowAdd j w = (m.rowAdd j w).rowAdd i v := by
  funext r k
  unfold gsMatrix.rowAdd
  split_ifs <;> ring

theorem rowAdd_rowSubScaled_comm (m : gsMatrix R) (i j : Nat) (v w : Nat → R) (a : R) :
    (m.rowAdd i v).rowSubScaled j a w = (m.rowSubScaled j a w).rowAdd i v := by
  funext r k
  unfold gsMatrix.rowAdd gsMatrix.rowSubScaled
  by_cases h1 : r = i
  · subst h1
    by_cases h2 : r = j
    · subst h2
      simp only [if_true]
      ring
    · simp only [if_true, if_neg h2]
  · by_cases h2 : r = j
    · subst h2
      simp only [if_true, if_neg h1]
    · simp only [if_neg h1, if_neg h2]

theorem rowSubScaled_rowSubScaled_comm (m : gsMatrix R) (i j : Nat) (v w : Nat → R) (a b : R) :
    (m.rowSubScaled i a v).rowSubScaled j b w = (m.rowSubScaled j b w).rowSubScaled i a v := by
  funext r k
  unfold gsMatrix.rowSubScaled
  split_ifs <;> ring

theorem coeffRefAdd_comm (m : gsSparseMatrix R) (i j i2 j2 : Nat) (v w : R) :
    (m.coeffRefAdd i j v).coeffRefAdd i2 j2 w = (m.coeffRefAdd i2 j2 w).coeffRefAdd i j v := by
  funext r c
  unfold gsSparseMatrix.coeffRefAdd gsSparseMatrix.coeff
  by_cases h1 : r = i ∧ c = j <;> by_cases h2 : r = i2 ∧ c = j2
  · obtain ⟨rfl, rfl⟩ := h1
    obtain ⟨rfl, rfl⟩ := h2
    simp only [and_self, if_true, Option.getD_some, Option.some.injEq]
    ring
  · obtain ⟨rfl, rfl⟩ := h1
    have h3 : ¬ (i2 = r ∧ j2 = c) := fun e => h2 ⟨e.1.symm, e.2.symm⟩
    simp only [and_self, if_true, h2, h3, if_false]
  · obtain ⟨rfl, rfl⟩ := h2
    have h3 : ¬ (i = r ∧ j = c) := fun e => h1 ⟨e.1.symm, e.2.symm⟩
    simp only [and_self, if_true, h1, h3, if_false]
  · simp only [h1, h2, if_false]

/-- Two writes give the same system in either order. -/
theorem applyOp_comm (acc : gsSparseMatrix R × gsMatrix R) (a b : ScatterOp R) :
    applyOp (applyOp acc a) b = applyOp (applyOp acc b) a := by
  cases a with
  | rhsAdd i v =>
    cases b with
    | rhsAdd j w => simp only [applyOp, rowAdd_rowAdd_comm]
    | sysAdd j c w => rfl
    | rhsSub j a w => simp only [applyOp, rowAdd_rowSubScaled_comm]
  | sysAdd i c v =>
    cases b with
    | rhsAdd j w => rfl
    | sysAdd j c2 w => simp only [applyOp, coeffRefAdd_comm]
    | rhsSub j a w => rfl
  | rhsSub i a v =>
    cases b with
    | rhsAdd j w => simp only [applyOp, rowAdd_rowSubScaled_comm]
    | sysAdd j c w => rfl
    | rhsSub j b w => simp only [applyOp, rowSubScaled_rowSubScaled_comm _ i j]

/-- C21: scattering two element contributions `A` and `B` with `localToGlobal`,
with the same mapper and the same table of eliminated values, gives the same
system matrix (stored entries and their values) and the same right-hand side
in either order, in exact arithmetic; and so does every reordering of a
sequence of contributions. -/
theorem localToGlobal_commutes (mapper : gsDofMapper) (elim : gsMatrix R) (A B : Call R)
    (sysMatrix : gsSparseMatrix R) (rhsMatrix : gsMatrix R) :
    (B.visitor.localToGlobal mapper elim B.patchIndex
        (A.visitor.localToGlobal mapper elim A.patchIndex sysMatrix rhsMatrix).2.1
        (A.visitor.localToGlobal mapper elim A.patchIndex sysMatrix rhsMatrix).2.2).2
      = (A.visitor.localToGlobal mapper elim A.patchIndex
        (B.visitor.localToGlobal mapper elim B.patchIndex sysMatrix rhsMatrix).2.1
        (B.visitor.localToGlobal mapper elim B.patchIndex sysMatrix rhsMatrix).2.2).2
    ∧ scatterAll mapper elim [A, B] sysMatrix rhsMatrix
      = scatterAll mapper elim [B, A] sysMatrix rhsMatrix
    ∧ ∀ calls1 calls2 : List (Call R), calls1.Perm calls2 →
        scatterAll mapper elim calls1 sysMatrix rhsMatrix
          = scatterAll mapper elim calls2 sysMatrix rhsMatrix := by
  have hperm : ∀ calls1 calls2 : List (Call R), calls1.Perm calls2 →
      scatterAll mapper elim calls1 sysMatrix rhsMatrix
        = scatterAll mapper elim calls2 sysMatrix rhsMatrix := by
    intro calls1 calls2 hp
    have e1 := scatterAll_eq_applyOps mapper elim calls1 (sysMatrix, rhsMatrix)
    have e2 := scatterAll_eq_applyOps mapper elim calls2 (sysMatrix, rhsMatrix)
    simp only at e1 e2
    rw [e1, e2]
    exact List.Perm.foldl_eq' (hp.flatMap_right _) (fun a _ b _ acc => applyOp_comm acc a b) _
  have h2 := hperm [A, B] [B, A] (List.Perm.swap B A [])
  exact ⟨h2, h2, hperm⟩

end ScatterOrder

section AssembleSums

open gsVisitorPoissonData

variable {R : Type} [CommRing R]

theorem assembleStep_numActive (geoEval : gsGeometryEvaluator R) (quWeights : List R)
    (d : gsVisitorPoissonData R) (k : Nat) :
    (assembleStep geoEval quWeights d k).numActive = d.numActive := rfl

/-- The loop of `assemble` over a list of nodes adds one term per node to the
entries of `localMat` and `localRhs` and leaves the basis data alone. -/
theorem assembleFold_sums (geoEval : gsGeometryEvaluator R) (quWeights : List R)
    (l : List Nat) (d : gsVisitorPoissonData R) :
    (∀ i j, (l.foldl (assembleStep geoEval quWeights) d).localMat i j
      = d.localMat i j + (l.map (fun k => (quWeights.getD k 0 * geoEval.measure k)
          * ((List.range geoEval.gradRows).map (fun g =>
              geoEval.transformGradients k d.bGrads g i
                * geoEval.transformGradients k d.bGrads g j)).sum)).sum)
    ∧ (∀ i c, (l.foldl (assembleStep geoEval quWeights) d).localRhs i c
      = d.localRhs i c + (l.map (fun k => (quWeights.getD k 0 * geoEval.measure k)
          * (d.bVals i k * d.rhsVals c k))).sum)
    ∧ (l.foldl (assembleStep geoEval quWeights) d).numActive = d.numActive := by
  induction l generalizing d with
  | nil => simp
  | cons k l ih =>
    obtain ⟨h1, h2, h3⟩ := ih (assembleStep geoEval quWeights d k)
    rw [List.foldl_cons]
    refine ⟨?_, ?_, ?_⟩
    · intro i j
      rw [h1, assembleStep_bGrads, List.map_cons, List.sum_cons, ← add_assoc]
      rfl
    · intro i c
      rw [h2, assembleStep_bVals, assembleStep_rhsVals, List.map_cons, List.sum_cons, ← add_assoc]
      rfl
    · rw [h3, assembleStep_numActive]

/-- The entries of `localMat` after `evaluate` followed by `assemble`. -/
theorem evaluate_assemble_localMat (d0 : gsVisitorPoissonData R) (paramCoef : Bool)
    (rhs : gsMatrix R → gsMatrix R) (basis : gsBasis R)
    (evaluateAt : gsMatrix R → gsGeometryEvaluator R) (quNodes : gsMatrix R)
    (quWeights : List R) (i j : Nat) :
    ((d0.evaluate paramCoef rhs basis evaluateAt quNodes).1.assemble
        (d0.evaluate paramCoef rhs basis evaluateAt quNodes).2 quWeights).localMat i j
      = ∑ k in Finset.range quWeights.length,
          (quWeights.getD k 0 * (evaluateAt quNodes).measure k)
            * ∑ g in Finset.range (evaluateAt quNodes).gradRows,
                (evaluateAt quNodes).transformGradients k (basis.evalAllDers_into quNodes).2 g i
                  * (evaluateAt quNodes).transformGradients k
                      (basis.evalAllDers_into quNodes).2 g j := by
  unfold assemble
  rw [(assembleFold_sums _ quWeights _ _).1, ← sum_map_range_eq]
  simp only [sum_map_range_eq, evaluate, zero_add]

/-- The entries of `localRhs` after `evaluate` followed by `assemble`. -/
theorem evaluate_assemble_localRhs (d0 : gsVisitorPoissonData R) (paramCoef : Bool)
    (rhs : gsMatrix R → gsMatrix R) (basis : gsBasis R)
    (evaluateAt : gsMatrix R → gsGeometryEvaluator R) (quNodes : gsMatrix R)
    (quWeights : List R) (i c : Nat) :
    ((d0.evaluate paramCoef rhs basis evaluateAt quNodes).1.assemble
        (d0.evaluate paramCoef rhs basis evaluateAt quNodes).2 quWeights).localRhs i c
      = ∑ k in Finset.range quWeights.length,
          (quWeights.getD k 0 * (evaluateAt quNodes).measure k)
            * ((basis.evalAllDers_into quNodes).1 i k
                * rhs (if paramCoef then quNodes else (evaluateAt quNodes).values) c k) := by
  unfold assemble
  rw [(assembleFold_sums _ quWeights _ _).2.1, ← sum_map_range_eq]
  simp only [evaluate, zero_add]

/-- The entries of the visitor with dimensions after `evaluate` are those of
`evaluate` on the entries. -/
theorem evaluate_toData (d : gsVisitorPoissonSized R) (paramCoef : Bool)
    (rhs : gsMatrix R → gsSizedMatrix R) (basis : gsBasis R)
    (evaluateAt : gsMatrix R → gsGeometryEvaluator R) (quNodes : gsMatrix R) :
    (d.evaluate paramCoef rhs basis evaluateAt quNodes).1.toData
        = (d.toData.evaluate paramCoef (fun x => (rhs x).coeff) basis evaluateAt quNodes).1
    ∧ (d.evaluate paramCoef rhs basis evaluateAt quNodes).2
        = (d.toData.evaluate paramCoef (fun x => (rhs x).coeff) basis evaluateAt quNodes).2 :=
  ⟨rfl, rfl⟩

/-- The loop of `assemble` on the visitor with dimensions: the entries are those
of the loop on the entries, and the dimensions of `localMat`, `localRhs` and
`rhsVals` and the number of active functions stay as they are. -/
theorem assembleFold_toData (geoEval : gsGeometryEvaluator R) (quWeights : List R)
    (l : List Nat) (d : gsVisitorPoissonSized R) :
    (l.foldl (gsVisitorPoissonSized.assembleStep geoEval quWeights) d).toData
        = l.foldl (gsVisitorPoissonData.assembleStep geoEval quWeights) d.toData
    ∧ (l.foldl (gsVisitorPoissonSized.assembleStep geoEval quWeights) d).localMat.rows
        = d.localMat.rows
    ∧ (l.foldl (gsVisitorPoissonSized.assembleStep geoEval quWeights) d).localMat.cols
        = d.localMat.cols
    ∧ (l.foldl (gsVisitorPoissonSized.assembleStep geoEval quWeights) d).localRhs.rows
        = d.localRhs.rows
    ∧ (l.foldl (gsVisitorPoissonSized.assembleStep geoEval quWeights) d).localRhs.cols
        = d.localRhs.cols
    ∧ (l.foldl (gsVisitorPoissonSized.assembleStep geoEval quWeights) d).rhsVals = d.rhsVals
    ∧ (l.foldl (gsVisitorPoissonSized.assembleStep geoEval quWeights) d).numActive
        = d.numActive := by
  induction l generalizing d with
  | nil => exact ⟨rfl, rfl, rfl, rfl, rfl, rfl, rfl⟩
  | cons k l ih =>
    obtain ⟨h1, h2, h3, h4, h5, h6, h7⟩ :=
      ih (gsVisitorPoissonSized.assembleStep geoEval quWeights d k)
    rw [List.foldl_cons, List.foldl_cons]
    exact ⟨h1, h2, h3, h4, h5, h6, h7⟩

/-- C22: after `evaluate` followed by `assemble`, `localMat(i,j)` is the sum
over the quadrature nodes `k` of `quWeights[k] * measure(k)` times the entry
`(i,j)` of `physGrad_k^T * physGrad_k`, and `localRhs(i,c)` is the sum over `k`
of `quWeights[k] * measure(k)` times `bVals(i,k) * rhsVals(c,k)`; `localMat` has
`numActive` rows and `numActive` columns and `localRhs` has `numActive` rows and
`rhsVals.rows()` columns, one per right-hand side, with `numActive` the number
of active functions that the basis reports; and both matrices, entries and
dimensions, are the same whatever the visitor held before `evaluate`. -/
theorem evaluate_assemble_sums (d : gsVisitorPoissonSized R) (paramCoef : Bool)
    (rhs : gsMatrix R → gsSizedMatrix R) (basis : gsBasis R)
    (evaluateAt : gsMatrix R → gsGeometryEvaluator R) (quNodes : gsMatrix R)
    (quWeights : List R) :
    (∀ i j, ((d.evaluate paramCoef rhs basis evaluateAt quNodes).1.assemble
        (d.evaluate paramCoef rhs basis evaluateAt quNodes).2 quWeights).localMat.coeff i j
      = ∑ k in Finset.range quWeights.length,
          (quWeights.getD k 0 * (evaluateAt quNodes).measure k)
            * ∑ g in Finset.range (evaluateAt quNodes).gradRows,
                (evaluateAt quNodes).transformGradients k (basis.evalAllDers_into quNodes).2 g i
                  * (evaluateAt quNodes).transformGradients k
                      (basis.evalAllDers_into quNodes).2 g j)
    ∧ (∀ i c, ((d.evaluate paramCoef rhs basis evaluateAt quNodes).1.assemble
        (d.evaluate paramCoef rhs basis evaluateAt quNodes).2 quWeights).localRhs.coeff i c
      = ∑ k in Finset.range quWeights.length,
          (quWeights.getD k 0 * (evaluateAt quNodes).measure k)
            * ((basis.evalAllDers_into quNodes).1 i k
                * (rhs (if paramCoef then quNodes else (evaluateAt quNodes).values)).coeff c k))
    ∧ (((d.evaluate paramCoef rhs basis evaluateAt quNodes).1.assemble
          (d.evaluate paramCoef rhs basis evaluateAt quNodes).2 quWeights).numActive
        = (basis.active_into (fun r _ => quNodes r 0)).1
      ∧ ((d.evaluate paramCoef rhs basis evaluateAt quNodes).1.assemble
          (d.evaluate paramCoef rhs basis evaluateAt quNodes).2 quWeights).rhsVals
        = rhs (if paramCoef then quNodes else (evaluateAt quNodes).values)
      ∧ ((d.evaluate paramCoef rhs basis evaluateAt quNodes).1.assemble
          (d.evaluate paramCoef rhs basis evaluateAt quNodes).2 quWeights).localMat.rows
        = (basis.active_into (fun r _ => quNodes r 0)).1
      ∧ ((d.evaluate paramCoef rhs basis evaluateAt quNodes).1.assemble
          (d.evaluate paramCoef rhs basis evaluateAt quNodes).2 quWeights).localMat.cols
        = (basis.active_into (fun r _ => quNodes r 0)).1
      ∧ ((d.evaluate paramCoef rhs basis evaluateAt quNodes).1.assemble
          (d.evaluate paramCoef rhs basis evaluateAt quNodes).2 quWeights).localRhs.rows
        = (basis.active_into (fun r _ => quNodes r 0)).1
      ∧ ((d.evaluate paramCoef rhs basis evaluateAt quNodes).1.assemble
          (d.evaluate paramCoef rhs basis evaluateAt quNodes).2 quWeights).localRhs.cols
        = (rhs (if paramCoef then quNodes else (evaluateAt quNodes).values)).rows)
    ∧ (∀ d2 : gsVisitorPoissonSized R,
        ((d2.evaluate paramCoef rhs basis evaluateAt quNodes).1.assemble
          (d2.evaluate paramCoef rhs basis evaluateAt quNodes).2 quWeights).localMat
          = ((d.evaluate paramCoef rhs basis evaluateAt quNodes).1.assemble
              (d.evaluate paramCoef rhs basis evaluateAt quNodes).2 quWeights).localMat
        ∧ ((d2.evaluate paramCoef rhs basis evaluateAt quNodes).1.assemble
          (d2.evaluate paramCoef rhs basis evaluateAt quNodes).2 quWeights).localRhs
          = ((d.evaluate paramCoef rhs basis evaluateAt quNodes).1.assemble
              (d.evaluate paramCoef rhs basis evaluateAt quNodes).2 quWeights).localRhs) := by
  have hdata : ∀ d1 : gsVisitorPoissonSized R,
      ((d1.evaluate paramCoef rhs basis evaluateAt quNodes).1.assemble
          (d1.evaluate paramCoef rhs basis evaluateAt quNodes).2 quWeights).toData
        = (d1.toData.evaluate paramCoef (fun x => (rhs x).coeff) basis evaluateAt quNodes).1.assemble
            (d1.toData.evaluate paramCoef (fun x => (rhs x).coeff) basis evaluateAt quNodes).2
            quWeights := by
    intro d1
    unfold gsVisitorPoissonSized.assemble gsVisitorPoissonData.assemble
    rw [(assembleFold_toData _ quWeights _ _).1, (evaluate_toData d1 _ _ _ _ _).1,
      (evaluate_toData d1 _ _ _ _ _).2]
  have hmat : ∀ (d1 : gsVisitorPoissonSized R) (i j : Nat),
      ((d1.evaluate paramCoef rhs basis evaluateAt quNodes).1.assemble
        (d1.evaluate paramCoef rhs basis evaluateAt quNodes).2 quWeights).localMat.coeff i j
      = ∑ k in Finset.range quWeights.length,
          (quWeights.getD k 0 * (evaluateAt quNodes).measure k)
            * ∑ g in Finset.range (evaluateAt quNodes).gradRows,
                (evaluateAt quNodes).transformGradients k (basis.evalAllDers_into quNodes).2 g i
                  * (evaluateAt quNodes).transformGradients k
                      (basis.evalAllDers_into quNodes).2 g j := by
    intro d1 i j
    have h := evaluate_assemble_localMat d1.toData paramCoef (fun x => (rhs x).coeff) basis
      evaluateAt quNodes quWeights i j
    rw [← hdata d1] at h
    exact h
  have hrhs : ∀ (d1 : gsVisitorPoissonSized R) (i c : Nat),
      ((d1.evaluate paramCoef rhs basis evaluateAt quNodes).1.assemble
        (d1.evaluate paramCoef rhs basis evaluateAt quNodes).2 quWeights).localRhs.coeff i c
      = ∑ k in Finset.range quWeights.length,
          (quWeights.getD k 0 * (evaluateAt quNodes).measure k)
            * ((basis.evalAllDers_into quNodes).1 i k
                * (rhs (if paramCoef then quNodes else (evaluateAt quNodes).values)).coeff c k) := by
    intro d1 i c
    have h := evaluate_assemble_localRhs d1.toData paramCoef (fun x => (rhs x).coeff) basis
      evaluateAt quNodes quWeights i c
    rw [← hdata d1] at h
    exact h
  have hsize : ∀ d1 : gsVisitorPoissonSized R,
      ((d1.evaluate paramCoef rhs basis evaluateAt quNodes).1.assemble
          (d1.evaluate paramCoef rhs basis evaluateAt quNodes).2 quWeights).numActive
        = (basis.active_into (fun r _ => quNodes r 0)).1
      ∧ ((d1.evaluate paramCoef rhs basis evaluateAt quNodes).1.assemble
          (d1.evaluate paramCoef rhs basis evaluateAt quNodes).2 quWeights).rhsVals
        = rhs (if paramCoef then quNodes else (evaluateAt quNodes).values)
      ∧ ((d1.evaluate paramCoef rhs basis evaluateAt quNodes).1.assemble
          (d1.evaluate paramCoef rhs basis evaluateAt quNodes).2 quWeights).localMat.rows
        = (basis.active_into (fun r _ => quNodes r 0)).1
      ∧ ((d1.evaluate paramCoef rhs basis evaluateAt quNodes).1.assemble
          (d1.evaluate paramCoef rhs basis evaluateAt quNodes).2 quWeights).localMat.cols
        = (basis.active_into (fun r _ => quNodes r 0)).1
      ∧ ((d1.evaluate paramCoef rhs basis evaluateAt quNodes).1.assemble
          (d1.evaluate paramCoef rhs basis evaluateAt quNodes).2 quWeights).localRhs.rows
        = (basis.active_into (fun r _ => quNodes r 0)).1
      ∧ ((d1.evaluate paramCoef rhs basis evaluateAt quNodes).1.assemble
          (d1.evaluate paramCoef rhs basis evaluateAt quNodes).2 quWeights).localRhs.cols
        = (rhs (if paramCoef then quNodes else (evaluateAt quNodes).values)).rows := by
    intro d1
    obtain ⟨_, h2, h3, h4, h5, h6, h7⟩ := assembleFold_toData
      (d1.evaluate paramCoef rhs basis evaluateAt quNodes).2 quWeights
      (List.range quWeights.length) (d1.evaluate paramCoef rhs basis evaluateAt quNodes).1
    unfold gsVisitorPoissonSized.assemble
    rw [h2, h3, h4, h5, h6, h7]
    exact ⟨rfl, rfl, rfl, rfl, rfl, rfl⟩
  have hext : ∀ a b : gsSizedMatrix R, a.rows = b.rows → a.cols = b.cols →
      (∀ i j, a.coeff i j = b.coeff i j) → a = b := by
    intro a b h1 h2 h3
    cases a
    cases b
    simp only [gsSizedMatrix.mk.injEq]
    exact ⟨h1, h2, funext fun i => funext fun j => h3 i j⟩
  refine ⟨hmat d, hrhs d, hsize d, fun d2 => ⟨hext _ _ ?_ ?_ ?_, hext _ _ ?_ ?_ ?_⟩⟩
  · rw [(hsize d2).2.2.1, (hsize d).2.2.1]
  · rw [(hsize d2).2.2.2.1, (hsize d).2.2.2.1]
  · intro i j
    rw [hmat d2, hmat d]
  · rw [(hsize d2).2.2.2.2.1, (hsize d).2.2.2.2.1]
  · rw [(hsize d2).2.2.2.2.2, (hsize d).2.2.2.2.2]
  · intro i c
    rw [hrhs d2, hrhs d]

/-- Instance of C22: a visitor that holds 3 x 3 and 3 x 2 matrices of a previous
element is evaluated and assembled on an element with two active functions,
three nodes and one right-hand side: `localMat` is 2 x 2, `localRhs` is 2 x 1,
and the entries are the sums over the three nodes. -/
theorem evaluate_assemble_sums_example :
    ((TwoDofElement.usedVisitor.evaluate true (fun _ => ⟨1, 3, fun _ k => (k : Int) + 1⟩)
        TwoDofElement.twoActive (fun _ => TwoDofElement.unitEvaluator) (fun _ _ => 0)).1.assemble
      TwoDofElement.unitEvaluator [1, 2, 1]).localMat.rows = 2
    ∧ ((TwoDofElement.usedVisitor.evaluate true (fun _ => ⟨1, 3, fun _ k => (k : Int) + 1⟩)
        TwoDofElement.twoActive (fun _ => TwoDofElement.unitEvaluator) (fun _ _ => 0)).1.assemble
      TwoDofElement.unitEvaluator [1, 2, 1]).localMat.cols = 2
    ∧ ((TwoDofElement.usedVisitor.evaluate true (fun _ => ⟨1, 3, fun _ k => (k : Int) + 1⟩)
        TwoDofElement.twoActive (fun _ => TwoDofElement.unitEvaluator) (fun _ _ => 0)).1.assemble
      TwoDofElement.unitEvaluator [1, 2, 1]).localRhs.rows = 2
    ∧ ((TwoDofElement.usedVisitor.evaluate true (fun _ => ⟨1, 3, fun _ k => (k : Int) + 1⟩)
        TwoDofElement.twoActive (fun _ => TwoDofElement.unitEvaluator) (fun _ _ => 0)).1.assemble
      TwoDofElement.unitEvaluator [1, 2, 1]).localRhs.cols = 1
    ∧ ((TwoDofElement.usedVisitor.evaluate true (fun _ => ⟨1, 3, fun _ k => (k : Int) + 1⟩)
        TwoDofElement.twoActive (fun _ => TwoDofElement.unitEvaluator) (fun _ _ => 0)).1.assemble
      TwoDofElement.unitEvaluator [1, 2, 1]).localMat.coeff 0 1 = 10
    ∧ ((TwoDofElement.usedVisitor.evaluate true (fun _ => ⟨1, 3, fun _ k => (k : Int) + 1⟩)
        TwoDofElement.twoActive (fun _ => TwoDofElement.unitEvaluator) (fun _ _ => 0)).1.assemble
      TwoDofElement.unitEvaluator [1, 2, 1]).localRhs.coeff 1 0 = 16 := by
  decide

/-- C29: the local matrix that `evaluate` followed by `assemble` produces is
symmetric, `localMat(i,j) = localMat(j,i)` for all indices, in exact arithmetic,
for every basis, geometry evaluator, set of nodes and weights. -/
theorem evaluate_assemble_symmetric (d : gsVisitorPoissonData R) (paramCoef : Bool)
    (rhs : gsMatrix R → gsMatrix R) (basis : gsBasis R)
    (evaluateAt : gsMatrix R → gsGeometryEvaluator R) (quNodes : gsMatrix R)
    (quWeights : List R) (i j : Nat) :
    ((d.evaluate paramCoef rhs basis evaluateAt quNodes).1.assemble
        (d.evaluate paramCoef rhs basis evaluateAt quNodes).2 quWeights).localMat i j
      = ((d.evaluate paramCoef rhs basis evaluateAt quNodes).1.assemble
        (d.evaluate paramCoef rhs basis evaluateAt quNodes).2 quWeights).localMat j i := by
  rw [evaluate_assemble_localMat, evaluate_assemble_localMat]
  refine Finset.sum_congr rfl (fun k _ => ?_)
  congr 1
  exact Finset.sum_congr rfl (fun g _ => mul_comm _ _)

end AssembleSums

section EmptyTopologyClaims

/-- C23: on a topology of zero patches `addAutoBoundaries` returns normally and
returns the topology as it was, boundary sides and interfaces included, while
`firstPatchSide` on the same topology fails with "cannot iterate, no patches". -/
theorem addAutoBoundaries_empty (t : gsBoxTopology) (h : t.nboxes = 0) :
    t.addAutoBoundaries = .ok t ∧ t.firstPatchSide = .error .cannotIterate := by
  constructor
  · rw [addAutoBoundaries_eq, if_pos h]
  · unfold gsBoxTopology.firstPatchSide
    rw [if_pos h]

theorem addAutoBoundaries_empty_witness :
    noPatches.nboxes = 0
    ∧ noPatches.addAutoBoundaries = .ok noPatches
    ∧ noPatches.firstPatchSide = .error .cannotIterate :=
  ⟨rfl, addAutoBoundaries_empty noPatches rfl⟩

end EmptyTopologyClaims

section ConsistencyReportClaims

/-- With a signed `nboxes` a patch index below zero is compared as it is: the
boundary side of patch `-1` and the interface side of patch `-2` of
`negativePatches` are not reported; with an unsigned `nboxes` both are. -/
theorem checkConsistency_negative_patch :
    negativePatches.checkConsistency false = []
    ∧ negativePatches.checkConsistency true
        = [Warning.boundaryOutOfRange (-1), Warning.interfaceOutOfRange (-2) 0] := by
  decide

end ConsistencyReportClaims
section ExclusiveClassification

theorem isBoundary_iff_mem (t : gsBoxTopology) (ps : patch_side) :
    t.isBoundary ps = true ↔ ps ∈ t.m_boundary := by
  unfold gsBoxTopology.isBoundary
  simp [List.any_eq_true]

/-- Marking one side keeps the classification exclusive and the boundary list
free of repetitions, and adds only a side that was unclassified. -/
theorem markSide_exclusive (t : gsBoxTopology) (ps : patch_side)
    (hx : t.boundaryNotInterface) (hn : t.m_boundary.Nodup) :
    (t.markSide ps).boundaryNotInterface ∧ (t.markSide ps).m_boundary.Nodup
      ∧ ∀ q ∈ (t.markSide ps).m_boundary, q ∈ t.m_boundary
          ∨ (q = ps ∧ t.isBoundary q = false ∧ t.isInterface q = false) := by
  unfold gsBoxTopology.markSide
  by_cases h : (t.isBoundary ps || t.isInterface ps) = true
  · rw [if_pos h]
    exact ⟨hx, hn, fun q hq => Or.inl hq⟩
  · rw [if_neg h]
    simp only [Bool.or_eq_true, not_or, Bool.not_eq_true] at h
    obtain ⟨hb, hi⟩ := h
    have hnot : ps ∉ t.m_boundary := by
      intro hm
      rw [(isBoundary_iff_mem t ps).2 hm] at hb
      cases hb
    refine ⟨?_, ?_, ?_⟩
    · intro q hq
      rw [isBoundary_iff_mem] at hq
      simp only [List.mem_append, List.mem_singleton] at hq
      rcases hq with hq | rfl
      · exact hx q ((isBoundary_iff_mem t q).2 hq)
      · exact hi
    · rw [List.nodup_append]
      refine ⟨hn, List.nodup_singleton _, ?_⟩
      intro a ha hb2
      rw [List.mem_singleton] at hb2
      exact hnot (hb2 ▸ ha)
    · intro q hq
      simp only [List.mem_append, List.mem_singleton] at hq
      rcases hq with hq | rfl
      · exact Or.inl hq
      · exact Or.inr ⟨rfl, hb, hi⟩

theorem markAll_exclusive (l : List patch_side) :
    ∀ (t : gsBoxTopology), t.boundaryNotInterface → t.m_boundary.Nodup →
      (l.foldl gsBoxTopology.markSide t).boundaryNotInterface
        ∧ (l.foldl gsBoxTopology.markSide t).m_boundary.Nodup
        ∧ ∀ q ∈ (l.foldl gsBoxTopology.markSide t).m_boundary, q ∈ t.m_boundary
            ∨ (q ∈ l ∧ t.isBoundary q = false ∧ t.isInterface q = false) := by
  induction l with
  | nil => intro t hx hn; exact ⟨hx, hn, fun q hq => Or.inl hq⟩
  | cons x l ih =>
    intro t hx hn
    obtain ⟨h1, h2, h3⟩ := markSide_exclusive t x hx hn
    obtain ⟨k1, k2, k3⟩ := ih (t.markSide x) h1 h2
    rw [List.foldl_cons]
    refine ⟨k1, k2, ?_⟩
    intro q hq
    rcases k3 q hq with hq | ⟨hq, hb, hi⟩
    · rcases h3 q hq with hq | ⟨rfl, hb, hi⟩
      · exact Or.inl hq
      · exact Or.inr ⟨List.mem_cons_self _ _, hb, hi⟩
    · by_cases hm : q ∈ t.m_boundary
      · exact Or.inl hm
      · refine Or.inr ⟨List.mem_cons_of_mem _ hq, ?_, ?_⟩
        · cases hbq : t.isBoundary q with
          | false => rfl
          | true => exact absurd ((isBoundary_iff_mem t q).1 hbq) hm
        · rw [← isInterface_congr t _ (markSide_interfaces t x)]
          exact hi

/-- The result of `addAutoBoundaries` keeps an exclusive classification
exclusive. -/
theorem addAutoBoundaries_exclusive (t : gsBoxTopology) (hx : t.boundaryNotInterface)
    (hn : t.m_boundary.Nodup) :
    ∃ u, t.addAutoBoundaries = .ok u ∧ u.m_interfaces = t.m_interfaces
      ∧ u.boundaryNotInterface ∧ u.m_boundary.Nodup
      ∧ (∀ q ∈ u.m_boundary, q ∈ t.m_boundary
          ∨ (q ∈ t.visitedSides ∧ t.isBoundary q = false ∧ t.isInterface q = false)) := by
  rw [addAutoBoundaries_eq]
  by_cases h : t.nboxes = 0
  · rw [if_pos h]
    exact ⟨t, rfl, rfl, hx, hn, fun q hq => Or.inl hq⟩
  · rw [if_neg h]
    obtain ⟨k1, k2, k3⟩ := markAll_exclusive t.visitedSides t hx hn
    exact ⟨_, rfl, markAll_interfaces _ _, k1, k2, k3⟩

end ExclusiveClassification

section ExclusiveClassificationClaims

/-- C25: if no patch side is both a boundary side and a member of an interface
and no side is listed twice among the boundary sides, `addAutoBoundaries`
returns a topology with the same interfaces of which the same holds; every
boundary side of the result was a boundary side before or was neither a
boundary side nor a member of an interface, so that no interface member is
marked and no boundary side is added again. -/
theorem addAutoBoundaries_keeps_exclusive (t : gsBoxTopology) (hx : t.boundaryNotInterface)
    (hn : t.m_boundary.Nodup) :
    ∃ u, t.addAutoBoundaries = .ok u ∧ u.m_interfaces = t.m_interfaces
      ∧ u.boundaryNotInterface ∧ u.m_boundary.Nodup
      ∧ (∀ q ∈ u.m_boundary, q ∈ t.m_boundary
          ∨ (t.isBoundary q = false ∧ t.isInterface q = false)) := by
  obtain ⟨u, h1, h2, h3, h4, h5⟩ := addAutoBoundaries_exclusive t hx hn
  refine ⟨u, h1, h2, h3, h4, ?_⟩
  intro q hq
  rcases h5 q hq with h | ⟨-, hb, hi⟩
  · exact Or.inl h
  · exact Or.inr ⟨hb, hi⟩

theorem addAutoBoundaries_keeps_exclusive_witness :
    threePatchesPartial.boundaryNotInterface ∧ threePatchesPartial.m_boundary.Nodup
    ∧ ∃ u, threePatchesPartial.addAutoBoundaries = .ok u
      ∧ u.m_interfaces = threePatchesPartial.m_interfaces
      ∧ u.boundaryNotInterface ∧ u.m_boundary.Nodup
      ∧ (∀ q ∈ u.m_boundary, q ∈ threePatchesPartial.m_boundary
          ∨ (threePatchesPartial.isBoundary q = false
              ∧ threePatchesPartial.isInterface q = false)) :=
  have hx : threePatchesPartial.boundaryNotInterface := by
    intro q hq
    rw [isBoundary_iff_mem] at hq
    simp only [threePatchesPartial, List.mem_cons, List.mem_singleton, List.not_mem_nil,
      or_false] at hq
    rcases hq with rfl | rfl <;> rfl
  have hn : threePatchesPartial.m_boundary.Nodup := by decide
  ⟨hx, hn, addAutoBoundaries_keeps_exclusive threePatchesPartial hx hn⟩

end ExclusiveClassificationClaims

section NeighbourInvolution

theorem isInterface_iff_interfaceOf (t : gsBoxTopology) (ps : patch_side) :
    t.isInterface ps = true ↔ ∃ I, t.interfaceOf ps = some I := by
  rw [isInterface_iff]
  constructor
  · rintro ⟨J, hJ, hc⟩
    cases hf : t.interfaceOf ps with
    | none =>
      unfold gsBoxTopology.interfaceOf at hf
      rw [List.find?_eq_none] at hf
      have := hf J hJ
      simp only [Bool.or_eq_true, beq_iff_eq] at this
      exact absurd hc this
    | some I => exact ⟨I, rfl⟩
  · rintro ⟨I, hI⟩
    obtain ⟨h1, h2⟩ := interfaceOf_some t ps I hI
    exact ⟨I, h1, h2⟩

/-- C27: in a topology in which each patch side belongs to at most one
interface, whenever `getNeighbour(ps, result)` returns `true` with `q` in
`result`, `getNeighbour(q, result2)` returns `true` with `ps`; and in every
topology `getNeighbour(ps, result)` returns `true` exactly when
`isInterface(ps)` is `true`. -/
theorem getNeighbour_involution (t : gsBoxTopology) (h1 : t.oneInterfacePerSide)
    (ps result result2 : patch_side) :
    (∀ q, t.getNeighbour ps result = (true, q) → t.getNeighbour q result2 = (true, ps))
    ∧ ((t.getNeighbour ps result).1 = true ↔ t.isInterface ps = true) := by
  constructor
  · intro q hq
    rw [getNeighbour_interfaceOf] at hq
    cases hI : t.interfaceOf ps with
    | none => rw [hI] at hq; cases hq
    | some I =>
      rw [hI] at hq
      simp only [Prod.mk.injEq, true_and] at hq
      obtain ⟨hIm, hIs⟩ := interfaceOf_some t ps I hI
      have hqI : I.ps1 = q ∨ I.ps2 = q := by
        rw [← hq]
        unfold boundaryInterface.otherSide
        by_cases e : I.ps1 = ps
        · rw [if_pos e]; exact Or.inr rfl
        · rw [if_neg e]; exact Or.inl rfl
      rw [getNeighbour_interfaceOf]
      cases hJ : t.interfaceOf q with
      | none =>
        unfold gsBoxTopology.interfaceOf at hJ
        rw [List.find?_eq_none] at hJ
        have := hJ I hIm
        simp only [Bool.or_eq_true, beq_iff_eq] at this
        exact absurd hqI this
      | some J =>
        obtain ⟨hJm, hJs⟩ := interfaceOf_some t q J hJ
        have hJI : J = I := by
          refine h1 J hJm I hIm ?_
          rcases hJs with e | e <;> rcases hqI with e2 | e2
          · exact Or.inl (e.trans e2.symm)
          · exact Or.inr (Or.inl (e.trans e2.symm))
          · exact Or.inr (Or.inr (Or.inl (e.trans e2.symm)))
          · exact Or.inr (Or.inr (Or.inr (e.trans e2.symm)))
        subst hJI
        simp only [Prod.mk.injEq, true_and]
        rw [← hq]
        unfold boundaryInterface.otherSide
        by_cases e : J.ps1 = ps
        · rw [if_pos e]
          by_cases e2 : J.ps1 = J.ps2
          · rw [if_pos e2, ← e2, e]
          · rw [if_neg e2, e]
        · rw [if_neg e, if_pos rfl]
          rcases hIs with e3 | e3
          · exact absurd e3 e
          · exact e3
  · rw [getNeighbour_interfaceOf, isInterface_iff_interfaceOf]
    cases t.interfaceOf ps <;> simp

theorem getNeighbour_involution_witness :
    threePatches.oneInterfacePerSide
    ∧ (∀ q, threePatches.getNeighbour ⟨0, 2⟩ ⟨0, 0⟩ = (true, q) →
        threePatches.getNeighbour q ⟨0, 0⟩ = (true, ⟨0, 2⟩))
    ∧ ((threePatches.getNeighbour ⟨0, 2⟩ ⟨0, 0⟩).1 = true
        ↔ threePatches.isInterface ⟨0, 2⟩ = true)
    ∧ threePatches.getNeighbour ⟨0, 2⟩ ⟨0, 0⟩ = (true, ⟨1, 1⟩) :=
  have h1 : threePatches.oneInterfacePerSide := by
    unfold gsBoxTopology.oneInterfacePerSide
    decide
  ⟨h1, (getNeighbour_involution threePatches h1 ⟨0, 2⟩ ⟨0, 0⟩ ⟨0, 0⟩).1,
    (getNeighbour_involution threePatches h1 ⟨0, 2⟩ ⟨0, 0⟩ ⟨0, 0⟩).2, by decide⟩

/-- A list of interface sides without repetition has at most one interface per side. -/
theorem oneInterfacePerSide_of_sidesInOneInterface (t : gsBoxTopology)
    (h : t.sidesInOneInterface) : t.oneInterfacePerSide := by
  intro I hI J hJ hs
  exact (nodup_ends _ h J hJ).2 I hI hs

end NeighbourInvolution

section IntegerPower

theorem wrapInt_emod (z : Int) : wrapInt z % 4294967296 = z % 4294967296 := by
  unfold wrapInt
  omega

theorem wrapInt_range (z : Int) : -2147483648 ≤ wrapInt z ∧ wrapInt z < 2147483648 := by
  unfold wrapInt
  omega

theorem wrapInt_of_range (z : Int) (h1 : -2147483648 ≤ z) (h2 : z < 2147483648) :
    wrapInt z = z := by
  unfold wrapInt
  omega

theorem wrapInt_congr (a b : Int) (h : a % 4294967296 = b % 4294967296) :
    wrapInt a = wrapInt b := by
  unfold wrapInt
  omega

theorem wrapInt_modEq (z : Int) : wrapInt z ≡ z [ZMOD 4294967296] := wrapInt_emod z

/-- With enough passes the loop of `ipow` returns `result * x^exp` in
wrap-around arithmetic. -/
theorem ipowLoop_eq (fuel : Nat) :
    ∀ (result x : Int) (exp : Nat), exp < 2 ^ fuel → wrapInt result = result →
      math.ipowLoop (fuel + 1) result x exp = .ok (wrapInt (result * x ^ exp)) := by
  induction fuel with
  | zero =>
    intro result x exp he hr
    have h0 : exp = 0 := by simpa using he
    subst h0
    rw [math.ipowLoop, if_pos rfl, pow_zero, mul_one, hr]
  | succ n ih =>
    intro result x exp he hr
    rw [math.ipowLoop]
    by_cases h0 : exp = 0
    · subst h0
      rw [if_pos rfl, pow_zero, mul_one, hr]
    · rw [if_neg h0]
      have hlt : exp / 2 < 2 ^ n := by
        rw [pow_succ] at he
        omega
      have hx : wrapInt (x * x) ≡ x * x [ZMOD 4294967296] := wrapInt_modEq _
      have hpow : wrapInt (x * x) ^ (exp / 2) ≡ x ^ (2 * (exp / 2)) [ZMOD 4294967296] := by
        rw [pow_mul, pow_two]
        exact hx.pow _
      by_cases hodd : exp % 2 = 1
      · rw [if_pos hodd, ih _ _ _ hlt (wrapInt_of_range _ (wrapInt_range _).1 (wrapInt_range _).2)]
        congr 1
        apply wrapInt_congr
        have he2 : exp = 2 * (exp / 2) + 1 := by omega
        have : wrapInt (result * x) * wrapInt (x * x) ^ (exp / 2)
            ≡ (result * x) * x ^ (2 * (exp / 2)) [ZMOD 4294967296] :=
          (wrapInt_modEq _).mul hpow
        have e : result * x ^ exp = (result * x) * x ^ (2 * (exp / 2)) := by
          conv_lhs => rw [he2]
          ring
        rw [e]
        exact this
      · rw [if_neg hodd, ih _ _ _ hlt hr]
        congr 1
        apply wrapInt_congr
        have he2 : exp = 2 * (exp / 2) := by omega
        have : result * wrapInt (x * x) ^ (exp / 2)
            ≡ result * x ^ (2 * (exp / 2)) [ZMOD 4294967296] :=
          (Int.ModEq.refl result).mul hpow
        rw [← he2] at this
        exact this

end IntegerPower

section IntegerPowerClaims

/-- C26: for every `int x` and every `unsigned exp` (below `2^32`) `math::ipow`
returns, and its value is the power `x^exp` in wrap-around arithmetic: the
`int` congruent to `x^exp` modulo `2^32`, which is `x^exp` itself whenever
`x^exp` lies in the range of `int`; and `ipow(x, 0)` is `1` for every `x`, `0`
included. -/
theorem ipow_spec (x : Int) (exp : Nat) (he : exp < 2 ^ 32) :
    math.ipow x exp = .ok (wrapInt (x ^ exp))
    ∧ wrapInt (x ^ exp) % 2 ^ 32 = x ^ exp % 2 ^ 32
    ∧ (-(2 ^ 31) ≤ x ^ exp → x ^ exp < 2 ^ 31 → math.ipow x exp = .ok (x ^ exp))
    ∧ math.ipow x 0 = .ok 1 := by
  have h := ipowLoop_eq 32 1 x exp he (by decide)
  rw [one_mul] at h
  refine ⟨h, ?_, ?_, rfl⟩
  · have := wrapInt_emod (x ^ exp)
    norm_num
    exact this
  · intro h1 h2
    unfold math.ipow
    rw [h, wrapInt_of_range _ (by norm_num at h1 ⊢; exact h1) (by norm_num at h2 ⊢; exact h2)]

theorem ipow_spec_witness :
    3 < 2 ^ 32
    ∧ math.ipow (-5) 3 = .ok (wrapInt ((-5) ^ 3))
    ∧ wrapInt ((-5) ^ 3) % 2 ^ 32 = (-5) ^ 3 % 2 ^ 32
    ∧ (-(2 ^ 31) ≤ ((-5) ^ 3 : Int) → ((-5) ^ 3 : Int) < 2 ^ 31 → math.ipow (-5) 3 = .ok ((-5) ^ 3))
    ∧ math.ipow (-5) 0 = .ok 1 :=
  ⟨by decide, ipow_spec (-5) 3 (by decide)⟩

end IntegerPowerClaims
section IntegerPowerInstances

theorem ipow_examples :
    math.ipow 2 10 = .ok 1024 ∧ math.ipow 0 0 = .ok 1 ∧ math.ipow 2 31 = .ok (-2147483648)
    ∧ math.ipow 65536 2 = .ok 0 ∧ math.ipow (-3) 3 = .ok (-27) := by
  decide

end IntegerPowerInstances

section RoundingClaims

theorem round_of_nonneg (a : ℚ) (h : 0 ≤ a) : math.round a = (Int.floor (a + 1 / 2) : ℚ) := by
  unfold math.round
  rw [if_neg (not_lt.2 h)]

theorem round_of_neg (a : ℚ) (h : a < 0) : math.round a = (Int.floor (a - 1 / 2) : ℚ) := by
  unfold math.round
  rw [if_pos h]

/-- C30 fails below zero: `math::round(-1)` is `-2`, at distance 1 from `-1`, and
`math::round(-3/10)` is `-1`, at distance `7/10`; for every negative integer `n`
the value is `n - 1`, and for every negative `a` the value is at most
`a - 1/2`.  From zero on the function is the nearest integer with halves
rounded up. -/
theorem round_below_zero_is_off :
    math.round (-1) = -2
    ∧ |math.round (-1) - (-1)| = 1
    ∧ math.round (-3 / 10) = -1
    ∧ (∀ n : Int, n < 0 → math.round (n : ℚ) = (n : ℚ) - 1)
    ∧ (∀ a : ℚ, a < 0 → math.round a ≤ a - 1 / 2)
    ∧ (∀ a : ℚ, 0 ≤ a → |math.round a - a| ≤ 1 / 2)
    ∧ (∀ n : Int, 0 ≤ n → math.round (n : ℚ) = (n : ℚ)) := by
  have hneg : ∀ n : Int, n < 0 → math.round (n : ℚ) = (n : ℚ) - 1 := by
    intro n hn
    rw [round_of_neg _ (by exact_mod_cast hn)]
    have : Int.floor ((n : ℚ) - 1 / 2) = n - 1 := by
      rw [Int.floor_eq_iff]
      constructor
      · push_cast; linarith
      · push_cast; linarith
    rw [this]
    push_cast
    rfl
  have h1 : math.round (-1) = -2 := by
    have := hneg (-1) (by decide)
    norm_num at this
    exact this
  refine ⟨h1, ?_, ?_, hneg, ?_, ?_, ?_⟩
  · rw [h1]
    norm_num
  · rw [round_of_neg _ (by norm_num)]
    have : Int.floor ((-3 / 10 : ℚ) - 1 / 2) = -1 := by
      rw [Int.floor_eq_iff]
      constructor <;> norm_num
    rw [this]
    norm_num
  · intro a ha
    rw [round_of_neg a ha]
    exact Int.floor_le _
  · intro a ha
    rw [round_of_nonneg a ha, abs_le]
    have h1 := Int.floor_le (a + 1 / 2)
    have h2 := Int.lt_floor_add_one (a + 1 / 2)
    constructor <;> linarith
  · intro n hn
    rw [round_of_nonneg _ (by exact_mod_cast hn)]
    have : Int.floor ((n : ℚ) + 1 / 2) = n := by
      rw [Int.floor_eq_iff]
      constructor <;> linarith
    rw [this]

end RoundingClaims

section SideCount

end SideCount

section SideCountClaims

end SideCountClaims

section ThreeAtVertex

theorem mem_getPatchSides_valid (c : patch_corner) (s : patch_side) (hc : validCorner c)
    (hs : s ∈ getPatchSides c 2) : validState (c, s) ∧ validSide s ∧ s.patch = c.patch := by
  refine ⟨⟨hc, hs⟩, (validState_pars (c, s) ⟨hc, hs⟩).1, ?_⟩
  rw [getPatchSides_two] at hs
  simp only [List.mem_cons, List.mem_singleton, List.not_mem_nil, or_false] at hs
  rcases hs with rfl | rfl <;> rfl

/-- Crossing an interface that glues a side at `a` to a side at `b`, in both
directions. -/
theorem crossState_of_gluesAt (t : gsBoxTopology) (h1 : t.sidesInOneInterface)
    (I : boundaryInterface) (hI : I ∈ t.m_interfaces) (a b : patch_corner)
    (ha : validCorner a) (hb : validCorner b) (hg : I.gluesAt a b) :
    t.crossState (a, I.ps1) = some (b, otherSideAt b I.ps2)
    ∧ t.crossState (b, I.ps2) = some (a, otherSideAt a I.ps1) := by
  obtain ⟨hs1, hs2, ho⟩ := hg
  have hne := (nodup_ends _ h1 I hI).1
  obtain ⟨-, hp1, hq1⟩ := validState_pars (a, I.ps1) ⟨ha, hs1⟩
  obtain ⟨-, hp2, hq2⟩ := validState_pars (b, I.ps2) ⟨hb, hs2⟩
  simp only at hp1 hq1 hp2 hq2
  obtain ⟨qa, hqa⟩ : ∃ qa, getParsOnSide a I.ps1 2 = [qa] := ⟨_, hp1⟩
  obtain ⟨qb, hqb⟩ : ∃ qb, getParsOnSide b I.ps2 2 = [qb] := ⟨_, hp2⟩
  rw [hqa] at hq1 ho
  rw [hqb] at hq2 ho
  simp only [List.headD_cons] at hq1 hq2
  have e1 : t.interfaceOf I.ps1 = some I := interfaceOf_of_mem t h1 _ I hI (Or.inl rfl)
  have e2 : t.interfaceOf I.ps2 = some I := interfaceOf_of_mem t h1 _ I hI (Or.inr rfl)
  have o1 : I.otherSide I.ps1 = I.ps2 := by simp [boundaryInterface.otherSide]
  have o2 : I.otherSide I.ps2 = I.ps1 := by
    unfold boundaryInterface.otherSide
    rw [if_neg hne]
  have f1 : (if I.orient.headD true then qa else !qa) = qb := by
    rw [ho]
    cases qa <;> cases qb <;> simp
  have f2 : (if I.orient.headD true then qb else !qb) = qa := by
    rw [ho]
    cases qa <;> cases qb <;> simp
  constructor
  · unfold gsBoxTopology.crossState
    simp only [e1, o1, hqa, List.headD_cons, f1]
    unfold arrive
    rw [hq2]
  · unfold gsBoxTopology.crossState
    simp only [e2, o2, hqb, List.headD_cons, f2]
    unfold arrive
    rw [hq1]

/-- Crossing an interface that joins the corners `a` and `b`: the side `sa` of the
interface at `a` leads to `b`, seen from the side other than the side `sb` of
the interface at `b`, and back. -/
theorem crossState_of_joins (t : gsBoxTopology) (h1 : t.sidesInOneInterface)
    (I : boundaryInterface) (hI : I ∈ t.m_interfaces) (a b : patch_corner)
    (ha : validCorner a) (hb : validCorner b) (hj : I.joins a b) :
    ∃ sa sb, sa ∈ getPatchSides a 2 ∧ sb ∈ getPatchSides b 2
      ∧ (∀ s, s = I.ps1 ∨ s = I.ps2 ↔ s = sa ∨ s = sb)
      ∧ t.crossState (a, sa) = some (b, otherSideAt b sb)
      ∧ t.crossState (b, sb) = some (a, otherSideAt a sa) := by
  rcases hj with hg | hg
  · obtain ⟨c1, c2⟩ := crossState_of_gluesAt t h1 I hI a b ha hb hg
    exact ⟨I.ps1, I.ps2, hg.1, hg.2.1, fun s => Iff.rfl, c1, c2⟩
  · obtain ⟨c1, c2⟩ := crossState_of_gluesAt t h1 I hI b a hb ha hg
    exact ⟨I.ps2, I.ps1, hg.2.1, hg.1, fun s => Or.comm, c2, c1⟩

end ThreeAtVertex
section ThreeAtVertexWalk

/-- Three crossings that lead back to the start corner: the walk is closed and
its list holds the three corners passed. -/
theorem getCornerList_three_crossings (t : gsBoxTopology) (hd : t.m_dim = 2)
    (hv : t.interfacesValid) (h1 : t.sidesInOneInterface) (start : patch_corner)
    (p0 p1 : patch_side) (hps : getPatchSides start 2 = [p0, p1])
    (hx : validState (start, p0)) (y1 y2 y3 : WalkState)
    (hy1 : t.crossState (start, p0) = some y1) (hy2 : t.crossState y1 = some y2)
    (hy3 : t.crossState y2 = some y3) (n1 : y1.1 ≠ start) (n2 : y2.1 ≠ start)
    (n3 : y3.1 = start) (k : Nat) :
    t.getCornerList (3 + k) start = .ok (true, [start, y1.1, y2.1]) := by
  refine getCornerList_mono t 3 k start _ ?_
  have hv1 := (crossState_some t hv h1 _ y1 hx hy1).1
  have hv2 := (crossState_some t hv h1 _ y2 hv1 hy2).1
  obtain ⟨w1, hb1, hc1, hs1, -, hf1⟩ := cornerListBody_cross t hd hv h1 start
    { cornerList := [], curSide := p0, endSide := p1, neighbour := ⟨0, 0⟩,
      curCorner := start, orient := [], firstTurn := true } y1 hx hy1
  have hl1 := cornerListBody_cornerList t start _ w1 false hb1
  have e1 : (w1.curCorner, w1.curSide) = y1 := by rw [hc1, hs1]
  obtain ⟨w2, hb2, hc2, hs2, -, hf2⟩ := cornerListBody_cross t hd hv h1 start w1 y2
    (by rw [e1]; exact hv1) (by rw [e1]; exact hy2)
  have hl2 := cornerListBody_cornerList t start _ w2 false hb2
  have e2 : (w2.curCorner, w2.curSide) = y2 := by rw [hc2, hs2]
  obtain ⟨w3, hb3, hc3, hs3, -, hf3⟩ := cornerListBody_cross t hd hv h1 start w2 y3
    (by rw [e2]; exact hv2) (by rw [e2]; exact hy3)
  have hl3 := cornerListBody_cornerList t start _ w3 false hb3
  rw [getCornerList_eq_walk]
  unfold gsBoxTopology.getCornerListWalk
  rw [if_neg (by simp [hd]), hd, hps]
  simp only
  rw [gsBoxTopology.getCornerListRun, hb1]
  simp only
  rw [if_neg (by rw [hc1]; exact n1), gsBoxTopology.getCornerListRun, hb2]
  simp only
  rw [if_neg (by rw [hc2]; exact n2), gsBoxTopology.getCornerListRun, hb3]
  simp only
  rw [if_pos (by rw [hc3]; exact n3)]
  simp only [Except.map]
  rw [hf3, hf2, hf1, hl3, hl2, hl1, hc1, hc2]
  rfl

/-- A pass of the loop that leaves `firstTurn` set has crossed an interface. -/
theorem cornerListBody_firstTurn (t : gsBoxTopology) (start : patch_corner) (w w1 : CornerWalk)
    (brk : Bool) (h : t.cornerListBody start w = .ok (brk, w1)) (hf : w1.firstTurn = true) :
    w.firstTurn = true ∧ brk = false
      ∧ (t.getNeighbour w.curSide w.neighbour).1 = true := by
  unfold gsBoxTopology.cornerListBody at h
  simp only at h
  split at h
  · split at h
    · split at h
      · cases h; cases hf
      · split at h
        · cases h
        · next w3 hc =>
          cases h
          have := (crossInterface_cornerList t _ _ hc).2.1
          rw [hf] at this
          cases this
    · next hn hft =>
      cases h
      exact absurd hf hft
  · next hn =>
    split at h
    · cases h
    · next w3 hc =>
      cases h
      have := (crossInterface_cornerList t _ _ hc).2.1
      rw [hf] at this
      exact ⟨this.symm, rfl, by simpa using hn⟩

/-- The flag `firstTurn` is never set again once it is cleared. -/
theorem getCornerListRun_firstTurn (t : gsBoxTopology) (start : patch_corner) (fuel : Nat) :
    ∀ (w w2 : CornerWalk) (brk : Bool),
      t.getCornerListRun start fuel w = .ok (brk, w2) → w2.firstTurn = true →
      w.firstTurn = true := by
  induction fuel with
  | zero =>
    intro w w2 brk h _
    simp [gsBoxTopology.getCornerListRun] at h
  | succ fuel ih =>
    intro w w2 brk h hf
    rw [gsBoxTopology.getCornerListRun] at h
    cases hb : t.cornerListBody start w with
    | error e =>
      rw [hb] at h
      simp at h
    | ok v =>
      obtain ⟨b1, w1⟩ := v
      rw [hb] at h
      cases b1 with
      | true =>
        simp only [Except.ok.injEq, Prod.mk.injEq] at h
        rw [← h.2] at hf
        exact (cornerListBody_firstTurn t start w w1 true hb hf).1
      | false =>
        simp only at h
        by_cases hc : w1.curCorner = start
        · rw [if_pos hc] at h
          simp only [Except.ok.injEq, Prod.mk.injEq] at h
          rw [← h.2] at hf
          exact (cornerListBody_firstTurn t start w w1 false hb hf).1
        · rw [if_neg hc] at h
          exact (cornerListBody_firstTurn t start w w1 false hb (ih w1 w2 brk h hf)).1

/-- When the loop ends with `firstTurn` set, it has made crossings only, and the
last of them arrived at the start corner. -/
theorem getCornerListRun_closed (t : gsBoxTopology) (hd : t.m_dim = 2)
    (hv : t.interfacesValid) (h1 : t.sidesInOneInterface) (start : patch_corner) (fuel : Nat) :
    ∀ (w w2 : CornerWalk) (brk : Bool), validState (w.curCorner, w.curSide) →
      t.getCornerListRun start fuel w = .ok (brk, w2) → w2.firstTurn = true →
      ∃ j y, t.iterState (j + 1) (w.curCorner, w.curSide) = some y ∧ y.1 = start := by
  induction fuel with
  | zero =>
    intro w w2 brk _ h _
    simp [gsBoxTopology.getCornerListRun] at h
  | succ fuel ih =>
    intro w w2 brk hx h hf
    rw [gsBoxTopology.getCornerListRun] at h
    cases hb : t.cornerListBody start w with
    | error e =>
      rw [hb] at h
      simp at h
    | ok v =>
      obtain ⟨b1, w1⟩ := v
      rw [hb] at h
      have key : w1.firstTurn = true →
          ∃ y, t.crossState (w.curCorner, w.curSide) = some y ∧ w1.curCorner = y.1
            ∧ w1.curSide = y.2 := by
        intro hf1
        obtain ⟨-, -, hn⟩ := cornerListBody_firstTurn t start w w1 b1 hb hf1
        cases hc : t.crossState (w.curCorner, w.curSide) with
        | none =>
          have := getNeighbour_of_crossState_none t _ _ w.neighbour hc
          rw [hn] at this
          cases this
        | some y =>
          obtain ⟨w1b, hb2, hc1, hs1, -, -⟩ := cornerListBody_cross t hd hv h1 start w y hx hc
          rw [hb] at hb2
          simp only [Except.ok.injEq, Prod.mk.injEq] at hb2
          rw [← hb2.2] at hc1 hs1
          exact ⟨y, rfl, hc1, hs1⟩
      cases b1 with
      | true =>
        simp only [Except.ok.injEq, Prod.mk.injEq] at h
        rw [← h.2] at hf
        have := (cornerListBody_firstTurn t start w w1 true hb hf).2.1
        cases this
      | false =>
        simp only at h
        by_cases hc : w1.curCorner = start
        · rw [if_pos hc] at h
          simp only [Except.ok.injEq, Prod.mk.injEq] at h
          rw [← h.2] at hf
          obtain ⟨y, hy, hy1, -⟩ := key hf
          exact ⟨0, y, by rw [iterState_one]; exact hy, by rw [← hy1]; exact hc⟩
        · rw [if_neg hc] at h
          have hf1 := getCornerListRun_firstTurn t start fuel w1 w2 brk h hf
          obtain ⟨y, hy, hy1, hy2⟩ := key hf1
          have hyv := (crossState_some t hv h1 _ y hx hy).1
          have e : (w1.curCorner, w1.curSide) = y := by rw [hy1, hy2]
          obtain ⟨j, z, hz, hzs⟩ := ih w1 w2 brk (by rw [e]; exact hyv) h hf
          refine ⟨j + 1, z, ?_, hzs⟩
          rw [iterState_succ_front, hy]
          rw [e] at hz
          exact hz

/-- A state is not reached from itself seen from its other side. -/
theorem iterState_no_flip (t : gsBoxTopology) (hv : t.interfacesValid)
    (h1 : t.sidesInOneInterface) (y : WalkState) (hy : validState y) (m : Nat)
    (h : t.iterState m (flipState y) = some y) : False := by
  obtain ⟨hfv, hff, hfne, hf1⟩ := flipState_valid y hy
  have hpal : ∀ i, i ≤ m → ∀ a, t.iterState i (flipState y) = some a →
      t.iterState (m - i) (flipState y) = some (flipState a) := by
    intro i hi a ha
    obtain ⟨a2, ha2, hrest⟩ := iterState_some_le t m i _ _ hi h
    rw [ha] at ha2
    cases ha2
    have hav := iterState_valid t hv h1 i _ a hfv ha
    exact iterState_reverse t hv h1 (m - i) a y hav hrest
  rcases Nat.even_or_odd' m with ⟨i, hi | hi⟩
  · obtain ⟨a, ha, -⟩ := iterState_some_le t m i _ _ (by omega) h
    have h2 := hpal i (by omega) a ha
    have e : m - i = i := by omega
    rw [e, ha] at h2
    have hav := iterState_valid t hv h1 i _ a hfv ha
    exact (flipState_valid a hav).2.2.1 (Option.some.inj h2).symm
  · obtain ⟨a, ha, -⟩ := iterState_some_le t m i _ _ (by omega) h
    have h2 := hpal i (by omega) a ha
    have e : m - i = i + 1 := by omega
    rw [e, iterState_succ_back, ha] at h2
    have hav := iterState_valid t hv h1 i _ a hfv ha
    exact (crossState_some t hv h1 a _ hav h2).2.2.2 rfl

/-- A closed walk starts at a corner both of whose sides have a neighbour. -/
theorem getCornerList_closed_sides (t : gsBoxTopology) (hv : t.interfacesValid)
    (h1 : t.sidesInOneInterface) (start : patch_corner) (hs : validCorner start)
    (fuel : Nat) (l : List patch_corner) (h : t.getCornerList fuel start = .ok (true, l)) :
    ∀ s ∈ getPatchSides start 2, t.interfaceOf s ≠ none := by
  have hd : t.m_dim = 2 := by
    unfold gsBoxTopology.getCornerList at h
    split at h
    · cases h
    · next hd => exact not_not.1 hd
  obtain ⟨p0, p1, hps, hx, hfl⟩ := start_states start hs
  rw [getCornerList_eq_walk] at h
  unfold gsBoxTopology.getCornerListWalk at h
  rw [if_neg (by simp [hd]), hd, hps] at h
  simp only at h
  cases hr : t.getCornerListRun start fuel
      { cornerList := [], curSide := p0, endSide := p1, neighbour := ⟨0, 0⟩,
        curCorner := start, orient := [], firstTurn := true } with
  | error e =>
    rw [hr] at h
    cases h
  | ok v =>
    obtain ⟨brk, w2⟩ := v
    rw [hr] at h
    simp only [Except.map, Except.ok.injEq, Prod.mk.injEq] at h
    obtain ⟨j, y, hy, hys⟩ := getCornerListRun_closed t hd hv h1 start fuel _ w2 brk hx hr h.1
    simp only at hy
    have hyv := iterState_valid t hv h1 (j + 1) _ y hx hy
    have hc0 : t.crossState (start, p0) ≠ none := by
      intro hc
      rw [iterState_succ_front, hc] at hy
      cases hy
    have hc1 : t.crossState (start, p1) ≠ none := by
      rcases validState_corner (start, p0) y hx hyv hys.symm with rfl | rfl
      · have hrev := iterState_reverse t hv h1 (j + 1) _ _ hx hy
        rw [hfl] at hrev
        intro hc
        rw [iterState_succ_front, hc] at hrev
        cases hrev
      · exfalso
        refine iterState_no_flip t hv h1 _ (flipState_valid _ hx).1 (j + 1) ?_
        rw [(flipState_valid _ hx).2.1]
        exact hy
    intro s hsm
    rw [hps] at hsm
    simp only [List.mem_cons, List.mem_singleton, List.not_mem_nil, or_false] at hsm
    rcases hsm with rfl | rfl
    · exact fun hn => hc0 ((crossState_none t _).2 hn)
    · exact fun hn => hc1 ((crossState_none t _).2 hn)

/-- The walk from a corner of a patch returns, with a result that is the same for
every step budget from `8 * nInterfaces + 2` on. -/
theorem getCornerList_total (t : gsBoxTopology) (hd : t.m_dim = 2) (hv : t.interfacesValid)
    (h1 : t.sidesInOneInterface) (start : patch_corner) (hs : validCorner start) :
    ∃ r, ∀ k, t.getCornerList (8 * t.nInterfaces + 2 + k) start = .ok r := by
  obtain ⟨p0, p1, hps, hx, hfl⟩ := start_states start hs
  obtain ⟨fuel, hfuel, brk, w, hrun, -⟩ := getCornerListRun_terminates t hd hv h1 start
    { cornerList := [], curSide := p0, endSide := p1, neighbour := ⟨0, 0⟩,
      curCorner := start, orient := [], firstTurn := true } hx rfl hfl rfl
  have hwalk : t.getCornerListWalk fuel start = .ok (brk, w) := by
    unfold gsBoxTopology.getCornerListWalk
    rw [if_neg (by simp [hd]), hd, hps]
    exact hrun
  refine ⟨(w.firstTurn, w.cornerList), fun k => ?_⟩
  obtain ⟨d, hd2⟩ := Nat.exists_eq_add_of_le hfuel
  have e : 8 * t.nInterfaces + 2 + k = fuel + (d + k) := by omega
  rw [e]
  refine getCornerList_mono t fuel (d + k) start _ ?_
  rw [getCornerList_eq_walk, hwalk]
  rfl

end ThreeAtVertexWalk
section ThreeAtVertexScan

/-- The pass of the scan for a corner whose walk returns. -/
theorem vertexStep_of_result (t : gsBoxTopology) (fuel : Nat) (keep : Nat → Bool) (i : Int)
    (acc : List (List patch_corner)) (j : Nat) (b : Bool) (l : List patch_corner)
    (h : t.getCornerList fuel ⟨i, j⟩ = .ok (b, l)) :
    t.vertexStep fuel keep i acc j
      = .ok (if (b && keep l.length && !(l.any (fun c => decide (c.patch < i)))) = true
          then acc ++ [l] else acc) := by
  unfold gsBoxTopology.vertexStep
  rw [h]
  simp only
  split <;> rfl

/-- A scan over places none of which passes the tests appends nothing. -/
theorem scan_skip (t : gsBoxTopology) (fuel : Nat) (keep : Nat → Bool) (ps : List (Nat × Nat)) :
    ∀ acc : List (List patch_corner),
      (∀ p ∈ ps, ∃ b l, t.getCornerList fuel ⟨Int.ofNat p.1, p.2⟩ = .ok (b, l)
        ∧ (b && keep l.length && !(l.any (fun c => decide (c.patch < Int.ofNat p.1)))) = false) →
      ps.foldlM (fun acc p => t.vertexStep fuel keep (Int.ofNat p.1) acc p.2) acc = .ok acc := by
  induction ps with
  | nil => intro acc _; rfl
  | cons p ps ih =>
    intro acc h
    obtain ⟨b, l, hg, hc⟩ := h p (List.mem_cons_self _ _)
    rw [List.foldlM_cons, vertexStep_of_result t fuel keep _ acc p.2 b l hg, hc]
    simp only [Bool.false_eq_true, if_false]
    exact ih acc (fun q hq => h q (List.mem_cons_of_mem _ hq))

/-- A scan over different places of which exactly one passes the tests appends
the list of that place. -/
theorem scan_one (t : gsBoxTopology) (fuel : Nat) (keep : Nat → Bool) (p0 : Nat × Nat)
    (l0 : List patch_corner)
    (h0 : t.getCornerList fuel ⟨Int.ofNat p0.1, p0.2⟩ = .ok (true, l0))
    (hk : keep l0.length = true)
    (hr : l0.any (fun c => decide (c.patch < Int.ofNat p0.1)) = false)
    (ps : List (Nat × Nat)) :
    ∀ acc : List (List patch_corner), ps.Nodup → p0 ∈ ps →
      (∀ p ∈ ps, p ≠ p0 → ∃ b l, t.getCornerList fuel ⟨Int.ofNat p.1, p.2⟩ = .ok (b, l)
        ∧ (b && keep l.length && !(l.any (fun c => decide (c.patch < Int.ofNat p.1)))) = false) →
      ps.foldlM (fun acc p => t.vertexStep fuel keep (Int.ofNat p.1) acc p.2) acc
        = .ok (acc ++ [l0]) := by
  induction ps with
  | nil => intro acc _ hm; cases hm
  | cons p ps ih =>
    intro acc hn hm h
    rw [List.nodup_cons] at hn
    rw [List.foldlM_cons]
    by_cases hp : p = p0
    · subst hp
      rw [vertexStep_of_result t fuel keep _ acc p.2 true l0 h0, hk, hr]
      simp only [Bool.and_self, Bool.not_false, if_true]
      refine scan_skip t fuel keep ps _ (fun q hq => h q (List.mem_cons_of_mem _ hq) ?_)
      rintro rfl
      exact hn.1 hq
    · obtain ⟨b, l, hg, hc⟩ := h p (List.mem_cons_self _ _) hp
      rw [vertexStep_of_result t fuel keep _ acc p.2 b l hg, hc]
      simp only [Bool.false_eq_true, if_false]
      refine ih acc hn.2 ?_ (fun q hq => h q (List.mem_cons_of_mem _ hq))
      rcases List.mem_cons.1 hm with e | e
      · exact absurd e.symm hp
      · exact e

theorem mem_scanOrder (n : Nat) (p : Nat × Nat) :
    p ∈ scanOrder n ↔ p.1 < n ∧ 1 ≤ p.2 ∧ p.2 ≤ 4 := by
  obtain ⟨i, j⟩ := p
  unfold scanOrder
  simp only [List.mem_flatMap, List.mem_range, List.mem_map, List.mem_cons, List.mem_singleton,
    List.not_mem_nil, or_false, Prod.mk.injEq]
  constructor
  · rintro ⟨a, ha, b, hb, rfl, rfl⟩
    refine ⟨ha, ?_⟩
    rcases hb with rfl | rfl | rfl | rfl <;> simp
  · rintro ⟨h1, h2, h3⟩
    refine ⟨i, h1, j, ?_, rfl, rfl⟩
    omega

/-- Two different sides at a corner are each the other side of the other. -/
theorem otherSideAt_of_ne (c : patch_corner) (s s2 : patch_side) (hs : s ∈ getPatchSides c 2)
    (hs2 : s2 ∈ getPatchSides c 2) (hne : s ≠ s2) : otherSideAt c s = s2 := by
  unfold otherSideAt
  rw [getPatchSides_two] at hs hs2 ⊢
  simp only [List.mem_cons, List.mem_singleton, List.not_mem_nil, or_false] at hs hs2
  rcases hs with hs | hs <;> rcases hs2 with hs2 | hs2
  · exact absurd (hs.trans hs2.symm) hne
  · show (if s = _ then _ else _) = s2
    rw [if_pos hs, hs2]
  · show (if s = _ then _ else _) = s2
    rw [if_neg (by rw [← hs2]; exact hne), hs2]
  · exact absurd (hs.trans hs2.symm) hne

/-- A corner of a square is fixed by its two sides. -/
theorem corner_of_sides (d c : patch_corner) (hd : validCorner d) (hc : validCorner c)
    (h : ∀ s ∈ getPatchSides d 2, s ∈ getPatchSides c 2) : d = c := by
  rcases validCorner_cases d hd with e | e | e | e <;>
    rcases validCorner_cases c hc with e2 | e2 | e2 | e2 <;>
    rw [e, e2] at h ⊢ <;> simp [getPatchSides_two] at h ⊢ <;> omega

end ThreeAtVertexScan
section ThreeAtVertexMain

/-- The walk from a corner of a ring of three corners is closed and passes the
three corners, in the one or the other direction. -/
theorem getCornerList_ring_corner (t : gsBoxTopology) (hd : t.m_dim = 2)
    (hv : t.interfacesValid) (h1 : t.sidesInOneInterface) (c : patch_corner)
    (hc : validCorner c) (a b : patch_side) (ha : a ∈ getPatchSides c 2)
    (hb : b ∈ getPatchSides c 2) (hab : a ≠ b) (y1 y2 z1 z2 : WalkState)
    (f1 : t.crossState (c, a) = some y1) (f2 : t.crossState y1 = some y2)
    (f3 : t.crossState y2 = some (c, a))
    (g1 : t.crossState (c, b) = some z1) (g2 : t.crossState z1 = some z2)
    (g3 : t.crossState z2 = some (c, b))
    (n1 : y1.1 ≠ c) (n2 : y2.1 ≠ c) (e1 : z1.1 = y2.1) (e2 : z2.1 = y1.1) (k : Nat) :
    t.getCornerList (3 + k) c = .ok (true, [c, y1.1, y2.1])
      ∨ t.getCornerList (3 + k) c = .ok (true, [c, y2.1, y1.1]) := by
  obtain ⟨p0, p1, hps, hx, -⟩ := start_states c hc
  rw [hps] at ha hb
  simp only [List.mem_cons, List.mem_singleton, List.not_mem_nil, or_false] at ha hb
  by_cases h0 : a = p0
  · left
    subst h0
    exact getCornerList_three_crossings t hd hv h1 c a p1 hps hx y1 y2 (c, a) f1 f2 f3 n1 n2 rfl k
  · right
    have hb0 : b = p0 := by
      rcases ha with ha | ha
      · exact absurd ha h0
      · rcases hb with hb | hb
        · exact hb
        · exact absurd (ha.trans hb.symm) hab
    subst hb0
    rw [← e1, ← e2]
    exact getCornerList_three_crossings t hd hv h1 c b p1 hps hx z1 z2 (c, b) g1 g2 g3
      (by rw [e1]; exact n2) (by rw [e2]; exact n1) rfl k

theorem joins_valid (I : boundaryInterface) (a b : patch_corner) (ha : validCorner a)
    (hb : validCorner b) (hj : I.joins a b) :
    validSide I.ps1 ∧ validSide I.ps2 ∧ I.orient ≠ [] := by
  rcases hj with ⟨h1, h2, h3⟩ | ⟨h1, h2, h3⟩
  · exact ⟨(mem_getPatchSides_valid a _ ha h1).2.1, (mem_getPatchSides_valid b _ hb h2).2.1,
      by rw [h3]; simp⟩
  · exact ⟨(mem_getPatchSides_valid b _ hb h1).2.1, (mem_getPatchSides_valid a _ ha h2).2.1,
      by rw [h3]; simp⟩

/-- Three interfaces that join three corners of three patches in a ring: the two
sides of each patch at its corner, the crossings around the ring in both
directions, and the sides that have a neighbour. -/
theorem ring_of_joins (t : gsBoxTopology) (k0 k1 k2 : Nat) (I0 I1 I2 : boundaryInterface)
    (hc0 : validCorner ⟨0, k0⟩) (hc1 : validCorner ⟨1, k1⟩) (hc2 : validCorner ⟨2, k2⟩)
    (hI : t.m_interfaces.Perm [I0, I1, I2])
    (h01 : I0.joins ⟨0, k0⟩ ⟨1, k1⟩) (h12 : I1.joins ⟨1, k1⟩ ⟨2, k2⟩)
    (h20 : I2.joins ⟨2, k2⟩ ⟨0, k0⟩) (h1 : t.sidesInOneInterface) :
    ∃ a0 b0 a1 b1 a2 b2 : patch_side,
      (a0 ∈ getPatchSides ⟨0, k0⟩ 2 ∧ b0 ∈ getPatchSides ⟨0, k0⟩ 2 ∧ a0 ≠ b0)
      ∧ (a1 ∈ getPatchSides ⟨1, k1⟩ 2 ∧ b1 ∈ getPatchSides ⟨1, k1⟩ 2 ∧ a1 ≠ b1)
      ∧ (a2 ∈ getPatchSides ⟨2, k2⟩ 2 ∧ b2 ∈ getPatchSides ⟨2, k2⟩ 2 ∧ a2 ≠ b2)
      ∧ (t.crossState (⟨0, k0⟩, a0) = some (⟨1, k1⟩, a1)
        ∧ t.crossState (⟨1, k1⟩, a1) = some (⟨2, k2⟩, a2)
        ∧ t.crossState (⟨2, k2⟩, a2) = some (⟨0, k0⟩, a0))
      ∧ (t.crossState (⟨0, k0⟩, b0) = some (⟨2, k2⟩, b2)
        ∧ t.crossState (⟨2, k2⟩, b2) = some (⟨1, k1⟩, b1)
        ∧ t.crossState (⟨1, k1⟩, b1) = some (⟨0, k0⟩, b0))
      ∧ ∀ s, t.interfaceOf s ≠ none → s ∈ [a0, b0, a1, b1, a2, b2] := by
  have hm : ∀ I, I ∈ t.m_interfaces ↔ I = I0 ∨ I = I1 ∨ I = I2 := by
    intro I
    rw [hI.mem_iff]
    simp
  have m0 := (hm I0).2 (Or.inl rfl)
  have m1 := (hm I1).2 (Or.inr (Or.inl rfl))
  have m2 := (hm I2).2 (Or.inr (Or.inr rfl))
  obtain ⟨a0, b1, ma0, mb1, i0, F0, B1⟩ := crossState_of_joins t h1 I0 m0 _ _ hc0 hc1 h01
  obtain ⟨a1, b2, ma1, mb2, i1, F1, B2⟩ := crossState_of_joins t h1 I1 m1 _ _ hc1 hc2 h12
  obtain ⟨a2, b0, ma2, mb0, i2, F2, B0⟩ := crossState_of_joins t h1 I2 m2 _ _ hc2 hc0 h20
  have pa0 : a0.patch = 0 := (mem_getPatchSides_valid _ _ hc0 ma0).2.2
  have pb0 : b0.patch = 0 := (mem_getPatchSides_valid _ _ hc0 mb0).2.2
  have pa1 : a1.patch = 1 := (mem_getPatchSides_valid _ _ hc1 ma1).2.2
  have pb1 : b1.patch = 1 := (mem_getPatchSides_valid _ _ hc1 mb1).2.2
  have pa2 : a2.patch = 2 := (mem_getPatchSides_valid _ _ hc2 ma2).2.2
  have pb2 : b2.patch = 2 := (mem_getPatchSides_valid _ _ hc2 mb2).2.2
  have hshare : ∀ I ∈ t.m_interfaces, ∀ J ∈ t.m_interfaces, ∀ s,
      (s = I.ps1 ∨ s = I.ps2) → (s = J.ps1 ∨ s = J.ps2) → J = I := by
    intro I hI J hJ s hs1 hs2
    refine (nodup_ends _ h1 I hI).2 J hJ ?_
    rcases hs1 with rfl | rfl <;> rcases hs2 with h | h
    · exact Or.inl h.symm
    · exact Or.inr (Or.inr (Or.inl h.symm))
    · exact Or.inr (Or.inl h.symm)
    · exact Or.inr (Or.inr (Or.inr h.symm))
  have n0 : a0 ≠ b0 := by
    intro h
    have e := hshare I0 m0 I2 m2 a0 ((i0 a0).2 (Or.inl rfl)) ((i2 a0).2 (Or.inr h))
    have := (i0 a2).1 (by rw [← e]; exact (i2 a2).2 (Or.inl rfl))
    rcases this with h | h
    · rw [h, pa0] at pa2
      cases pa2
    · rw [h, pb1] at pa2
      cases pa2
  have n1 : a1 ≠ b1 := by
    intro h
    have e := hshare I1 m1 I0 m0 a1 ((i1 a1).2 (Or.inl rfl)) ((i0 a1).2 (Or.inr h))
    have := (i1 a0).1 (by rw [← e]; exact (i0 a0).2 (Or.inl rfl))
    rcases this with h | h
    · rw [h, pa1] at pa0
      cases pa0
    · rw [h, pb2] at pa0
      cases pa0
  have n2 : a2 ≠ b2 := by
    intro h
    have e := hshare I2 m2 I1 m1 a2 ((i2 a2).2 (Or.inl rfl)) ((i1 a2).2 (Or.inr h))
    have := (i2 a1).1 (by rw [← e]; exact (i1 a1).2 (Or.inl rfl))
    rcases this with h | h
    · rw [h, pa2] at pa1
      cases pa1
    · rw [h, pb0] at pa1
      cases pa1
  rw [otherSideAt_of_ne _ b1 a1 mb1 ma1 (Ne.symm n1)] at F0
  rw [otherSideAt_of_ne _ a0 b0 ma0 mb0 n0] at B1
  rw [otherSideAt_of_ne _ b2 a2 mb2 ma2 (Ne.symm n2)] at F1
  rw [otherSideAt_of_ne _ a1 b1 ma1 mb1 n1] at B2
  rw [otherSideAt_of_ne _ b0 a0 mb0 ma0 (Ne.symm n0)] at F2
  rw [otherSideAt_of_ne _ a2 b2 ma2 mb2 n2] at B0
  refine ⟨a0, b0, a1, b1, a2, b2, ⟨ma0, mb0, n0⟩, ⟨ma1, mb1, n1⟩, ⟨ma2, mb2, n2⟩,
    ⟨F0, F1, F2⟩, ⟨B0, B2, B1⟩, ?_⟩
  intro s hs
  cases hi : t.interfaceOf s with
  | none => exact absurd hi hs
  | some I =>
    obtain ⟨hIm, hIs⟩ := interfaceOf_some t s I hi
    have hIs2 : s = I.ps1 ∨ s = I.ps2 := by
      rcases hIs with h | h
      · exact Or.inl h.symm
      · exact Or.inr h.symm
    simp only [List.mem_cons, List.mem_singleton, List.not_mem_nil, or_false]
    rcases (hm I).1 hIm with rfl | rfl | rfl
    · rcases (i0 s).1 hIs2 with h | h
      · exact Or.inl h
      · exact Or.inr (Or.inr (Or.inr (Or.inl h)))
    · rcases (i1 s).1 hIs2 with h | h
      · exact Or.inr (Or.inr (Or.inl h))
      · exact Or.inr (Or.inr (Or.inr (Or.inr (Or.inr h))))
    · rcases (i2 s).1 hIs2 with h | h
      · exact Or.inr (Or.inr (Or.inr (Or.inr (Or.inl h))))
      · exact Or.inr (Or.inl h)

end ThreeAtVertexMain
section ThreeAtVertexClaim

/-- C8: a two-dimensional topology of three patches that meet at one interior
vertex, which is corner `k0` of patch 0, corner `k1` of patch 1 and corner `k2`
of patch 2: its interfaces are three, listed in any order and each with its two
sides in any order, they join the three corners in a ring so that the corners
fall together, and no side is in two of them; the boundary sides are whatever
the topology lists.  Then `getCornerList` started at each of the three corners
returns `true` with a list of exactly the three corners, beginning with the
start corner, for every step budget from 3 passes on; `getEVs` returns the list
of the walk from the corner of patch 0 and nothing else, and `getOVs` returns
nothing, for every step budget from 26 passes on. -/
theorem three_patches_vertex_singular (t : gsBoxTopology) (k0 k1 k2 : Nat)
    (I0 I1 I2 : boundaryInterface) (hd : t.m_dim = 2) (hn : t.nboxes = 3)
    (hc0 : validCorner ⟨0, k0⟩) (hc1 : validCorner ⟨1, k1⟩) (hc2 : validCorner ⟨2, k2⟩)
    (hI : t.m_interfaces.Perm [I0, I1, I2])
    (h01 : I0.joins ⟨0, k0⟩ ⟨1, k1⟩) (h12 : I1.joins ⟨1, k1⟩ ⟨2, k2⟩)
    (h20 : I2.joins ⟨2, k2⟩ ⟨0, k0⟩) (h1 : t.sidesInOneInterface) (k : Nat) :
    ∃ l0 l1 l2 : List patch_corner,
      (l0 = [⟨0, k0⟩, ⟨1, k1⟩, ⟨2, k2⟩] ∨ l0 = [⟨0, k0⟩, ⟨2, k2⟩, ⟨1, k1⟩])
      ∧ (l1 = [⟨1, k1⟩, ⟨2, k2⟩, ⟨0, k0⟩] ∨ l1 = [⟨1, k1⟩, ⟨0, k0⟩, ⟨2, k2⟩])
      ∧ (l2 = [⟨2, k2⟩, ⟨0, k0⟩, ⟨1, k1⟩] ∨ l2 = [⟨2, k2⟩, ⟨1, k1⟩, ⟨0, k0⟩])
      ∧ t.getCornerList (3 + k) ⟨0, k0⟩ = .ok (true, l0)
      ∧ t.getCornerList (3 + k) ⟨1, k1⟩ = .ok (true, l1)
      ∧ t.getCornerList (3 + k) ⟨2, k2⟩ = .ok (true, l2)
      ∧ t.getEVs (26 + k) = .ok [l0]
      ∧ t.getOVs (26 + k) = .ok [] := by
  have hm : ∀ I, I ∈ t.m_interfaces ↔ I = I0 ∨ I = I1 ∨ I = I2 := by
    intro I
    rw [hI.mem_iff]
    simp
  have hv : t.interfacesValid := by
    intro I hIm
    rcases (hm I).1 hIm with rfl | rfl | rfl
    · exact joins_valid _ _ _ hc0 hc1 h01
    · exact joins_valid _ _ _ hc1 hc2 h12
    · exact joins_valid _ _ _ hc2 hc0 h20
  have hlen : t.nInterfaces = 3 := by
    unfold gsBoxTopology.nInterfaces
    rw [hI.length_eq]
    rfl
  obtain ⟨a0, b0, a1, b1, a2, b2, ⟨ma0, mb0, n0⟩, ⟨ma1, mb1, n1⟩, ⟨ma2, mb2, n2⟩,
    ⟨F0, F1, F2⟩, ⟨B0, B2, B1⟩, hsix⟩ := ring_of_joins t k0 k1 k2 I0 I1 I2 hc0 hc1 hc2 hI
      h01 h12 h20 h1
  have d01 : (⟨0, k0⟩ : patch_corner) ≠ ⟨1, k1⟩ := by simp
  have d02 : (⟨0, k0⟩ : patch_corner) ≠ ⟨2, k2⟩ := by simp
  have d12 : (⟨1, k1⟩ : patch_corner) ≠ ⟨2, k2⟩ := by simp
  -- the three walks at the vertex, for every budget from 3 on
  have w0 := fun j => getCornerList_ring_corner t hd hv h1 ⟨0, k0⟩ hc0 a0 b0 ma0 mb0 n0
    (⟨1, k1⟩, a1) (⟨2, k2⟩, a2) (⟨2, k2⟩, b2) (⟨1, k1⟩, b1) F0 F1 F2 B0 B2 B1
    d01.symm d02.symm rfl rfl j
  have w1 := fun j => getCornerList_ring_corner t hd hv h1 ⟨1, k1⟩ hc1 a1 b1 ma1 mb1 n1
    (⟨2, k2⟩, a2) (⟨0, k0⟩, a0) (⟨0, k0⟩, b0) (⟨2, k2⟩, b2) F1 F2 F0 B1 B0 B2
    d12.symm d01 rfl rfl j
  have w2 := fun j => getCornerList_ring_corner t hd hv h1 ⟨2, k2⟩ hc2 a2 b2 ma2 mb2 n2
    (⟨0, k0⟩, a0) (⟨1, k1⟩, a1) (⟨1, k1⟩, b1) (⟨0, k0⟩, b0) F2 F0 F1 B2 B1 B0
    d02 d12 rfl rfl j
  simp only at w0 w1 w2
  obtain ⟨l0, hl0, g0⟩ : ∃ l0, (l0 = [⟨0, k0⟩, ⟨1, k1⟩, ⟨2, k2⟩] ∨ l0 = [⟨0, k0⟩, ⟨2, k2⟩, ⟨1, k1⟩])
      ∧ t.getCornerList 3 ⟨0, k0⟩ = .ok (true, l0) := by
    rcases w0 0 with h | h
    · exact ⟨_, Or.inl rfl, h⟩
    · exact ⟨_, Or.inr rfl, h⟩
  obtain ⟨l1, hl1, g1⟩ : ∃ l1, (l1 = [⟨1, k1⟩, ⟨2, k2⟩, ⟨0, k0⟩] ∨ l1 = [⟨1, k1⟩, ⟨0, k0⟩, ⟨2, k2⟩])
      ∧ t.getCornerList 3 ⟨1, k1⟩ = .ok (true, l1) := by
    rcases w1 0 with h | h
    · exact ⟨_, Or.inl rfl, h⟩
    · exact ⟨_, Or.inr rfl, h⟩
  obtain ⟨l2, hl2, g2⟩ : ∃ l2, (l2 = [⟨2, k2⟩, ⟨0, k0⟩, ⟨1, k1⟩] ∨ l2 = [⟨2, k2⟩, ⟨1, k1⟩, ⟨0, k0⟩])
      ∧ t.getCornerList 3 ⟨2, k2⟩ = .ok (true, l2) := by
    rcases w2 0 with h | h
    · exact ⟨_, Or.inl rfl, h⟩
    · exact ⟨_, Or.inr rfl, h⟩
  have len0 : l0.length = 3 := by rcases hl0 with h | h <;> rw [h] <;> rfl
  have len1 : l1.length = 3 := by rcases hl1 with h | h <;> rw [h] <;> rfl
  have len2 : l2.length = 3 := by rcases hl2 with h | h <;> rw [h] <;> rfl
  have in1 : (⟨0, k0⟩ : patch_corner) ∈ l1 := by rcases hl1 with h | h <;> rw [h] <;> simp
  have in2 : (⟨0, k0⟩ : patch_corner) ∈ l2 := by rcases hl2 with h | h <;> rw [h] <;> simp
  have low0 : l0.any (fun c => decide (c.patch < Int.ofNat 0)) = false := by
    rcases hl0 with h | h <;> rw [h] <;> simp
  -- a closed walk starts at one of the three corners
  have hclosed : ∀ (d : patch_corner), validCorner d → ∀ (F : Nat) (l : List patch_corner),
      t.getCornerList F d = .ok (true, l) → d = ⟨0, k0⟩ ∨ d = ⟨1, k1⟩ ∨ d = ⟨2, k2⟩ := by
    intro d hdv F l hg
    have hs := getCornerList_closed_sides t hv h1 d hdv F l hg
    have hs6 : ∀ s ∈ getPatchSides d 2, s ∈ [a0, b0, a1, b1, a2, b2] :=
      fun s hsm => hsix s (hs s hsm)
    have hp : ∀ s ∈ getPatchSides d 2, s.patch = d.patch :=
      fun s hsm => (mem_getPatchSides_valid d s hdv hsm).2.2
    have pa0 : a0.patch = 0 := (mem_getPatchSides_valid _ _ hc0 ma0).2.2
    have pb0 : b0.patch = 0 := (mem_getPatchSides_valid _ _ hc0 mb0).2.2
    have pa1 : a1.patch = 1 := (mem_getPatchSides_valid _ _ hc1 ma1).2.2
    have pb1 : b1.patch = 1 := (mem_getPatchSides_valid _ _ hc1 mb1).2.2
    have pa2 : a2.patch = 2 := (mem_getPatchSides_valid _ _ hc2 ma2).2.2
    have pb2 : b2.patch = 2 := (mem_getPatchSides_valid _ _ hc2 mb2).2.2
    obtain ⟨p0, p1, hps, -, -⟩ := start_states d hdv
    have hp0 := hs6 p0 (by rw [hps]; simp)
    have hpp := hp p0 (by rw [hps]; simp)
    have hpatch : d.patch = 0 ∨ d.patch = 1 ∨ d.patch = 2 := by
      simp only [List.mem_cons, List.mem_singleton, List.not_mem_nil, or_false] at hp0
      rcases hp0 with h | h | h | h | h | h <;> rw [h] at hpp <;> rw [← hpp]
      · exact Or.inl pa0
      · exact Or.inl pb0
      · exact Or.inr (Or.inl pa1)
      · exact Or.inr (Or.inl pb1)
      · exact Or.inr (Or.inr pa2)
      · exact Or.inr (Or.inr pb2)
    rcases hpatch with h | h | h
    · left
      refine corner_of_sides d _ hdv hc0 (fun s hsm => ?_)
      have h6 := hs6 s hsm
      have hq := hp s hsm
      rw [h] at hq
      simp only [List.mem_cons, List.mem_singleton, List.not_mem_nil, or_false] at h6
      rcases h6 with e | e | e | e | e | e <;> rw [e] at hq ⊢
      · exact ma0
      · exact mb0
      · rw [pa1] at hq; cases hq
      · rw [pb1] at hq; cases hq
      · rw [pa2] at hq; cases hq
      · rw [pb2] at hq; cases hq
    · right; left
      refine corner_of_sides d _ hdv hc1 (fun s hsm => ?_)
      have h6 := hs6 s hsm
      have hq := hp s hsm
      rw [h] at hq
      simp only [List.mem_cons, List.mem_singleton, List.not_mem_nil, or_false] at h6
      rcases h6 with e | e | e | e | e | e <;> rw [e] at hq ⊢
      · rw [pa0] at hq; cases hq
      · rw [pb0] at hq; cases hq
      · exact ma1
      · exact mb1
      · rw [pa2] at hq; cases hq
      · rw [pb2] at hq; cases hq
    · right; right
      refine corner_of_sides d _ hdv hc2 (fun s hsm => ?_)
      have h6 := hs6 s hsm
      have hq := hp s hsm
      rw [h] at hq
      simp only [List.mem_cons, List.mem_singleton, List.not_mem_nil, or_false] at h6
      rcases h6 with e | e | e | e | e | e <;> rw [e] at hq ⊢
      · rw [pa0] at hq; cases hq
      · rw [pb0] at hq; cases hq
      · rw [pa1] at hq; cases hq
      · rw [pb1] at hq; cases hq
      · exact ma2
      · exact mb2
  -- the result of the walk from every place of the scan
  have hplace : ∀ p ∈ scanOrder 3, ∃ b l,
      t.getCornerList (26 + k) ⟨Int.ofNat p.1, p.2⟩ = .ok (b, l)
      ∧ (b = true → (p = (0, k0) ∧ l = l0) ∨ (p = (1, k1) ∧ l = l1) ∨ (p = (2, k2) ∧ l = l2)) := by
    intro p hp
    rw [mem_scanOrder] at hp
    have hdv : validCorner ⟨Int.ofNat p.1, p.2⟩ := ⟨hp.2.1, hp.2.2⟩
    obtain ⟨r, hr⟩ := getCornerList_total t hd hv h1 _ hdv
    have hr2 := hr k
    rw [hlen] at hr2
    obtain ⟨b, l⟩ := r
    refine ⟨b, l, hr2, ?_⟩
    rintro rfl
    have := hclosed _ hdv _ l hr2
    simp only [patch_corner.mk.injEq, Int.ofNat_eq_coe] at this
    rcases this with ⟨e1, e2⟩ | ⟨e1, e2⟩ | ⟨e1, e2⟩
    · left
      have ep : p = (0, k0) := Prod.ext (by simpa using e1) e2
      refine ⟨ep, ?_⟩
      subst ep
      have := getCornerList_result_unique t _ _ _ _ _ hr2 g0
      simpa using this
    · right; left
      have ep : p = (1, k1) := Prod.ext (by exact_mod_cast e1) e2
      refine ⟨ep, ?_⟩
      subst ep
      have := getCornerList_result_unique t _ _ _ _ _ hr2 g1
      simpa using this
    · right; right
      have ep : p = (2, k2) := Prod.ext (by exact_mod_cast e1) e2
      refine ⟨ep, ?_⟩
      subst ep
      have := getCornerList_result_unique t _ _ _ _ _ hr2 g2
      simpa using this
  have hE0 : t.getCornerList (26 + k) ⟨Int.ofNat 0, k0⟩ = .ok (true, l0) := by
    have := getCornerList_mono t 3 (23 + k) _ _ g0
    have e : 3 + (23 + k) = 26 + k := by omega
    rw [e] at this
    exact this
  have hmem0 : ((0, k0) : Nat × Nat) ∈ scanOrder 3 := by
    rw [mem_scanOrder]
    exact ⟨Nat.zero_lt_succ 2, hc0.1, hc0.2⟩
  refine ⟨l0, l1, l2, hl0, hl1, hl2, getCornerList_mono t 3 k _ _ g0,
    getCornerList_mono t 3 k _ _ g1, getCornerList_mono t 3 k _ _ g2, ?_, ?_⟩
  · unfold gsBoxTopology.getEVs
    rw [if_neg (by simp [hd]), vertexScan_flat, hn]
    refine scan_one t (26 + k) _ (0, k0) l0 hE0 (by rw [len0]; rfl) low0 _ []
      (scanOrder_nodup 3) hmem0 ?_
    intro p hp hne
    obtain ⟨b, l, hg, hb⟩ := hplace p hp
    refine ⟨b, l, hg, ?_⟩
    cases b with
    | false => rfl
    | true =>
      rcases hb rfl with ⟨e, -⟩ | ⟨e, rfl⟩ | ⟨e, rfl⟩
      · exact absurd e hne
      · have : l.any (fun c => decide (c.patch < Int.ofNat p.1)) = true := by
          rw [List.any_eq_true]
          exact ⟨_, in1, by rw [e]; simp⟩
        rw [this]
        simp
      · have : l.any (fun c => decide (c.patch < Int.ofNat p.1)) = true := by
          rw [List.any_eq_true]
          exact ⟨_, in2, by rw [e]; simp⟩
        rw [this]
        simp
  · unfold gsBoxTopology.getOVs
    rw [if_neg (by simp [hd]), vertexScan_flat, hn]
    refine scan_skip t (26 + k) _ _ [] ?_
    intro p hp
    obtain ⟨b, l, hg, hb⟩ := hplace p hp
    refine ⟨b, l, hg, ?_⟩
    cases b with
    | false => rfl
    | true =>
      rcases hb rfl with ⟨-, rfl⟩ | ⟨-, rfl⟩ | ⟨-, rfl⟩
      · rw [len0]; rfl
      · rw [len1]; rfl
      · rw [len2]; rfl

/-- Instance of C8 on `threePatches`: the vertex is the northeast corner of
patch 0, the northwest corner of patch 1 and the southwest corner of patch 2. -/
theorem three_patches_vertex_singular_witness :
    threePatches.m_dim = 2 ∧ threePatches.nboxes = 3
    ∧ validCorner ⟨0, 4⟩ ∧ validCorner ⟨1, 3⟩ ∧ validCorner ⟨2, 1⟩
    ∧ threePatches.m_interfaces.Perm
        [⟨⟨0, 2⟩, ⟨1, 1⟩, [true]⟩, ⟨⟨1, 4⟩, ⟨2, 3⟩, [true]⟩, ⟨⟨2, 1⟩, ⟨0, 4⟩, [false]⟩]
    ∧ (⟨⟨0, 2⟩, ⟨1, 1⟩, [true]⟩ : boundaryInterface).joins ⟨0, 4⟩ ⟨1, 3⟩
    ∧ (⟨⟨1, 4⟩, ⟨2, 3⟩, [true]⟩ : boundaryInterface).joins ⟨1, 3⟩ ⟨2, 1⟩
    ∧ (⟨⟨2, 1⟩, ⟨0, 4⟩, [false]⟩ : boundaryInterface).joins ⟨2, 1⟩ ⟨0, 4⟩
    ∧ threePatches.sidesInOneInterface
    ∧ ∃ l0 l1 l2 : List patch_corner,
      (l0 = [⟨0, 4⟩, ⟨1, 3⟩, ⟨2, 1⟩] ∨ l0 = [⟨0, 4⟩, ⟨2, 1⟩, ⟨1, 3⟩])
      ∧ (l1 = [⟨1, 3⟩, ⟨2, 1⟩, ⟨0, 4⟩] ∨ l1 = [⟨1, 3⟩, ⟨0, 4⟩, ⟨2, 1⟩])
      ∧ (l2 = [⟨2, 1⟩, ⟨0, 4⟩, ⟨1, 3⟩] ∨ l2 = [⟨2, 1⟩, ⟨1, 3⟩, ⟨0, 4⟩])
      ∧ threePatches.getCornerList (3 + 0) ⟨0, 4⟩ = .ok (true, l0)
      ∧ threePatches.getCornerList (3 + 0) ⟨1, 3⟩ = .ok (true, l1)
      ∧ threePatches.getCornerList (3 + 0) ⟨2, 1⟩ = .ok (true, l2)
      ∧ threePatches.getEVs (26 + 0) = .ok [l0]
      ∧ threePatches.getOVs (26 + 0) = .ok [] :=
  have v0 : validCorner ⟨0, 4⟩ := by unfold validCorner; decide
  have v1 : validCorner ⟨1, 3⟩ := by unfold validCorner; decide
  have v2 : validCorner ⟨2, 1⟩ := by unfold validCorner; decide
  have j0 : (⟨⟨0, 2⟩, ⟨1, 1⟩, [true]⟩ : boundaryInterface).joins ⟨0, 4⟩ ⟨1, 3⟩ := by
    unfold boundaryInterface.joins boundaryInterface.gluesAt
    decide
  have j1 : (⟨⟨1, 4⟩, ⟨2, 3⟩, [true]⟩ : boundaryInterface).joins ⟨1, 3⟩ ⟨2, 1⟩ := by
    unfold boundaryInterface.joins boundaryInterface.gluesAt
    decide
  have j2 : (⟨⟨2, 1⟩, ⟨0, 4⟩, [false]⟩ : boundaryInterface).joins ⟨2, 1⟩ ⟨0, 4⟩ := by
    unfold boundaryInterface.joins boundaryInterface.gluesAt
    decide
  have h1 : threePatches.sidesInOneInterface := by
    unfold gsBoxTopology.sidesInOneInterface
    decide
  ⟨rfl, rfl, v0, v1, v2, List.Perm.refl _, j0, j1, j2, h1,
    three_patches_vertex_singular threePatches 4 3 1 _ _ _ rfl rfl v0 v1 v2 (List.Perm.refl _)
      j0 j1 j2 h1 0⟩

/-- The result of the walks and scans of C8 on `threePatches`, evaluated: the walk
from the corner of patch 0 goes to patch 1 first, the walks from the corners of
patches 1 and 2 go to patch 0 first. -/
theorem threePatches_walks :
    threePatches.getCornerList 3 ⟨0, 4⟩ = .ok (true, [⟨0, 4⟩, ⟨1, 3⟩, ⟨2, 1⟩])
    ∧ threePatches.getCornerList 3 ⟨1, 3⟩ = .ok (true, [⟨1, 3⟩, ⟨0, 4⟩, ⟨2, 1⟩])
    ∧ threePatches.getCornerList 3 ⟨2, 1⟩ = .ok (true, [⟨2, 1⟩, ⟨0, 4⟩, ⟨1, 3⟩])
    ∧ threePatches.getEVs 26 = .ok [[⟨0, 4⟩, ⟨1, 3⟩, ⟨2, 1⟩]]
    ∧ threePatches.getOVs 26 = .ok [] := by
  decide

end ThreeAtVertexClaim

end gismo
